import Mathlib

/-!
# Verification of the google-review orchestration core

A shallow embedding, in Lean 4, of the persistence and orchestration core of
the `google-review` repository:

* `services/url_normalizer.py` — identity resolution (URL cleaning,
  canonicalization, cache keys), including a faithful model of the subset of
  Python's `urllib.parse` that it uses (`urlparse`, `urlunparse`, `parse_qs`,
  `urlencode`, `quote`, `unquote`) and of `hashlib.sha256` hexdigests;
* `services/review_store.py` — the deduplicating review store
  (`upsert_place_reviews`);
* `services/cache_store.py` — the TTL cache (`get_cached_analysis`,
  `set_cached_analysis`);
* `services/task_queue.py` — the dedup task queue (`submit_task`,
  `get_task_result`) and the `routes/api_tasks.py` result route;
* `services/apify_client.py` — token-guard behaviour of `scrape_reviews`,
  `search_places_by_text`, `search_places_bulk`;
* `scripts/build_xinyi_db.py` — the per-item analysis pipeline
  (`analyze_catalog._process_one`) and the discovery loop
  (`discover_xinyi_places`).

Strings are modelled as `List Char` (`Str` below); machine behaviour that the
source leaves abstract (Python's seeded `hash`, wall-clock timestamps, JSON
serialization of opaque payloads, fresh UUIDs) enters as explicit parameters.
SQLite tables are modelled as in-memory lists of rows; each store operation is
a pure state transformer mirroring the SQL the source executes.
-/

namespace GR

/-- Strings are modelled as lists of characters so that the parsing code of
the embedding can recurse structurally. -/
abbrev Str := List Char

/-- The characters of a Lean string literal. -/
def str (s : String) : Str := s.data

/-- ASCII lowercasing, as applied by Python `.lower()` on the ASCII strings
this code base handles (URLs, query keys, domains). -/
def pyLower (s : Str) : Str := s.map Char.toLower

/-- Python truthiness of an optional string: `None` and `""` are falsy. -/
def truthy : Option Str → Bool
  | none => false
  | some s => !s.isEmpty

/-- Python `a or b` on optional strings (`None`/`""` falsy). -/
def pyOr (a b : Option Str) : Option Str := if truthy a then a else b

/-- Python `str(x)` on an optional string: `None` renders as `"None"` (as it
does inside an f-string). -/
def pyStr : Option Str → Str
  | none => str "None"
  | some s => s

/-- Python whitespace used by `str.strip()` (ASCII subset; the inputs the
source strips are URLs and query text). -/
def isPyWs (c : Char) : Bool :=
  c = ' ' || c = '\t' || c = '\n' || c = '\r' || c = '\x0b' || c = '\x0c'

/-- Python `str.strip()`. -/
def pyStrip (s : Str) : Str :=
  (s.dropWhile isPyWs).reverse.dropWhile isPyWs |>.reverse

/-- Python `str.rstrip(chars)`. -/
def pyRstrip (chars : Str) (s : Str) : Str :=
  s.reverse.dropWhile (fun c => chars.contains c) |>.reverse

/-- Boolean substring test (Python `needle in haystack`). -/
def strContains (haystack needle : Str) : Bool :=
  (List.range (haystack.length + 1)).any fun i => needle.isPrefixOf (haystack.drop i)

/-! ## SHA-256 (`hashlib.sha256(...).hexdigest()`)

A byte-level implementation over `Nat`, kept kernel-reducible so that
concrete cache keys can be settled by `decide`. -/

/-- UTF-8 encoding of one unicode scalar value, as a list of byte values. -/
def utf8EncodeChar (c : Char) : List Nat :=
  let v := c.toNat
  if v < 0x80 then [v]
  else if v < 0x800 then [0xC0 ||| (v >>> 6), 0x80 ||| (v &&& 0x3F)]
  else if v < 0x10000 then
    [0xE0 ||| (v >>> 12), 0x80 ||| ((v >>> 6) &&& 0x3F), 0x80 ||| (v &&& 0x3F)]
  else
    [0xF0 ||| (v >>> 18), 0x80 ||| ((v >>> 12) &&& 0x3F),
     0x80 ||| ((v >>> 6) &&& 0x3F), 0x80 ||| (v &&& 0x3F)]

/-- UTF-8 encoding of a string (Python `s.encode("utf-8")`). -/
def utf8Encode (s : Str) : List Nat := s.flatMap utf8EncodeChar

/-- The modulus for 32-bit words. -/
def w32 : Nat := 4294967296

/-- Right rotation of a 32-bit word. -/
def rotr (n x : Nat) : Nat := ((x >>> n) ||| (x <<< (32 - n))) % w32

/-- The 64 SHA-256 round constants. -/
def sha256K : List Nat :=
  [1116352408, 1899447441, 3049323471, 3921009573, 961987163, 1508970993,
   2453635748, 2870763221, 3624381080, 310598401, 607225278, 1426881987,
   1925078388, 2162078206, 2614888103, 3248222580, 3835390401, 4022224774,
   264347078, 604807628, 770255983, 1249150122, 1555081692, 1996064986,
   2554220882, 2821834349, 2952996808, 3210313671, 3336571891, 3584528711,
   113926993, 338241895, 666307205, 773529912, 1294757372, 1396182291,
   1695183700, 1986661051, 2177026350, 2456956037, 2730485921, 2820302411,
   3259730800, 3345764771, 3516065817, 3600352804, 4094571909, 275423344,
   430227734, 506948616, 659060556, 883997877, 958139571, 1322822218,
   1537002063, 1747873779, 1955562222, 2024104815, 2227730452, 2361852424,
   2428436474, 2756734187, 3204031479, 3329325298]

/-- The SHA-256 initial hash state. -/
def sha256Init : List Nat :=
  [1779033703, 3144134277, 1013904242, 2773480762,
   1359893119, 2600822924, 528734635, 1541459225]

/-- SHA-256 padding: append `0x80`, zeros, then the 64-bit big-endian bit
length. -/
def sha256Pad (msg : List Nat) : List Nat :=
  let L := msg.length
  let zeros := (120 - (L + 1) % 64) % 64
  let bitLen := 8 * L
  msg ++ [0x80] ++ List.replicate zeros 0 ++
    [(bitLen >>> 56) % 256, (bitLen >>> 48) % 256, (bitLen >>> 40) % 256, (bitLen >>> 32) % 256,
     (bitLen >>> 24) % 256, (bitLen >>> 16) % 256, (bitLen >>> 8) % 256, bitLen % 256]

/-- Split a list into chunks of size `n` (fuel-based so the kernel reduces
it). -/
def chunksGo (fuel n : Nat) (l : List Nat) : List (List Nat) :=
  match fuel, l with
  | 0, _ => []
  | _, [] => []
  | Nat.succ fuel, l => l.take n :: chunksGo fuel n (l.drop n)

/-- Split a list into chunks of size `n`. -/
def chunks (n : Nat) (l : List Nat) : List (List Nat) :=
  if n = 0 then [] else chunksGo l.length n l

/-- Four big-endian bytes as one 32-bit word. -/
def beWord : List Nat → Nat
  | [a, b, c, d] => a * 16777216 + b * 65536 + c * 256 + d
  | _ => 0

/-- The SHA-256 message schedule: extend the 16 block words to 64. -/
def sha256Schedule (ws : Array Nat) : Array Nat :=
  (List.range 48).foldl (fun acc i =>
    let t := i + 16
    let x15 := acc.getD (t - 15) 0
    let x2 := acc.getD (t - 2) 0
    let s0 := (rotr 7 x15) ^^^ (rotr 18 x15) ^^^ (x15 >>> 3)
    let s1 := (rotr 17 x2) ^^^ (rotr 19 x2) ^^^ (x2 >>> 10)
    acc.push ((acc.getD (t - 16) 0 + s0 + acc.getD (t - 7) 0 + s1) % w32)) ws

/-- One SHA-256 compression round. -/
def sha256Round (st : List Nat) (kw : Nat × Nat) : List Nat :=
  match st with
  | [a, b, c, d, e, f, g, h] =>
    let S1 := (rotr 6 e) ^^^ (rotr 11 e) ^^^ (rotr 25 e)
    let ch := (e &&& f) ^^^ ((w32 - 1 - e) &&& g)
    let t1 := (h + S1 + ch + kw.1 + kw.2) % w32
    let S0 := (rotr 2 a) ^^^ (rotr 13 a) ^^^ (rotr 22 a)
    let mj := (a &&& b) ^^^ (a &&& c) ^^^ (b &&& c)
    let t2 := (S0 + mj) % w32
    [(t1 + t2) % w32, a, b, c, (d + t1) % w32, e, f, g]
  | st => st

/-- Compress one 64-byte block into the running hash state. -/
def sha256Block (h : List Nat) (block : List Nat) : List Nat :=
  let ws := sha256Schedule ((chunks 4 block).map beWord).toArray
  let st := (sha256K.zip ws.toList).foldl sha256Round h
  (h.zip st).map (fun p => (p.1 + p.2) % w32)

/-- The SHA-256 digest of a byte message, as 32 bytes. -/
def sha256Digest (msg : List Nat) : List Nat :=
  let blocks := chunks 64 (sha256Pad msg)
  let hfin := blocks.foldl sha256Block sha256Init
  hfin.flatMap (fun x => [(x >>> 24) % 256, (x >>> 16) % 256, (x >>> 8) % 256, x % 256])

/-- A lowercase hex digit. -/
def hexDigit (n : Nat) : Char :=
  if n < 10 then Char.ofNat (48 + n) else Char.ofNat (87 + n)

/-- A byte as two lowercase hex digits. -/
def byteToHex (b : Nat) : Str := [hexDigit (b / 16), hexDigit (b % 16)]

/-- Python `hashlib.sha256(s.encode("utf-8")).hexdigest()`. -/
def sha256Hexdigest (s : Str) : Str :=
  (sha256Digest (utf8Encode s)).flatMap byteToHex

/-- The 16-character digest used by the url normalizer:
`hashlib.sha256(u.encode("utf-8")).hexdigest()[:16]`. -/
def sha16 (s : Str) : Str := (sha256Hexdigest s).take 16

/-! ## `urllib.parse` (the subset used by `services/url_normalizer.py`)

`urlparse`/`urlunparse`, `parse_qs`, `urlencode(..., doseq=True)`, `quote`,
`quote_plus`, `unquote`, `unquote_plus`, mirroring CPython's algorithms. -/

/-- The result of `urllib.parse.urlparse` (named 6-tuple). -/
structure UrlParts where
  scheme : Str
  netloc : Str
  path : Str
  params : Str
  query : Str
  fragment : Str
deriving DecidableEq, Repr

/-- Characters CPython allows in a URL scheme. -/
def isSchemeChar (c : Char) : Bool := c.isAlphanum || c = '+' || c = '-' || c = '.'

/-- Scheme extraction: the part before the first `:` is a scheme when it is
nonempty, starts with an ASCII letter, and uses only scheme characters; it is
returned lowercased (CPython `urlsplit`). -/
def splitScheme (url : Str) : Str × Str :=
  match url.findIdx? (· = ':') with
  | some i =>
    if 0 < i && (url.headD ' ').isAlpha && (url.take i).all isSchemeChar then
      (pyLower (url.take i), url.drop (i + 1))
    else ([], url)
  | none => ([], url)

/-- Netloc extraction: after a leading `//`, up to the first `/`, `?` or `#`
(CPython `_splitnetloc`). -/
def splitNetloc (rest : Str) : Str × Str :=
  if (str "//").isPrefixOf rest then
    let r := rest.drop 2
    (r.takeWhile (fun c => !(c = '/' || c = '?' || c = '#')),
     r.dropWhile (fun c => !(c = '/' || c = '?' || c = '#')))
  else ([], rest)

/-- Split at the first occurrence of a delimiter; the delimiter itself is
dropped, and the second component is empty when the delimiter is absent
(`url.split(d, 1)` guarded by `d in url`). -/
def splitOnceChar (d : Char) (s : Str) : Str × Str :=
  (s.takeWhile (· ≠ d),
   match s.dropWhile (· ≠ d) with
   | [] => []
   | _ :: t => t)

/-- Index of the last occurrence of a character (callers guarantee
presence; CPython `str.rfind`). -/
def lastIdxOf (d : Char) (s : Str) : Nat :=
  match s.reverse.findIdx? (· = d) with
  | some j => s.length - 1 - j
  | none => 0

/-- Index of the first occurrence of a character at or after `start`
(CPython `str.find(d, start)`). -/
def findFrom (d : Char) (start : Nat) (s : Str) : Option Nat :=
  match (s.drop start).findIdx? (· = d) with
  | some j => some (start + j)
  | none => none

/-- CPython `_splitparams`: split `;params` off the last path segment. -/
def splitParamsPy (p : Str) : Str × Str :=
  let i? := if p.contains '/' then findFrom ';' (lastIdxOf '/' p) p else findFrom ';' 0 p
  match i? with
  | none => (p, [])
  | some i => (p.take i, p.drop (i + 1))

/-- `urllib.parse.urlparse`. Note CPython splits the fragment before the
query, so a `?` after `#` belongs to the fragment. -/
def urlparse (url : Str) : UrlParts :=
  let s1 := splitScheme url
  let s2 := splitNetloc s1.2
  let s3 := splitOnceChar '#' s2.2
  let s4 := splitOnceChar '?' s3.1
  let s5 := splitParamsPy s4.1
  ⟨s1.1, s2.1, s5.1, s5.2, s4.2, s3.2⟩

/-- `urllib.parse.urlunparse` (via `urlunsplit`). -/
def urlunparse (p : UrlParts) : Str :=
  let u0 := if p.params.isEmpty then p.path else p.path ++ ';' :: p.params
  let u1 :=
    if !p.netloc.isEmpty || (str "//").isPrefixOf u0 then
      (str "//") ++ p.netloc ++
        (if !u0.isEmpty && u0.headD ' ' ≠ '/' then '/' :: u0 else u0)
    else u0
  let u2 := if !p.scheme.isEmpty then p.scheme ++ ':' :: u1 else u1
  let u3 := if !p.query.isEmpty then u2 ++ '?' :: p.query else u2
  if !p.fragment.isEmpty then u3 ++ '#' :: p.fragment else u3

/-- Characters `urllib.parse.quote` never escapes. -/
def isAlwaysSafe (c : Char) : Bool :=
  c.isAlphanum || c = '_' || c = '.' || c = '-' || c = '~'

/-- An uppercase hex digit (CPython percent-escapes use uppercase). -/
def hexDigitUpper (n : Nat) : Char :=
  if n < 10 then Char.ofNat (48 + n) else Char.ofNat (55 + n)

/-- Percent-encode one byte, keeping safe ASCII bytes as characters. -/
def quoteByte (safe : Str) (b : Nat) : Str :=
  let c := Char.ofNat b
  if b < 128 && (isAlwaysSafe c || safe.contains c) then [c]
  else ['%', hexDigitUpper (b / 16), hexDigitUpper (b % 16)]

/-- `urllib.parse.quote(s, safe)` over the UTF-8 bytes of `s`. -/
def quote (safe : Str) (s : Str) : Str := (utf8Encode s).flatMap (quoteByte safe)

/-- `urllib.parse.quote_plus(s, safe)`: when a space is present, quote with
space safe and then turn spaces into `+`. -/
def quotePlus (safe : Str) (s : Str) : Str :=
  if s.contains ' ' then
    (quote (safe ++ [' ']) s).map (fun c => if c = ' ' then '+' else c)
  else quote safe s

/-- ASCII hex digit test. -/
def isHexDigitChar (c : Char) : Bool :=
  c.isDigit || ('a' ≤ c && c ≤ 'f') || ('A' ≤ c && c ≤ 'F')

/-- Value of an ASCII hex digit. -/
def hexVal (c : Char) : Nat :=
  if c.isDigit then c.toNat - 48 else if 'a' ≤ c then c.toNat - 87 else c.toNat - 55

/-- Collect a maximal run of `%XX` escapes into bytes, returning the
remainder. -/
def pctRun : Str → List Nat × Str
  | c :: a :: b :: rest =>
    if c = '%' && isHexDigitChar a && isHexDigitChar b then
      let p := pctRun rest
      ((hexVal a * 16 + hexVal b) :: p.1, p.2)
    else ([], c :: a :: b :: rest)
  | s => ([], s)

/-- The U+FFFD replacement character (`errors="replace"`). -/
def replChar : Char := Char.ofNat 0xFFFD

/-- Is a byte a UTF-8 continuation byte? -/
def isCont (b : Nat) : Bool := 0x80 ≤ b && b < 0xC0

/-- UTF-8 decoding with replacement of ill-formed sequences (fuel-based). -/
def utf8DecodeGo : Nat → List Nat → Str
  | 0, _ => []
  | _, [] => []
  | Nat.succ f, b :: rest =>
    if b < 0x80 then Char.ofNat b :: utf8DecodeGo f rest
    else if 0xC2 ≤ b && b ≤ 0xDF then
      match rest with
      | b2 :: r2 =>
        if isCont b2 then Char.ofNat ((b - 0xC0) * 64 + (b2 - 0x80)) :: utf8DecodeGo f r2
        else replChar :: utf8DecodeGo f rest
      | [] => [replChar]
    else if 0xE0 ≤ b && b ≤ 0xEF then
      match rest with
      | b2 :: b3 :: r3 =>
        if isCont b2 && isCont b3 &&
            (b ≠ 0xE0 || 0xA0 ≤ b2) && (b ≠ 0xED || b2 < 0xA0) then
          Char.ofNat ((b - 0xE0) * 4096 + (b2 - 0x80) * 64 + (b3 - 0x80)) :: utf8DecodeGo f r3
        else replChar :: utf8DecodeGo f rest
      | rest => replChar :: utf8DecodeGo f rest
    else if 0xF0 ≤ b && b ≤ 0xF4 then
      match rest with
      | b2 :: b3 :: b4 :: r4 =>
        if isCont b2 && isCont b3 && isCont b4 &&
            (b ≠ 0xF0 || 0x90 ≤ b2) && (b ≠ 0xF4 || b2 < 0x90) then
          Char.ofNat ((b - 0xF0) * 262144 + (b2 - 0x80) * 4096 + (b3 - 0x80) * 64 + (b4 - 0x80))
            :: utf8DecodeGo f r4
        else replChar :: utf8DecodeGo f rest
      | rest => replChar :: utf8DecodeGo f rest
    else replChar :: utf8DecodeGo f rest

/-- UTF-8 decoding with replacement. -/
def utf8Decode (bs : List Nat) : Str := utf8DecodeGo bs.length bs

/-- Worker for `unquote`: literal characters pass through, maximal `%XX`
runs are decoded as UTF-8 byte groups. -/
def unquoteGo : Nat → Str → Str
  | 0, s => s
  | _, [] => []
  | Nat.succ f, c :: rest =>
    if c = '%' then
      let p := pctRun (c :: rest)
      if p.1.isEmpty then c :: unquoteGo f rest
      else utf8Decode p.1 ++ unquoteGo f p.2
    else c :: unquoteGo f rest

/-- `urllib.parse.unquote` (with CPython's fast path when no `%` occurs). -/
def unquote (s : Str) : Str :=
  if s.contains '%' then unquoteGo s.length s else s

/-- `urllib.parse.unquote_plus`: `+` becomes a space, then unquote. -/
def unquotePlus (s : Str) : Str :=
  unquote (s.map (fun c => if c = '+' then ' ' else c))

/-- `str.split(d)` (CPython: splitting the empty string yields `[""]`). -/
def splitOnCharGo (fuel : Nat) (d : Char) (s : Str) : List Str :=
  match fuel with
  | 0 => [s]
  | Nat.succ f =>
    match s.dropWhile (· ≠ d) with
    | [] => [s]
    | _ :: t => s.takeWhile (· ≠ d) :: splitOnCharGo f d t

/-- `str.split(d)`. -/
def splitOnChar (d : Char) (s : Str) : List Str := splitOnCharGo s.length d s

/-- `urllib.parse.parse_qsl(qs)` with `keep_blank_values=False`: empty
chunks, chunks without `=`, and blank values are dropped; names and values
are `unquote_plus`-decoded. -/
def parseQsl (qs : Str) : List (Str × Str) :=
  (splitOnChar '&' qs).foldr
    (fun nv acc =>
      if nv.isEmpty then acc
      else
        match nv.dropWhile (· ≠ '=') with
        | [] => acc
        | _ :: value =>
          if value.isEmpty then acc
          else (unquotePlus (nv.takeWhile (· ≠ '=')), unquotePlus value) :: acc)
    []

/-- Append a value under a key in an ordered multi-dict (first-occurrence
key order, values in arrival order — CPython dict semantics in
`parse_qs`). -/
def insertGrouped (k v : Str) : List (Str × List Str) → List (Str × List Str)
  | [] => [(k, [v])]
  | (k0, vs) :: t =>
    if k0 = k then (k0, vs ++ [v]) :: t else (k0, vs) :: insertGrouped k v t

/-- `urllib.parse.parse_qs(qs)` as an ordered association list. -/
def parseQs (qs : Str) : List (Str × List Str) :=
  (parseQsl qs).foldl (fun acc kv => insertGrouped kv.1 kv.2 acc) []

/-- First value under a key: `query.get(k, [None])[0]`. -/
def qsGet (l : List (Str × List Str)) (k : Str) : Option Str :=
  match l with
  | [] => none
  | (k0, vs) :: t => if k0 = k then vs.headD [] |> some else qsGet t k

/-- Join pieces with a delimiter character. -/
def intercalateChar (d : Char) : List Str → Str
  | [] => []
  | [x] => x
  | x :: xs => x ++ d :: intercalateChar d xs

/-- `urllib.parse.urlencode(d, doseq=True)` on an ordered multi-dict: each
key/value is `quote_plus`-encoded and pairs are joined with `&`. -/
def urlencode (l : List (Str × List Str)) : Str :=
  intercalateChar '&'
    (l.flatMap fun kv => kv.2.map fun v => quotePlus [] kv.1 ++ '=' :: quotePlus [] v)

/-! ## `services/url_normalizer.py` -/

/-- The query-parameter allow-list (`ALLOWED_QUERY_KEYS`). -/
def ALLOWED_QUERY_KEYS : List Str :=
  [str "cid", str "ftid", str "q", str "query", str "query_place_id", str "hl", str "gl"]

/-- The tracking/ad parameters explicitly dropped by
`clean_tracking_params`. -/
def droppedKeys : List Str :=
  [str "g_st", str "fbclid", str "gclid", str "mc_id", str "mc_eid"]

/-- The characters excluded by the URL regex character class
`[^\s<>"'）)]`. -/
def isUrlStopChar (c : Char) : Bool :=
  isPyWs c || c = '<' || c = '>' || c = '"' || c = '\'' || c = '）' || c = ')'

/-- The punctuation stripped from the tail of an extracted URL
(`url.rstrip(")。).,，；;")`). -/
def rstripSet : Str := str ")。).,，；;"

/-- Try to match the regex `https?://[^\s<>"'）)]+` at the head of `s`. -/
def matchUrlAt (s : Str) : Option Str :=
  let p :=
    if (str "https://").isPrefixOf s then some 8
    else if (str "http://").isPrefixOf s then some 7
    else none
  match p with
  | none => none
  | some n =>
    let body := (s.drop n).takeWhile (fun c => !isUrlStopChar c)
    if body.isEmpty then none else some (s.take n ++ body)

/-- Scan for the first position where the URL regex matches (regex
left-to-right search). -/
def scanUrl : Str → Option Str
  | [] => none
  | c :: rest =>
    match matchUrlAt (c :: rest) with
    | some u => some u
    | none => scanUrl rest

/-- `extract_first_url`: first `http(s)://` URL in free text, with trailing
punctuation stripped; `None` when nothing matches or stripping empties it. -/
def extract_first_url (text : Str) : Option Str :=
  match scanUrl text with
  | none => none
  | some u =>
    let u := pyRstrip rstripSet (pyStrip u)
    if u.isEmpty then none else some u

/-- `_is_google_maps_domain`. -/
def is_google_maps_domain (netloc : Str) : Bool :=
  let n := pyLower netloc
  strContains n (str "google.com") || strContains n (str "google.com.tw") ||
    strContains n (str "google.com.hk") || strContains n (str "google.co") ||
    (str "maps.google.").isPrefixOf n

/-- The filter `clean_tracking_params` applies to each parsed query key:
drop `utm_*`, the known tracking keys, and everything not on the
allow-list. -/
def keepQueryKey (k : Str) : Bool :=
  let kl := pyLower k
  !(str "utm_").isPrefixOf kl && !droppedKeys.contains kl && ALLOWED_QUERY_KEYS.contains k

/-- `clean_tracking_params`: re-encode the query keeping only allow-listed
parameters. -/
def clean_tracking_params (url : Str) : Str :=
  let parsed := urlparse url
  let cleaned := (parseQs parsed.query).filter (fun kv => keepQueryKey kv.1)
  urlunparse { parsed with query := urlencode cleaned }

/-- The result of `parse_maps_components`. -/
structure MapsComponents where
  place_id : Option Str
  cid : Option Str
  display_name : Option Str
deriving DecidableEq, Repr

/-- The body of `parse_maps_components` after parsing: extraction of
`place_id`, `cid` and a display name from the (lowercased) netloc, the path
and the parsed query of the URL. -/
def componentsFromParts (netloc p : Str) (gl : List (Str × List Str)) : MapsComponents :=
  if !is_google_maps_domain netloc && !(str "maps.app.goo.gl").isPrefixOf netloc then
    ⟨none, none, none⟩
  else
    let cid := match qsGet gl (str "cid") with
      | some c => if !c.isEmpty then some c else none
      | none => none
    let fromQ : Option Str :=
      match qsGet gl (str "q") with
      | some qp =>
        if (str "place_id:").isPrefixOf qp then
          let rest := qp.drop (str "place_id:").length
          if rest.isEmpty then none else some rest
        else none
      | none => none
    let place_id := match qsGet gl (str "query_place_id") with
      | some qp => if !qp.isEmpty then some qp else fromQ
      | none => fromQ
    let segments := (splitOnChar '/' p).filter (fun s => !s.isEmpty)
    let display_name :=
      if 3 ≤ segments.length && segments.headD [] = str "maps" &&
          (segments.drop 1).headD [] = str "place" then
        let dn := unquote ((segments.drop 2).headD [])
        if dn.isEmpty then none else some dn
      else none
    ⟨place_id, cid, display_name⟩

/-- `parse_maps_components`: best-effort extraction of `place_id`, `cid` and
a display name from a Google Maps URL. -/
def parse_maps_components (url : Str) : MapsComponents :=
  let parsed := urlparse url
  componentsFromParts (pyLower parsed.netloc) parsed.path (parseQs parsed.query)

/-- The result of `canonicalize`. -/
structure CanonResult where
  canonical_url : Str
  cache_key : Str
  display_name : Str
  place_id : Option Str
  cid : Option Str
deriving DecidableEq, Repr

/-- `canonicalize`: stable canonical URL and cache key for a Google Maps
URL.  (The source also computes a local `path` variable that it never uses;
it is omitted here.) -/
def canonicalize (url : Str) : CanonResult :=
  let cleaned_url := clean_tracking_params url
  let components := parse_maps_components cleaned_url
  let place_id := components.place_id
  let cid := components.cid
  let display_name := (components.display_name).getD []
  let parsed := urlparse cleaned_url
  let base_netloc :=
    if is_google_maps_domain parsed.netloc then str "www.google.com" else parsed.netloc
  let canonical_url :=
    match place_id, cid with
    | some pid, _ =>
      str "https://" ++ base_netloc ++ str "/maps/place/?q=place_id:" ++ pid
    | none, some c =>
      str "https://maps.google.com/?cid=" ++ c ++ str "&t=m"
    | none, none =>
      let safe_url := clean_tracking_params cleaned_url
      let parsed2 := urlparse safe_url
      let parsed2 :=
        if is_google_maps_domain parsed2.netloc &&
            !(str "/maps").isPrefixOf parsed2.path then
          { parsed2 with path := str "/maps" }
        else parsed2
      urlunparse ⟨str "https", base_netloc, parsed2.path, [], parsed2.query, []⟩
  let cache_key :=
    match place_id, cid with
    | some pid, _ => str "place_id:" ++ pid
    | none, some c => str "cid:" ++ c
    | none, none => str "url:" ++ sha16 canonical_url
  ⟨canonical_url, cache_key, display_name, place_id, cid⟩

/-- The result of `normalize_input_to_canonical`. -/
structure NormResult where
  canonical_url : Str
  cache_key : Str
  display_name : Str
  input_type : Str
  resolved_from : Str
  place_id : Option Str
  cid : Option Str
deriving DecidableEq, Repr

/-- `normalize_input_to_canonical`: accept any text / URL / place name and
produce the normalized structure. -/
def normalize_input_to_canonical (raw_text : Str) : NormResult :=
  let text := pyStrip raw_text
  match extract_first_url text with
  | some url =>
    let netloc := pyLower (urlparse url).netloc
    let is_short :=
      (str "maps.app.goo.gl").isPrefixOf netloc || (str "goo.gl").isPrefixOf netloc
    let norm := canonicalize url
    { canonical_url := norm.canonical_url
      cache_key := norm.cache_key
      display_name := if norm.display_name.isEmpty then text else norm.display_name
      input_type := str "url"
      resolved_from := if is_short then str "short_url" else str "long_url"
      place_id := norm.place_id
      cid := norm.cid }
  | none =>
    let encoded := quote (str "/") text
    let search_url := str "https://www.google.com/maps/search/" ++ encoded
    { canonical_url := search_url
      cache_key := str "search_url:" ++ sha16 search_url
      display_name := text
      input_type := str "search"
      resolved_from := str "search_text"
      place_id := none
      cid := none }

/-! ## Structured URL families for the general identity-resolution theorems

The amended C3/C4 theorems quantify over URLs rendered from components
drawn from restricted (unreserved-ASCII) character sets; the predicates
below state those side conditions. -/

/-- Unreserved characters for query keys and values (no percent, plus,
separators, or trailing-punctuation characters). -/
def qSafeChar (c : Char) : Bool := c.isAlphanum || c = '_' || c = '-' || c = '~'

/-- Characters allowed in a path component. -/
def pathChar (c : Char) : Bool := c.isAlphanum || c = '/' || c = '_' || c = '-' || c = '~'

/-- Characters allowed in a host. -/
def hostChar (c : Char) : Bool := c.isAlphanum || c = '.' || c = '-'

/-- A well-formed host: nonempty, host characters, ending alphanumeric. -/
def hostOk (h : Str) : Bool :=
  !h.isEmpty && h.all hostChar && (h.getLastD ' ').isAlphanum

/-- A well-formed path: empty or `/`-rooted over path characters. -/
def pathOk (p : Str) : Bool :=
  p.isEmpty || ((str "/").isPrefixOf p && p.all pathChar)

/-- A well-formed scheme for `urlparse`: nonempty, letter-initial, scheme
characters only. -/
def schemeOk (s : Str) : Bool :=
  !s.isEmpty && (s.headD ' ').isAlpha && s.all isSchemeChar

/-- Well-formed query pairs: nonempty keys and values over unreserved
characters. -/
def queryOkKV (l : List (Str × Str)) : Bool :=
  l.all fun kv => !kv.1.isEmpty && kv.1.all qSafeChar && !kv.2.isEmpty && kv.2.all qSafeChar

/-- Render query pairs as `k1=v1&k2=v2&...`. -/
def renderQuery (l : List (Str × Str)) : Str :=
  intercalateChar '&' (l.map fun kv => kv.1 ++ '=' :: kv.2)

/-- Attach a query string to a URL (empty query: no `?`). -/
def optQ (qs : Str) : Str := if qs.isEmpty then [] else '?' :: qs

/-- Render a URL from components. -/
def renderUrl (scheme host path : Str) (q : List (Str × Str)) : Str :=
  scheme ++ str "://" ++ host ++ path ++ (if q.isEmpty then [] else '?' :: renderQuery q)

/-- Group flat pairs into the ordered multi-dict (`parse_qs` grouping). -/
def groupPairs (l : List (Str × Str)) : List (Str × List Str) :=
  l.foldl (fun acc kv => insertGrouped kv.1 kv.2 acc) []

/-- Flatten an ordered multi-dict back into pairs. -/
def ungroup (gl : List (Str × List Str)) : List (Str × Str) :=
  gl.flatMap fun kv => kv.2.map fun v => (kv.1, v)

/-- A well-formed grouped query: distinct keys, no empty value group. -/
def wellGrouped (gl : List (Str × List Str)) : Prop :=
  (gl.map (fun kv => kv.1)).Nodup ∧ ∀ kv ∈ gl, kv.2 ≠ []

/-- Well-formed grouped query pairs over unreserved characters: nonempty
keys over `qSafeChar`, and in each group at least one value, each nonempty
over `qSafeChar`. -/
def groupOkKV (gl : List (Str × List Str)) : Bool :=
  gl.all fun kv => !kv.1.isEmpty && kv.1.all qSafeChar &&
    !kv.2.isEmpty && kv.2.all fun v => !v.isEmpty && v.all qSafeChar

/-- `canonicalize` on pre-parsed components: the result of
`canonicalize (renderUrl s h p l)` as a function of the host, the path and
the cleaned grouped query (`canonicalize_render` proves the
correspondence; the scheme is discarded by the source). -/
def canonFromParts (h p : Str) (gl : List (Str × List Str)) : CanonResult :=
  let cq := urlencode gl
  let components := componentsFromParts (pyLower h) p gl
  let base_netloc := if is_google_maps_domain h then str "www.google.com" else h
  let canonical_url := match components.place_id, components.cid with
    | some pid, _ => str "https://" ++ base_netloc ++ str "/maps/place/?q=place_id:" ++ pid
    | none, some c => str "https://maps.google.com/?cid=" ++ c ++ str "&t=m"
    | none, none =>
      let path2 :=
        if is_google_maps_domain h && !(str "/maps").isPrefixOf p then str "/maps" else p
      urlunparse ⟨str "https", base_netloc, path2, [], cq, []⟩
  let cache_key := match components.place_id, components.cid with
    | some pid, _ => str "place_id:" ++ pid
    | none, some c => str "cid:" ++ c
    | none, none => str "url:" ++ sha16 canonical_url
  ⟨canonical_url, cache_key, components.display_name.getD [], components.place_id,
    components.cid⟩

/-! ## `services/review_store.py`

The `place_reviews` SQLite table as a list of rows, and
`upsert_place_reviews` / `_insert_ignore_then_touch_seen` as a pure state
transformer.  Python's process-seeded `hash` enters as a parameter
`pyHash`; `json.dumps(r)` of the full raw dict is carried on the input as
`rawJson`; numeric star values are modelled as rationals (the code's
`float(...)` conversion of an already-numeric value). -/

/-- Python `a or b` on optional numbers (`None`, `0` and `0.0` falsy). -/
def pyOrNum (a b : Option Rat) : Option Rat :=
  match a with
  | some x => if x = 0 then b else a
  | none => b

/-- Python `a or b or None` on optional strings, normalising a falsy result
to `None`. -/
def pyOrNone (a b : Option Str) : Option Str :=
  if truthy a then a else if truthy b then b else none

/-- One raw review dict, restricted to the keys
`_insert_ignore_then_touch_seen` reads.  `review_id_` stands for the
`"review_id"` key (the computed id reuses the plain name). -/
structure InReview where
  reviewId : Option Str
  review_id_ : Option Str
  idField : Option Str
  reviewUrl : Option Str
  publishedAtDate : Option Str
  publishAt : Option Str
  reviewDate : Option Str
  starsF : Option Rat
  ratingF : Option Rat
  reviewRating : Option Rat
  textF : Option Str
  reviewText : Option Str
  nameF : Option Str
  reviewerName : Option Str
  reviewImageUrls : Option (List (Option Str))
  photosF : Option (List (Option Str))
  rawJson : Str
deriving DecidableEq, Repr

/-- `_to_iso`: best-effort ISO timestamp passthrough. -/
def to_iso (dt : Option Str) : Option Str :=
  match dt with
  | none => none
  | some s =>
    if s.isEmpty then none
    else
      let s2 := pyStrip s
      if s2.isEmpty then none else some s2

/-- Decimal rendering of a natural number. -/
def natToStr (n : Nat) : Str := Nat.toDigits 10 n

/-- The stored review id: the first truthy id key, stripped, else the
`fallback:`-hash of the review URL or of `"date-text"`. -/
def reviewIdOf (pyHash : Str → Int) (r : InReview) : Str :=
  let rid := pyStrip ((pyOrNone (pyOrNone r.reviewId r.review_id_) r.idField).getD [])
  if !rid.isEmpty then rid
  else
    let fallback :=
      if truthy r.reviewUrl then r.reviewUrl.getD []
      else pyStr (pyOrNone r.publishedAtDate r.publishAt) ++ '-' :: (r.textF.getD []).take 80
    str "fallback:" ++ natToStr (pyHash fallback).natAbs

/-- The filtered photo-URL list: `reviewImageUrls or photos or []`, string
entries starting with `http`, first 8. -/
def photoUrlsOf (r : InReview) : List Str :=
  let base : List (Option Str) :=
    match r.reviewImageUrls with
    | some l => if l.isEmpty then (r.photosF.getD []) else l
    | none => r.photosF.getD []
  (base.filterMap fun o =>
    match o with
    | some s => if (str "http").isPrefixOf s then some s else none
    | none => none).take 8

/-- One row of the `place_reviews` table.  `photo_urls_json` holds the
photo-URL list itself (its JSON rendering is abstracted); `stars` the
converted float value. -/
structure ReviewRow where
  rowid : Nat
  canonical_url : Str
  review_id : Str
  published_at : Option Str
  stars : Option Rat
  text : Str
  reviewer_name : Option Str
  has_photo : Bool
  photo_urls_json : Option (List Str)
  raw_json : Str
  scraped_at : Str
  first_seen_at : Str
  last_seen_at : Str
deriving DecidableEq, Repr

/-- The review store state. -/
structure ReviewDB where
  rows : List ReviewRow
  nextId : Nat
deriving DecidableEq, Repr

/-- The `UNIQUE (canonical_url, review_id)` key test. -/
def keyMatch (url rid : Str) (row : ReviewRow) : Bool :=
  if row.canonical_url = url ∧ row.review_id = rid then true else false

/-- Does a row with the given key exist (the `INSERT OR IGNORE` conflict
test)? -/
def existsKey (db : ReviewDB) (url rid : Str) : Bool :=
  db.rows.any (keyMatch url rid)

/-- The `UPDATE ... SET last_seen_at = ?, scraped_at = ?, raw_json = ? WHERE
canonical_url = ? AND review_id = ?` touch applied to one row. -/
def touchRow (url rid now raw : Str) (row : ReviewRow) : ReviewRow :=
  if keyMatch url rid row then
    { row with last_seen_at := now, scraped_at := now, raw_json := raw }
  else row

/-- The row built for a fresh `INSERT OR IGNORE`. -/
def newRow (pyHash : Str → Int) (url now : Str) (rowid : Nat) (r : InReview) : ReviewRow :=
  let photo_urls := photoUrlsOf r
  { rowid := rowid
    canonical_url := url
    review_id := reviewIdOf pyHash r
    published_at := to_iso (pyOrNone (pyOrNone r.publishedAtDate r.publishAt) r.reviewDate)
    stars := pyOrNum (pyOrNum r.starsF r.ratingF) r.reviewRating
    text := (pyOr r.textF r.reviewText).getD []
    reviewer_name := pyOrNone r.nameF r.reviewerName
    has_photo := !photo_urls.isEmpty
    photo_urls_json := if photo_urls.isEmpty then none else some photo_urls
    raw_json := r.rawJson
    scraped_at := now
    first_seen_at := now
    last_seen_at := now }

/-- Process one element of the review list: skip non-dicts, otherwise
`INSERT OR IGNORE` followed by the `UPDATE ... SET last_seen_at, scraped_at,
raw_json` touch.  The accumulator carries `(inserted, processed)` and the
store. -/
def upsertStep (pyHash : Str → Int) (url : Str) (now : Str)
    (st : (Nat × Nat) × ReviewDB) (r? : Option InReview) : (Nat × Nat) × ReviewDB :=
  match r? with
  | none => st
  | some r =>
    let rid := reviewIdOf pyHash r
    let conflict := existsKey st.2 url rid
    let db1 : ReviewDB :=
      if conflict then st.2
      else { rows := st.2.rows ++ [newRow pyHash url now st.2.nextId r], nextId := st.2.nextId + 1 }
    let db2 : ReviewDB := { db1 with rows := db1.rows.map (touchRow url rid now r.rawJson) }
    ((st.1.1 + (if conflict then 0 else 1), st.1.2 + 1), db2)

/-- `upsert_place_reviews` / `_insert_ignore_then_touch_seen`: returns
`(inserted_new, total_processed)` and the new store. -/
def upsert_place_reviews (pyHash : Str → Int) (db : ReviewDB) (canonical_url : Str)
    (reviews : List (Option InReview)) (now : Str) : (Nat × Nat) × ReviewDB :=
  if canonical_url.isEmpty || reviews.isEmpty then ((0, 0), db)
  else reviews.foldl (upsertStep pyHash canonical_url now) ((0, 0), db)

/-- The fields of a stored review row that a re-scrape must leave unchanged
(everything except `last_seen_at`, `scraped_at` and `raw_json`). -/
def frameEq (a b : ReviewRow) : Prop :=
  b.rowid = a.rowid ∧ b.canonical_url = a.canonical_url ∧ b.review_id = a.review_id ∧
    b.published_at = a.published_at ∧ b.stars = a.stars ∧ b.text = a.text ∧
    b.reviewer_name = a.reviewer_name ∧ b.has_photo = a.has_photo ∧
    b.photo_urls_json = a.photo_urls_json ∧ b.first_seen_at = a.first_seen_at

/-- A fixed stand-in for Python's process-seeded `hash`, used only in
concrete witnesses. -/
def pyHash0 : Str → Int := fun _ => 0

/-- A concrete raw review carrying the stable id `r1`. -/
def rev0 : InReview :=
  { reviewId := some (str "r1")
    review_id_ := none
    idField := none
    reviewUrl := none
    publishedAtDate := some (str "2024-01-01T00:00:00Z")
    publishAt := none
    reviewDate := none
    starsF := some 4
    ratingF := none
    reviewRating := none
    textF := some (str "good")
    reviewText := none
    nameF := some (str "ann")
    reviewerName := none
    reviewImageUrls := none
    photosF := none
    rawJson := str "new-raw" }

/-- A concrete stored row for the same `(place, review)` key as `rev0`. -/
def row0 : ReviewRow :=
  { rowid := 0
    canonical_url := str "u"
    review_id := str "r1"
    published_at := some (str "2024-01-01T00:00:00Z")
    stars := some 4
    text := str "good"
    reviewer_name := some (str "ann")
    has_photo := false
    photo_urls_json := none
    raw_json := str "old-raw"
    scraped_at := str "t0"
    first_seen_at := str "t0"
    last_seen_at := str "t0" }

/-- A one-row review store holding `row0`. -/
def revDB0 : ReviewDB := { rows := [row0], nextId := 1 }

/-! ## `services/cache_store.py`

The `analysis_cache` table (PRIMARY KEY `(cache_key, mode)`) as a list of
entries.  Timestamps are integers on a single timeline (the ISO round-trip
through `datetime` is abstracted); `result_json` carries the serialized
payload. -/

/-- The default `CACHE_TTL_SECONDS` (7 days). -/
def CACHE_TTL_SECONDS : Int := 7 * 24 * 60 * 60

/-- One row of `analysis_cache`. -/
structure CacheEntryRec where
  cache_key : Str
  mode : Str
  canonical_url : Str
  display_name : Str
  result_json : Str
  created_at : Int
deriving DecidableEq, Repr

/-- The `WHERE cache_key = ? AND mode = ?` test. -/
def cacheMatch (key mode : Str) (e : CacheEntryRec) : Bool :=
  if e.cache_key = key ∧ e.mode = mode then true else false

/-- `get_cached_analysis`: the row for `(key, mode)` if any; TTL is applied
at read time, and an expired entry is a miss unless `allow_stale`. -/
def get_cached_analysis (ttl : Int) (db : List CacheEntryRec) (key mode : Str)
    (allow_stale : Bool) (now : Int) : Option CacheEntryRec :=
  match db.find? (cacheMatch key mode) with
  | none => none
  | some e =>
    if now - e.created_at > ttl then
      if !allow_stale then none else some e
    else some e

/-- `set_cached_analysis`: whole-record upsert for `(key, mode)` with
`created_at = now` (the `INSERT ... ON CONFLICT ... DO UPDATE`). -/
def set_cached_analysis (db : List CacheEntryRec) (key mode canonical_url display_name
    result_json : Str) (now : Int) : List CacheEntryRec :=
  let e : CacheEntryRec := ⟨key, mode, canonical_url, display_name, result_json, now⟩
  if db.any (cacheMatch key mode) then
    db.map (fun x => if cacheMatch key mode x then e else x)
  else db ++ [e]

/-! ## `services/task_queue.py` and `routes/api_tasks.py`

The in-process task dicts become functions from ids/keys to optional
values (Python dict semantics); `time.time()` is an integer parameter,
`uuid.uuid4()` a caller-supplied fresh id.  `_run_worker`'s pipeline body
is external to the claims settled here, but its terminal bookkeeping (the
final status update and the `finally` removal of the dedupe mapping) is
modelled by `workerFinish`. -/

/-- `TASK_TTL_SECONDS` (2 hours). -/
def TASK_TTL_SECONDS : Int := 2 * 60 * 60

/-- One task record (`_make_task_dict` fields used by the queue logic). -/
structure Task where
  task_id : Str
  status : Str
  progress : Int
  message : Str
  mode : Str
  input_raw : Str
  canonical_url : Str
  display_name : Str
  cache_key : Str
  final_cache_key : Str
  created_at : Int
  updated_at : Int
  error : Option Str
deriving DecidableEq, Repr

/-- The queue state: `_tasks_by_id` and `_running_by_dedupe_key`. -/
structure QState where
  tasksById : Str → Option Task
  runningByDedupe : Str → Option Str

/-- `_cleanup_expired`: drop tasks older than the TTL and the dedupe
mappings that point to them. -/
def cleanup_expired (st : QState) (now : Int) : QState :=
  { tasksById := fun tid =>
      match st.tasksById tid with
      | some t => if now - t.created_at > TASK_TTL_SECONDS then none else some t
      | none => none
    runningByDedupe := fun dk =>
      match st.runningByDedupe dk with
      | some tid =>
        match st.tasksById tid with
        | some t => if now - t.created_at > TASK_TTL_SECONDS then none else some tid
        | none => some tid
      | none => none }

/-- `_make_task_dict`. -/
def make_task (task_id mode input_raw canonical_url display_name cache_key : Str)
    (now : Int) : Task :=
  { task_id := task_id
    status := str "pending"
    progress := 0
    message := str "任務已建立，等待執行"
    mode := mode
    input_raw := input_raw
    canonical_url := canonical_url
    display_name := display_name
    cache_key := cache_key
    final_cache_key := cache_key
    created_at := now
    updated_at := now
    error := none }

/-- The dedupe key `f"{cache_key}:{mode}"` of an input/mode pair. -/
def dedupeKeyOf (input_raw mode : Str) : Str :=
  (normalize_input_to_canonical input_raw).cache_key ++ ':' :: mode

/-- Create a fresh task, register it, and point the dedupe mapping at it
(the tail of `submit_task`). -/
def submitFresh (st : QState) (input_raw mode canonical_url display_name cache_key
    dedupe_key : Str) (now : Int) (newId : Str) : Task × QState :=
  let task := make_task newId mode input_raw canonical_url display_name cache_key now
  (task,
   { tasksById := fun k => if k = newId then some task else st.tasksById k
     runningByDedupe := fun k => if k = dedupe_key then some newId else st.runningByDedupe k })

/-- `submit_task`: cleanup, normalize, and either return the live task under
the same dedupe key or create a fresh one. -/
def submit_task (st : QState) (input_raw : Str) (mode : Str) (now : Int) (newId : Str) :
    Task × QState :=
  let st1 := cleanup_expired st now
  let info := normalize_input_to_canonical input_raw
  let canonical_url := info.canonical_url
  let display_name := if info.display_name.isEmpty then input_raw else info.display_name
  let cache_key := info.cache_key
  let dedupe_key := dedupeKeyOf input_raw mode
  match st1.runningByDedupe dedupe_key with
  | some existing_task_id =>
    match st1.tasksById existing_task_id with
    | some existing =>
      if now - existing.created_at ≤ TASK_TTL_SECONDS ∧
          (existing.status = str "pending" ∨ existing.status = str "running") then
        (existing, st1)
      else
        submitFresh st1 input_raw mode canonical_url display_name cache_key dedupe_key now newId
    | none =>
      submitFresh st1 input_raw mode canonical_url display_name cache_key dedupe_key now newId
  | none =>
    submitFresh st1 input_raw mode canonical_url display_name cache_key dedupe_key now newId

/-- The terminal bookkeeping of `_run_worker`: set the final status
(`done`/`error`), then — in the `finally` block — drop every dedupe mapping
that points at this task. -/
def workerFinish (st : QState) (task_id status message : Str) (err : Option Str)
    (now : Int) : QState :=
  { tasksById := fun k =>
      if k = task_id then
        match st.tasksById task_id with
        | some t => some { t with
            status := status
            message := message
            error := err
            progress := if status = str "done" then 100 else t.progress
            updated_at := now }
        | none => none
      else st.tasksById k
    runningByDedupe := fun dk =>
      match st.runningByDedupe dk with
      | some tid => if tid = task_id then none else some tid
      | none => none }

/-- `get_task_status`: cleanup then copy. -/
def get_task_status (st : QState) (task_id : Str) (now : Int) : Option Task :=
  (cleanup_expired st now).tasksById task_id

/-- `final_cache_key or cache_key` of a task. -/
def finalKeyOf (t : Task) : Str :=
  if !t.final_cache_key.isEmpty then t.final_cache_key else t.cache_key

/-- `get_task_result`: a payload only for a `done` task, read from the
cache under the task's final key (the JSON decode of `as_result_object` is
abstracted to the stored `result_json`). -/
def get_task_result (st : QState) (cacheDb : List CacheEntryRec) (ttl : Int)
    (task_id : Str) (now cacheNow : Int) : Option Str :=
  let st1 := cleanup_expired st now
  match st1.tasksById task_id with
  | none => none
  | some task =>
    if task.status ≠ str "done" then none
    else
      let final := finalKeyOf task
      if final.isEmpty then none
      else
        match get_cached_analysis ttl cacheDb final task.mode false cacheNow with
        | none => none
        | some entry => some entry.result_json

/-- The four distinct responses of the `/api/task/<id>/result` route. -/
inductive RouteResult
  | notFound
  | notDone (status : Str) (progress : Int) (message : Str)
  | inconsistency (task_id : Str)
  | ok (payload : Str)
deriving DecidableEq, Repr

/-- `routes/api_tasks.py::get_task_result_route`: 404 when the task is
gone, 409 while not `done`, a distinct 500 "server-side inconsistency" when
the task is `done` but the backing cache entry is missing, 200 otherwise. -/
def get_task_result_route (st : QState) (cacheDb : List CacheEntryRec) (ttl : Int)
    (task_id : Str) (now cacheNow : Int) : RouteResult :=
  match get_task_status st task_id now with
  | none => RouteResult.notFound
  | some t =>
    if t.status ≠ str "done" then RouteResult.notDone t.status t.progress t.message
    else
      match get_task_result st cacheDb ttl task_id now cacheNow with
      | none => RouteResult.inconsistency task_id
      | some res => RouteResult.ok res

/-- A concrete pending task for the queue witnesses. -/
def task1 : Task :=
  make_task (str "T1") (str "quick") (str "x") (str "cu") (str "x")
    ((normalize_input_to_canonical (str "x")).cache_key) 0

/-- A queue state holding `task1` under its dedupe mapping. -/
def stQ0 : QState :=
  { tasksById := fun k => if k = str "T1" then some task1 else none
    runningByDedupe := fun k =>
      if k = dedupeKeyOf (str "x") (str "quick") then some (str "T1") else none }

/-- `task1` after reaching the `done` state. -/
def task1done : Task := { task1 with status := str "done" }

/-- A queue state holding only the finished `task1done` (mapping already
removed by the worker). -/
def stQ1 : QState :=
  { tasksById := fun k => if k = str "T1" then some task1done else none
    runningByDedupe := fun _ => none }

/-- A cache entry backing `task1done`'s final key. -/
def centry0 : CacheEntryRec :=
  ⟨(normalize_input_to_canonical (str "x")).cache_key, str "quick", str "cu", str "dn",
    str "payload", 0⟩

/-! ## `services/apify_client.py` (token guards)

The environment is a total function from variable names to values (empty
string when unset, as with `os.getenv(..., "")`).  The actual HTTP actor
call is abstracted: its would-be result list is a parameter, and each entry
point reports whether the external service would be contacted. -/

/-- `_get_apify_token`: `APIFY_TOKEN` or `APIFY_API_TOKEN`, stripped. -/
def get_apify_token (env : Str → Str) : Str :=
  pyStrip (if (env (str "APIFY_TOKEN")).isEmpty then env (str "APIFY_API_TOKEN")
           else env (str "APIFY_TOKEN"))

/-- One parsed place item (`_parse_place_item` output), restricted to the
fields the discovery pipeline reads. -/
structure PlaceItem where
  place_id : Option Str
  name : Str
  address : Str
  rating : Option Rat
  user_ratings_total : Option Int
  maps_url : Option Str
  lat : Option Rat
  lng : Option Rat
  source_query : Option Str
deriving DecidableEq, Repr

/-- `scrape_reviews`: with no token configured it returns an empty list
without raising and without contacting the service (second component:
was the external service contacted?). -/
def scrape_reviews (env : Str → Str) (actorItems : List (Option InReview)) :
    List (Option InReview) × Bool :=
  if (get_apify_token env).isEmpty then ([], false) else (actorItems, true)

/-- `search_places_by_text`: with no token configured it raises
`RuntimeError("APIFY_TOKEN not set")`. -/
def search_places_by_text (env : Str → Str) (actorItems : List (Option PlaceItem)) :
    Except Str (List (Option PlaceItem)) :=
  if (get_apify_token env).isEmpty then Except.error (str "APIFY_TOKEN not set")
  else Except.ok actorItems

/-- `search_places_bulk`: strips and drops blank queries first — an empty
query list short-circuits to `[]` before the token check — then raises
without a token, else returns the parsed actor items. -/
def search_places_bulk (env : Str → Str) (queries : List Str)
    (actorItems : List (Option PlaceItem)) : Except Str (List (Option PlaceItem)) :=
  let qs := (queries.map pyStrip).filter (fun q => !q.isEmpty)
  if qs.isEmpty then Except.ok []
  else if (get_apify_token env).isEmpty then Except.error (str "APIFY_TOKEN not set")
  else Except.ok actorItems

/-! ## `scripts/build_xinyi_db.py` — per-item analysis (`analyze_catalog._process_one`)

The scrape result, the inference payload (`app.analyse_reviews`), and the
clock enter as parameters; `record_place_from_analysis` (a best-effort side
record) and `enrich_photos` do not affect the skip decision and are
elided. -/

/-- The observable outcome of one `_process_one` run. -/
structure ProcessOutcome where
  result : Str
  status : Str
  errorMsg : Option Str
  inferenceInvoked : Bool
  reviewDB : ReviewDB
  cacheDB : List CacheEntryRec
  insertedNew : Nat
deriving DecidableEq, Repr

/-- `analyze_catalog._process_one`: derive the cache key, scrape (empty
scrape raises), merge reviews, then skip re-analysis exactly on
`(not force_refresh) and cached_entry_allow_stale is not None and
inserted_new == 0`; otherwise run inference and write cache and status. -/
def process_one (pyHash : Str → Int) (force_refresh : Bool) (mode : Str)
    (canonical_url display_name : Str) (scraped : List (Option InReview))
    (analysis : Str) (revDB : ReviewDB) (cacheDB : List CacheEntryRec)
    (ttl : Int) (now : Int) (nowS : Str) : ProcessOutcome :=
  let cache_key := (canonicalize canonical_url).cache_key
  if cache_key.isEmpty then
    { result := str "failed", status := str "error"
      errorMsg := some ((str "missing cache_key").take 300)
      inferenceInvoked := false, reviewDB := revDB, cacheDB := cacheDB, insertedNew := 0 }
  else if scraped.isEmpty then
    { result := str "failed", status := str "error"
      errorMsg := some ((str "no reviews returned from Apify").take 300)
      inferenceInvoked := false, reviewDB := revDB, cacheDB := cacheDB, insertedNew := 0 }
  else
    let up := upsert_place_reviews pyHash revDB canonical_url scraped nowS
    let inserted_new := up.1.1
    let cached := get_cached_analysis ttl cacheDB cache_key mode true now
    if force_refresh = false ∧ cached.isSome = true ∧ inserted_new = 0 then
      { result := str "skipped", status := str "skipped_no_new_reviews", errorMsg := none
        inferenceInvoked := false, reviewDB := up.2, cacheDB := cacheDB
        insertedNew := inserted_new }
    else
      { result := str "analyzed", status := str "done", errorMsg := none
        inferenceInvoked := true, reviewDB := up.2
        cacheDB := set_cached_analysis cacheDB cache_key mode canonical_url display_name
          analysis now
        insertedNew := inserted_new }

/-- The cache key expected for the `process_one` witnesses. -/
def key_u : Str := (canonicalize (str "u")).cache_key

/-- A cache entry under `key_u` / `quick`. -/
def centry_u : CacheEntryRec := ⟨key_u, str "quick", str "c", str "d", str "p", 0⟩

/-! ## `scripts/build_xinyi_db.py` — discovery (`discover_xinyi_places`)

The Apify fetch of batch `i` enters as `fetch i`; catalog upsert is
tracked at the `(tag, canonical_url)` key level (`upsert_catalog_place`'s
COALESCE field merge does not affect these claims).  `fetched` instruments
which batch indices had their fetch dispatched. -/

/-- `_is_xinyi_by_address`. -/
def is_xinyi_by_address (address : Str) : Bool :=
  !address.isEmpty && strContains address (str "信義區")

/-- The other-Taipei-district name list. -/
def otherDistricts : List Str :=
  [str "中正區", str "大同區", str "中山區", str "松山區", str "大安區", str "萬華區",
   str "文山區", str "南港區", str "內湖區", str "士林區", str "北投區"]

/-- `_is_other_taipei_district`. -/
def is_other_taipei_district (address : Str) : Bool :=
  !address.isEmpty && (otherDistricts.any (fun d => strContains address d)) &&
    !strContains address (str "信義區")

/-- `_is_in_xinyi_bbox` (the relaxed bounding box). -/
def is_in_xinyi_bbox (lat lng : Option Rat) : Bool :=
  match lat, lng with
  | some la, some ln =>
    if (25005/1000 : Rat) ≤ la ∧ la ≤ 25075/1000 ∧ (121535/1000 : Rat) ≤ ln ∧
        ln ≤ 121625/1000 then true else false
  | _, _ => false

/-- `_is_apify_memory_limit_error`. -/
def is_apify_memory_limit_error (e : Str) : Bool :=
  strContains e (str "status=402") &&
    (strContains e (str "memory") || strContains e (str "Memory") ||
      strContains e (str "actor-memory-limit-exceeded"))

/-- The discovery run state (catalog keys, dedupe set, counters, job
record, and the instrumented list of dispatched batch indices). -/
structure DiscState where
  catalog : List (Str × Str)
  seen : List Str
  new_count : Nat
  done_batches : Nat
  failed_batches : Nat
  jobStatus : Str
  jobDone : Nat
  jobFailed : Nat
  aborted : Bool
  fetched : List Nat
deriving DecidableEq, Repr

/-- The initial discovery state (job created as `running`). -/
def discInit : DiscState :=
  { catalog := [], seen := [], new_count := 0, done_batches := 0, failed_batches := 0
    jobStatus := str "running", jobDone := 0, jobFailed := 0, aborted := false, fetched := [] }

/-- `upsert_catalog_place` at the `(tag, canonical_url)` key level:
insert-if-absent. -/
def upsert_catalog_key (catalog : List (Str × Str)) (tag curl : Str) : List (Str × Str) :=
  if tag.isEmpty || curl.isEmpty then catalog
  else if catalog.any (fun kc => if kc = (tag, curl) then true else false) then catalog
  else catalog ++ [(tag, curl)]

/-- `_upsert_items` for one item: district exclusion first, then the
address/bbox membership test, the `maps_url` fallback from `place_id`,
canonicalization, per-run dedupe, and the catalog upsert. -/
def upsertItem (tag : Str) (st : DiscState) (it? : Option PlaceItem) : DiscState :=
  match it? with
  | none => st
  | some it =>
    if !it.address.isEmpty && is_other_taipei_district it.address then st
    else if !(is_xinyi_by_address it.address || is_in_xinyi_bbox it.lat it.lng) then st
    else
      let maps_url :=
        if !truthy it.maps_url && truthy it.place_id then
          some (str "https://www.google.com/maps/place/?q=place_id:" ++ it.place_id.getD [])
        else it.maps_url
      if !truthy maps_url then st
      else
        let canonical_url := (canonicalize (maps_url.getD [])).canonical_url
        if canonical_url.isEmpty then st
        else if st.seen.any (fun c => if c = canonical_url then true else false) then st
        else
          { st with
            seen := st.seen ++ [canonical_url]
            catalog := upsert_catalog_key st.catalog tag canonical_url
            new_count := st.new_count + 1 }

/-- `_upsert_items` over a batch's returned items. -/
def upsertItems (tag : Str) (st : DiscState) (items : List (Option PlaceItem)) : DiscState :=
  items.foldl (upsertItem tag) st

/-- The sequential (`workers <= 1`) discovery loop.  A fetch error
propagates immediately (there is no handler in this branch): the returned
`Option Str` is the uncaught exception.  On success the batch is upserted,
the job is updated `running`, and the early-stop threshold is checked. -/
def discoverSeqGo (tag : Str) (fetch : Nat → Except Str (List (Option PlaceItem)))
    (maxU : Option Nat) : List (List Str) → Nat → DiscState → Option Str × DiscState
  | [], _, st => (none, st)
  | _ :: rest, bi, st =>
    let st := { st with fetched := st.fetched ++ [bi] }
    match fetch bi with
    | Except.error e => (some e, st)
    | Except.ok items =>
      let st1 := upsertItems tag st items
      let st2 := { st1 with
        done_batches := bi
        jobStatus := str "running"
        jobDone := bi
        jobFailed := st1.failed_batches }
      match maxU with
      | some m =>
        if m ≤ st2.new_count then (none, { st2 with aborted := true })
        else discoverSeqGo tag fetch maxU rest (bi + 1) st2
      | none => discoverSeqGo tag fetch maxU rest (bi + 1) st2

/-- `discover_xinyi_places` with `workers <= 1`: run the loop; when it
completes without an exception or an early stop, mark the job `done`. -/
def discover_seq (tag : Str) (fetch : Nat → Except Str (List (Option PlaceItem)))
    (batches : List (List Str)) (maxU : Option Nat) : Option Str × DiscState :=
  let r := discoverSeqGo tag fetch maxU batches 1 discInit
  match r.1 with
  | some e => (some e, r.2)
  | none =>
    if r.2.aborted then (none, r.2)
    else (none, { r.2 with jobStatus := str "done", jobDone := batches.length,
                           jobFailed := r.2.failed_batches })

/-- One completion event of the parallel (`workers > 1`) loop: the batch
index and the future's outcome. -/
abbrev DiscEvent := Nat × Except Str (List (Option PlaceItem))

/-- The parallel completion loop (`as_completed`): failures increment the
failure counters; a quota-exhaustion failure marks the job `error` and
breaks, so no later completion is processed; successes upsert and update
the job; the early-stop threshold also breaks. -/
def discoverParGo (tag : Str) (maxU : Option Nat) :
    List DiscEvent → DiscState → DiscState
  | [], st => st
  | (bi, Except.error e) :: rest, st =>
    let st1 := { st with
      failed_batches := st.failed_batches + 1
      done_batches := st.done_batches + 1
      jobStatus := str "running"
      jobDone := st.done_batches + 1
      jobFailed := st.failed_batches + 1
      fetched := st.fetched ++ [bi] }
    if is_apify_memory_limit_error e then
      { st1 with jobStatus := str "error", aborted := true }
    else discoverParGo tag maxU rest st1
  | (bi, Except.ok items) :: rest, st =>
    let st1 := upsertItems tag { st with fetched := st.fetched ++ [bi] } items
    let st2 := { st1 with
      done_batches := st1.done_batches + 1
      jobStatus := str "running"
      jobDone := st1.done_batches + 1
      jobFailed := st1.failed_batches }
    match maxU with
    | some m =>
      if m ≤ st2.new_count then { st2 with jobStatus := str "done", aborted := true }
      else discoverParGo tag maxU rest st2
    | none => discoverParGo tag maxU rest st2

/-- A quota-exhaustion error string as produced by `_apify_run_actor` for a
402 with the memory hint. -/
def quotaErr : Str :=
  str "Apify actor call failed (status=402, actor=compass): Monthly usage hard limit exceeded, memory limit"

/-- Ten singleton query batches. -/
def batches10 : List (List Str) :=
  [[str "q1"], [str "q2"], [str "q3"], [str "q4"], [str "q5"], [str "q6"], [str "q7"],
   [str "q8"], [str "q9"], [str "q10"]]

/-- A fetch environment where batch 3 hits quota exhaustion and every other
batch succeeds with no places. -/
def fetchQ3 : Nat → Except Str (List (Option PlaceItem)) :=
  fun i => if i = 3 then Except.error quotaErr else Except.ok []

/-! ### Review-store lemmas -/

theorem keyMatch_touchRow (u' k' u rid now raw : Str) (row : ReviewRow) :
    keyMatch u' k' (touchRow u rid now raw row) = keyMatch u' k' row := by
  unfold touchRow keyMatch
  by_cases h : row.canonical_url = u ∧ row.review_id = rid <;> simp [h]

theorem any_key_touch (rows : List ReviewRow) (u rid now raw u' k' : Str) :
    (rows.map (touchRow u rid now raw)).any (keyMatch u' k') = rows.any (keyMatch u' k') := by
  simp [List.any_map, Function.comp_def, keyMatch_touchRow]

theorem step_none (pyHash : Str → Int) (url now : Str) (st : (Nat × Nat) × ReviewDB) :
    upsertStep pyHash url now st none = st := rfl

theorem step_db_conflict (pyHash : Str → Int) (url now : Str) (i p : Nat) (db : ReviewDB)
    (r : InReview) (hc : existsKey db url (reviewIdOf pyHash r) = true) :
    upsertStep pyHash url now ((i, p), db) (some r) =
      ((i, p + 1),
        { db with rows := db.rows.map (touchRow url (reviewIdOf pyHash r) now r.rawJson) }) := by
  simp [upsertStep, hc]

theorem step_db_new (pyHash : Str → Int) (url now : Str) (i p : Nat) (db : ReviewDB)
    (r : InReview) (hc : existsKey db url (reviewIdOf pyHash r) = false) :
    upsertStep pyHash url now ((i, p), db) (some r) =
      ((i + 1, p + 1),
        { rows := (db.rows ++ [newRow pyHash url now db.nextId r]).map
            (touchRow url (reviewIdOf pyHash r) now r.rawJson)
          nextId := db.nextId + 1 }) := by
  simp [upsertStep, hc]

theorem step_len (pyHash : Str → Int) (url now : Str) (i p : Nat) (db : ReviewDB)
    (r : InReview) :
    (upsertStep pyHash url now ((i, p), db) (some r)).2.rows.length =
      db.rows.length + (if existsKey db url (reviewIdOf pyHash r) then 0 else 1) := by
  by_cases hc : existsKey db url (reviewIdOf pyHash r) = true
  · simp [step_db_conflict pyHash url now i p db r hc, hc]
  · simp only [Bool.not_eq_true] at hc
    simp [step_db_new pyHash url now i p db r hc, hc]

theorem step_inserted (pyHash : Str → Int) (url now : Str) (i p : Nat) (db : ReviewDB)
    (r : InReview) :
    (upsertStep pyHash url now ((i, p), db) (some r)).1.1 =
      i + (if existsKey db url (reviewIdOf pyHash r) then 0 else 1) := by
  by_cases hc : existsKey db url (reviewIdOf pyHash r) = true
  · simp [step_db_conflict pyHash url now i p db r hc, hc]
  · simp only [Bool.not_eq_true] at hc
    simp [step_db_new pyHash url now i p db r hc, hc]

theorem step_key_mono (pyHash : Str → Int) (url now : Str) (st : (Nat × Nat) × ReviewDB)
    (r? : Option InReview) (u' k' : Str) (h : existsKey st.2 u' k' = true) :
    existsKey (upsertStep pyHash url now st r?).2 u' k' = true := by
  obtain ⟨⟨i, p⟩, db⟩ := st
  match r? with
  | none => exact h
  | some r =>
    by_cases hc : existsKey db url (reviewIdOf pyHash r) = true
    · rw [step_db_conflict pyHash url now i p db r hc]
      simp only [existsKey] at h ⊢
      rw [any_key_touch]
      exact h
    · simp only [Bool.not_eq_true] at hc
      rw [step_db_new pyHash url now i p db r hc]
      simp only [existsKey] at h ⊢
      rw [any_key_touch]
      simp only [List.any_append, Bool.or_eq_true]
      exact Or.inl h

theorem keyMatch_newRow (pyHash : Str → Int) (url now : Str) (n : Nat) (r : InReview) :
    keyMatch url (reviewIdOf pyHash r) (newRow pyHash url now n r) = true := by
  simp [keyMatch, newRow]

theorem step_key_new (pyHash : Str → Int) (url now : Str) (i p : Nat) (db : ReviewDB)
    (r : InReview) :
    existsKey (upsertStep pyHash url now ((i, p), db) (some r)).2 url (reviewIdOf pyHash r) = true := by
  by_cases hc : existsKey db url (reviewIdOf pyHash r) = true
  · rw [step_db_conflict pyHash url now i p db r hc]
    simp only [existsKey] at hc ⊢
    rw [any_key_touch]
    exact hc
  · simp only [Bool.not_eq_true] at hc
    rw [step_db_new pyHash url now i p db r hc]
    simp only [existsKey]
    rw [any_key_touch]
    simp only [List.any_append, Bool.or_eq_true]
    exact Or.inr (by simp [keyMatch_newRow])

theorem fold_count (pyHash : Str → Int) (url now : Str) (items : List (Option InReview)) :
    ∀ (i p : Nat) (db : ReviewDB),
      (items.foldl (upsertStep pyHash url now) ((i, p), db)).2.rows.length + i =
        (items.foldl (upsertStep pyHash url now) ((i, p), db)).1.1 + db.rows.length := by
  induction items with
  | nil => intro i p db; simp [Nat.add_comm]
  | cons r? t ih =>
    intro i p db
    match r? with
    | none => simpa [step_none] using ih i p db
    | some r =>
      simp only [List.foldl_cons]
      by_cases hc : existsKey db url (reviewIdOf pyHash r) = true
      · rw [step_db_conflict pyHash url now i p db r hc]
        have h := ih i (p + 1)
          { db with rows := db.rows.map (touchRow url (reviewIdOf pyHash r) now r.rawJson) }
        simpa using h
      · simp only [Bool.not_eq_true] at hc
        rw [step_db_new pyHash url now i p db r hc]
        have h := ih (i + 1) (p + 1)
          { rows := (db.rows ++ [newRow pyHash url now db.nextId r]).map
              (touchRow url (reviewIdOf pyHash r) now r.rawJson)
            nextId := db.nextId + 1 }
        simp only [List.length_map, List.length_append, List.length_cons,
          List.length_nil] at h ⊢
        omega

theorem fold_key_mono (pyHash : Str → Int) (url now : Str) (items : List (Option InReview)) :
    ∀ (st : (Nat × Nat) × ReviewDB) (u' k' : Str), existsKey st.2 u' k' = true →
      existsKey (items.foldl (upsertStep pyHash url now) st).2 u' k' = true := by
  induction items with
  | nil => intro st u' k' h; exact h
  | cons r? t ih =>
    intro st u' k' h
    exact ih _ u' k' (step_key_mono pyHash url now st r? u' k' h)

theorem fold_key_all (pyHash : Str → Int) (url now : Str) (items : List (Option InReview)) :
    ∀ (st : (Nat × Nat) × ReviewDB) (r : InReview), some r ∈ items →
      existsKey (items.foldl (upsertStep pyHash url now) st).2 url (reviewIdOf pyHash r) = true := by
  induction items with
  | nil => intro st r h; cases h
  | cons r? t ih =>
    intro st r h
    rcases List.mem_cons.mp h with h1 | h2
    · subst h1
      simp only [List.foldl_cons]
      obtain ⟨⟨i, p⟩, db⟩ := st
      exact fold_key_mono pyHash url now t _ _ _ (step_key_new pyHash url now i p db r)
    · exact ih _ r h2

theorem fold_no_new (pyHash : Str → Int) (url now : Str) (items : List (Option InReview)) :
    ∀ (i p : Nat) (db : ReviewDB),
      (∀ r : InReview, some r ∈ items → existsKey db url (reviewIdOf pyHash r) = true) →
      (items.foldl (upsertStep pyHash url now) ((i, p), db)).1.1 = i ∧
        (items.foldl (upsertStep pyHash url now) ((i, p), db)).2.rows.length = db.rows.length := by
  induction items with
  | nil => intro i p db _; exact ⟨rfl, rfl⟩
  | cons r? t ih =>
    intro i p db h
    match r? with
    | none =>
      simpa [step_none] using ih i p db (fun r hr => h r (List.mem_cons_of_mem _ hr))
    | some r =>
      have hk : existsKey db url (reviewIdOf pyHash r) = true := h r (List.mem_cons_self _ _)
      simp only [List.foldl_cons]
      rw [step_db_conflict pyHash url now i p db r hk]
      have hrec := ih i (p + 1)
        { db with rows := db.rows.map (touchRow url (reviewIdOf pyHash r) now r.rawJson) }
        (fun r' hr' => by
          have hh := h r' (List.mem_cons_of_mem _ hr')
          simp only [existsKey] at hh ⊢
          rw [any_key_touch]
          exact hh)
      simpa using hrec

/-- C1: `upsert_place_reviews` reports only newly created rows as inserted
(`inserted = rows after - rows before`), and a second upsert of the same
review list inserts nothing and leaves the row count unchanged. -/
theorem upsert_twice_idempotent (pyHash : Str → Int) (db : ReviewDB) (url : Str)
    (reviews : List (Option InReview)) (now1 now2 : Str) :
    (upsert_place_reviews pyHash
        (upsert_place_reviews pyHash db url reviews now1).2 url reviews now2).1.1 = 0 ∧
    (upsert_place_reviews pyHash
        (upsert_place_reviews pyHash db url reviews now1).2 url reviews now2).2.rows.length =
      (upsert_place_reviews pyHash db url reviews now1).2.rows.length ∧
    (upsert_place_reviews pyHash db url reviews now1).2.rows.length =
      db.rows.length + (upsert_place_reviews pyHash db url reviews now1).1.1 := by
  unfold upsert_place_reviews
  by_cases hg : (url.isEmpty || reviews.isEmpty) = true
  · simp [hg]
  · simp only [hg, Bool.false_eq_true, if_neg, ite_false]
    have hall := fun r hr => fold_key_all pyHash url now1 reviews ((0, 0), db) r hr
    have hsecond := fold_no_new pyHash url now2 reviews 0 0
      (reviews.foldl (upsertStep pyHash url now1) ((0, 0), db)).2 hall
    refine ⟨hsecond.1, hsecond.2, ?_⟩
    have hcount := fold_count pyHash url now1 reviews 0 0 db
    omega

theorem frameEq_refl (a : ReviewRow) : frameEq a a := by
  simp [frameEq]

theorem frameEq_trans {a b c : ReviewRow} (h1 : frameEq a b) (h2 : frameEq b c) :
    frameEq a c := by
  obtain ⟨e1, e2, e3, e4, e5, e6, e7, e8, e9, e10⟩ := h1
  obtain ⟨f1, f2, f3, f4, f5, f6, f7, f8, f9, f10⟩ := h2
  exact ⟨f1.trans e1, f2.trans e2, f3.trans e3, f4.trans e4, f5.trans e5, f6.trans e6,
    f7.trans e7, f8.trans e8, f9.trans e9, f10.trans e10⟩

theorem frameEq_touch (u rid now raw : Str) (row : ReviewRow) :
    frameEq row (touchRow u rid now raw row) := by
  unfold touchRow
  by_cases h : keyMatch u rid row = true <;> simp [h, frameEq]

theorem forall₂_frame_trans {l m k : List ReviewRow}
    (h1 : List.Forall₂ frameEq l m) (h2 : List.Forall₂ frameEq m k) :
    List.Forall₂ frameEq l k := by
  induction h1 generalizing k with
  | nil => cases h2; exact List.Forall₂.nil
  | cons hab t ih =>
    cases h2 with
    | cons hbc t2 => exact List.Forall₂.cons (frameEq_trans hab hbc) (ih t2)

theorem forall₂_frame_map_touch (u rid now raw : Str) (l : List ReviewRow) :
    List.Forall₂ frameEq l (l.map (touchRow u rid now raw)) :=
  List.forall₂_map_right_iff.mpr
    (List.forall₂_same.mpr fun a _ => frameEq_touch u rid now raw a)

theorem step_frame (pyHash : Str → Int) (url now : Str) (st : (Nat × Nat) × ReviewDB)
    (r? : Option InReview) :
    List.Forall₂ frameEq st.2.rows
        ((upsertStep pyHash url now st r?).2.rows.take st.2.rows.length) ∧
      st.2.rows.length ≤ (upsertStep pyHash url now st r?).2.rows.length := by
  obtain ⟨⟨i, p⟩, db⟩ := st
  match r? with
  | none =>
    refine ⟨?_, le_refl _⟩
    rw [step_none, List.take_length]
    exact List.forall₂_same.mpr fun a _ => frameEq_refl a
  | some r =>
    by_cases hc : existsKey db url (reviewIdOf pyHash r) = true
    · rw [step_db_conflict pyHash url now i p db r hc]
      constructor
      · have : (db.rows.map (touchRow url (reviewIdOf pyHash r) now r.rawJson)).take
            db.rows.length = db.rows.map (touchRow url (reviewIdOf pyHash r) now r.rawJson) :=
          List.take_of_length_le (by simp)
        rw [this]
        exact forall₂_frame_map_touch _ _ _ _ _
      · simp
    · simp only [Bool.not_eq_true] at hc
      rw [step_db_new pyHash url now i p db r hc]
      constructor
      · have heq : ((db.rows ++ [newRow pyHash url now db.nextId r]).map
            (touchRow url (reviewIdOf pyHash r) now r.rawJson)).take db.rows.length =
            db.rows.map (touchRow url (reviewIdOf pyHash r) now r.rawJson) := by
          rw [List.map_append]
          rw [List.take_append_of_le_length (by simp)]
          exact List.take_of_length_le (by simp)
        rw [heq]
        exact forall₂_frame_map_touch _ _ _ _ _
      · simp

theorem fold_frame (pyHash : Str → Int) (url now : Str) (items : List (Option InReview)) :
    ∀ st : (Nat × Nat) × ReviewDB,
      List.Forall₂ frameEq st.2.rows
          ((items.foldl (upsertStep pyHash url now) st).2.rows.take st.2.rows.length) ∧
        st.2.rows.length ≤ (items.foldl (upsertStep pyHash url now) st).2.rows.length := by
  induction items with
  | nil =>
    intro st
    refine ⟨?_, le_refl _⟩
    simp only [List.foldl_nil, List.take_length]
    exact List.forall₂_same.mpr fun a _ => frameEq_refl a
  | cons r? t ih =>
    intro st
    simp only [List.foldl_cons]
    obtain ⟨hstep, hlen1⟩ := step_frame pyHash url now st r?
    obtain ⟨hrec, hlen2⟩ := ih (upsertStep pyHash url now st r?)
    have h2 := List.forall₂_take st.2.rows.length hrec
    rw [List.take_take, Nat.min_eq_left hlen1] at h2
    exact ⟨forall₂_frame_trans hstep h2, hlen1.trans hlen2⟩

/-- C6 (amended): on re-scrape every previously stored row survives (same
position and `rowid`) with all fields other than `last_seen_at`,
`scraped_at` and `raw_json` unchanged; and a single colliding review
rewrites the store exactly by the `last_seen_at`/`scraped_at`/`raw_json`
touch, deleting nothing. -/
theorem upsert_conflict_frame (pyHash : Str → Int) (db : ReviewDB) (url : Str)
    (reviews : List (Option InReview)) (now : Str) :
    db.rows.length ≤ (upsert_place_reviews pyHash db url reviews now).2.rows.length ∧
    List.Forall₂ frameEq db.rows
      ((upsert_place_reviews pyHash db url reviews now).2.rows.take db.rows.length) ∧
    (∀ r : InReview, reviews = [some r] → url.isEmpty = false →
      existsKey db url (reviewIdOf pyHash r) = true →
      (upsert_place_reviews pyHash db url reviews now).2.rows =
        db.rows.map (touchRow url (reviewIdOf pyHash r) now r.rawJson)) := by
  unfold upsert_place_reviews
  by_cases hg : (url.isEmpty || reviews.isEmpty) = true
  · simp only [hg, if_true]
    refine ⟨le_refl _, ?_, ?_⟩
    · rw [List.take_length]
      exact List.forall₂_same.mpr fun a _ => frameEq_refl a
    · intro r hr hu _
      subst hr
      simp [hu] at hg
  · simp only [hg, Bool.false_eq_true, if_neg, ite_false]
    obtain ⟨h1, h2⟩ := fold_frame pyHash url now reviews ((0, 0), db)
    refine ⟨h2, h1, ?_⟩
    intro r hr _ hk
    subst hr
    simp only [List.foldl_cons, List.foldl_nil]
    rw [step_db_conflict pyHash url now 0 0 db r hk]

/-- Witness for C6: with the concrete one-row store, the general theorem
applies and the colliding upsert is exactly the three-field touch. -/
theorem upsert_conflict_frame_witness :
    revDB0.rows.length ≤
        (upsert_place_reviews pyHash0 revDB0 (str "u") [some rev0] (str "t1")).2.rows.length ∧
      (upsert_place_reviews pyHash0 revDB0 (str "u") [some rev0] (str "t1")).2.rows =
        revDB0.rows.map (touchRow (str "u") (reviewIdOf pyHash0 rev0) (str "t1") rev0.rawJson) :=
  ⟨(upsert_conflict_frame pyHash0 revDB0 (str "u") [some rev0] (str "t1")).1,
   (upsert_conflict_frame pyHash0 revDB0 (str "u") [some rev0] (str "t1")).2.2 rev0 rfl
     (by decide) (by decide)⟩

/-- C6 counterexample: the conflict `UPDATE` also refreshes `scraped_at`, a
stored field the claim says is left unchanged. -/
theorem upsert_conflict_changes_scraped_at :
    ((upsert_place_reviews pyHash0 revDB0 (str "u") [some rev0] (str "t1")).2.rows.map
        (fun row => row.scraped_at)) = [str "t1"] ∧
      row0.scraped_at = str "t0" ∧ (str "t1" : Str) ≠ str "t0" := by
  refine ⟨by decide, by decide, by decide⟩

/-! ### Cache-store lemmas -/

theorem cacheMatch_self (key mode curl name payload : Str) (now : Int) :
    cacheMatch key mode ⟨key, mode, curl, name, payload, now⟩ = true := by
  simp [cacheMatch]

theorem find_map_replace (key mode : Str) (e : CacheEntryRec)
    (he : cacheMatch key mode e = true) :
    ∀ db : List CacheEntryRec, db.any (cacheMatch key mode) = true →
      (db.map (fun x => if cacheMatch key mode x then e else x)).find?
        (cacheMatch key mode) = some e := by
  intro db
  induction db with
  | nil => intro h; cases h
  | cons x t ih =>
    intro h
    by_cases hx : cacheMatch key mode x = true
    · simp [hx, List.find?_cons_of_pos, he]
    · simp only [Bool.not_eq_true] at hx
      simp only [List.any_cons, hx, Bool.false_or] at h
      simp [hx, List.find?_cons_of_neg, ih h]

theorem find_append_new (key mode : Str) (e : CacheEntryRec)
    (he : cacheMatch key mode e = true) :
    ∀ db : List CacheEntryRec, db.any (cacheMatch key mode) = false →
      (db ++ [e]).find? (cacheMatch key mode) = some e := by
  intro db
  induction db with
  | nil => intro _; simp [List.find?_cons_of_pos, he]
  | cons x t ih =>
    intro h
    simp only [List.any_cons, Bool.or_eq_false_iff] at h
    simp only [List.cons_append, List.find?_cons, h.1]
    exact ih h.2

theorem cacheFind_set (db : List CacheEntryRec) (key mode curl name payload : Str)
    (now : Int) :
    (set_cached_analysis db key mode curl name payload now).find? (cacheMatch key mode) =
      some ⟨key, mode, curl, name, payload, now⟩ := by
  unfold set_cached_analysis
  by_cases h : db.any (cacheMatch key mode) = true
  · simp only [h, if_true]
    exact find_map_replace key mode _ (cacheMatch_self key mode curl name payload now) db h
  · simp only [Bool.not_eq_true] at h
    simp only [h, Bool.false_eq_true, if_neg, ite_false]
    exact find_append_new key mode _ (cacheMatch_self key mode curl name payload now) db h

/-- C5: TTL is evaluated at read time.  After a put at `tput`, a get at
`tget` with `tget - tput > TTL` is a miss unless `allow_stale`, in which
case the stored entry is returned; a get within the TTL returns the entry
written by the most recent put for that `(key, mode)` (the put is applied
to an arbitrary prior store, so it supersedes any earlier put). -/
theorem cache_ttl_read_time (ttl : Int) (db : List CacheEntryRec)
    (key mode curl name payload : Str) (tput tget : Int) :
    (tget - tput > ttl →
      get_cached_analysis ttl (set_cached_analysis db key mode curl name payload tput)
        key mode false tget = none) ∧
    (tget - tput > ttl →
      get_cached_analysis ttl (set_cached_analysis db key mode curl name payload tput)
        key mode true tget = some ⟨key, mode, curl, name, payload, tput⟩) ∧
    (tget - tput ≤ ttl →
      get_cached_analysis ttl (set_cached_analysis db key mode curl name payload tput)
        key mode false tget = some ⟨key, mode, curl, name, payload, tput⟩) := by
  have hf := cacheFind_set db key mode curl name payload tput
  refine ⟨?_, ?_, ?_⟩ <;> intro h <;> simp [get_cached_analysis, hf, h]

/-- Witness for C5 at the default 7-day TTL: an expired entry is a miss,
stale read returns it, and a fresh get returns the last write. -/
theorem cache_ttl_read_time_witness :
    get_cached_analysis CACHE_TTL_SECONDS
        (set_cached_analysis [] (str "k") (str "quick") (str "c") (str "d") (str "p") 0)
        (str "k") (str "quick") false 604801 = none ∧
    get_cached_analysis CACHE_TTL_SECONDS
        (set_cached_analysis [] (str "k") (str "quick") (str "c") (str "d") (str "p") 0)
        (str "k") (str "quick") true 604801 =
      some ⟨str "k", str "quick", str "c", str "d", str "p", 0⟩ ∧
    get_cached_analysis CACHE_TTL_SECONDS
        (set_cached_analysis [] (str "k") (str "quick") (str "c") (str "d") (str "p") 0)
        (str "k") (str "quick") false 100 =
      some ⟨str "k", str "quick", str "c", str "d", str "p", 0⟩ :=
  ⟨(cache_ttl_read_time CACHE_TTL_SECONDS [] (str "k") (str "quick") (str "c") (str "d")
      (str "p") 0 604801).1 (by decide),
   (cache_ttl_read_time CACHE_TTL_SECONDS [] (str "k") (str "quick") (str "c") (str "d")
      (str "p") 0 604801).2.1 (by decide),
   (cache_ttl_read_time CACHE_TTL_SECONDS [] (str "k") (str "quick") (str "c") (str "d")
      (str "p") 0 100).2.2 (by decide)⟩

/-! ### Task-queue lemmas -/

/-- C7: submission deduplicates on `(identity key, mode)`.  A live
(pending/running, unexpired) task under the same dedupe key is returned
as-is with no new task; when the mapping is absent, or maps to a missing,
terminal, or expired task, a fresh task is created and the mapping is
repointed; and a finishing worker removes every dedupe mapping to its
task. -/
theorem submit_task_dedupe (st : QState) (input mode : Str) (now : Int) (newId : Str) :
    (∀ tid t, (cleanup_expired st now).runningByDedupe (dedupeKeyOf input mode) = some tid →
      (cleanup_expired st now).tasksById tid = some t →
      now - t.created_at ≤ TASK_TTL_SECONDS →
      (t.status = str "pending" ∨ t.status = str "running") →
      (submit_task st input mode now newId).1 = t ∧
        (submit_task st input mode now newId).2 = cleanup_expired st now) ∧
    ((cleanup_expired st now).runningByDedupe (dedupeKeyOf input mode) = none →
      (submit_task st input mode now newId).1.task_id = newId ∧
        (submit_task st input mode now newId).2.tasksById newId =
          some (submit_task st input mode now newId).1 ∧
        (submit_task st input mode now newId).2.runningByDedupe (dedupeKeyOf input mode) =
          some newId) ∧
    (∀ tid t, (cleanup_expired st now).runningByDedupe (dedupeKeyOf input mode) = some tid →
      (cleanup_expired st now).tasksById tid = some t →
      ¬(now - t.created_at ≤ TASK_TTL_SECONDS ∧
          (t.status = str "pending" ∨ t.status = str "running")) →
      (submit_task st input mode now newId).1.task_id = newId ∧
        (submit_task st input mode now newId).2.tasksById newId =
          some (submit_task st input mode now newId).1 ∧
        (submit_task st input mode now newId).2.runningByDedupe (dedupeKeyOf input mode) =
          some newId) ∧
    (∀ tid, (cleanup_expired st now).runningByDedupe (dedupeKeyOf input mode) = some tid →
      (cleanup_expired st now).tasksById tid = none →
      (submit_task st input mode now newId).1.task_id = newId ∧
        (submit_task st input mode now newId).2.runningByDedupe (dedupeKeyOf input mode) =
          some newId) ∧
    (∀ (st' : QState) (tid stat msg : Str) (err : Option Str) (now' : Int) (dk : Str),
      (workerFinish st' tid stat msg err now').runningByDedupe dk ≠ some tid) := by
  refine ⟨?_, ?_, ?_, ?_, ?_⟩
  · intro tid t hm ht h1 h2
    simp only [submit_task, hm, ht]
    rw [if_pos ⟨h1, h2⟩]
    exact ⟨rfl, rfl⟩
  · intro hm
    simp only [submit_task, hm]
    refine ⟨rfl, ?_, ?_⟩ <;> simp [submitFresh, make_task]
  · intro tid t hm ht hneg
    simp only [submit_task, hm, ht]
    rw [if_neg hneg]
    refine ⟨rfl, ?_, ?_⟩ <;> simp [submitFresh, make_task]
  · intro tid hm ht
    simp only [submit_task, hm, ht]
    refine ⟨rfl, ?_⟩
    simp [submitFresh, make_task]
  · intro st' tid stat msg err now' dk
    simp only [workerFinish]
    cases hm : st'.runningByDedupe dk with
    | none => simp
    | some tid' =>
      by_cases he : tid' = tid
      · simp [he]
      · simp [he]

/-- Witness for C7: a live pending task under the dedupe key of
`("x", quick)` is returned unchanged; after the worker finishes it, the
mapping is gone, and a submit against the emptied mapping creates a fresh
task. -/
theorem submit_task_dedupe_witness :
    (submit_task stQ0 (str "x") (str "quick") 10 (str "T2")).1 = task1 ∧
    (workerFinish stQ0 (str "T1") (str "done") (str "ok") none 20).runningByDedupe
        (dedupeKeyOf (str "x") (str "quick")) ≠ some (str "T1") ∧
    (submit_task stQ1 (str "x") (str "quick") 10 (str "T2")).1.task_id = str "T2" :=
  ⟨((submit_task_dedupe stQ0 (str "x") (str "quick") 10 (str "T2")).1 (str "T1") task1
      (by decide) (by decide) (by decide) (Or.inl (by decide))).1,
   (submit_task_dedupe stQ0 (str "x") (str "quick") 10 (str "T1")).2.2.2.2 stQ0 (str "T1")
     (str "done") (str "ok") none 20 (dedupeKeyOf (str "x") (str "quick")),
   ((submit_task_dedupe stQ1 (str "x") (str "quick") 10 (str "T2")).2.1 (by decide)).1⟩

/-- C8: `get_task_result` yields a payload only for a `done` task; and when
a `done` task's backing cache entry is missing, the result route answers
with the distinct server-side-inconsistency response rather than an
ordinary miss. -/
theorem task_result_done_and_inconsistency (st : QState) (cacheDb : List CacheEntryRec)
    (ttl : Int) (task_id : Str) (now cacheNow : Int) :
    (∀ payload, get_task_result st cacheDb ttl task_id now cacheNow = some payload →
      ∃ t, (cleanup_expired st now).tasksById task_id = some t ∧ t.status = str "done") ∧
    (∀ t, (cleanup_expired st now).tasksById task_id = some t → t.status = str "done" →
      ((finalKeyOf t).isEmpty = true ∨
        get_cached_analysis ttl cacheDb (finalKeyOf t) t.mode false cacheNow = none) →
      get_task_result_route st cacheDb ttl task_id now cacheNow =
        RouteResult.inconsistency task_id) := by
  constructor
  · intro payload h
    cases hm : (cleanup_expired st now).tasksById task_id with
    | none => simp [get_task_result, hm] at h
    | some t =>
      refine ⟨t, rfl, ?_⟩
      by_cases hs : t.status = str "done"
      · exact hs
      · simp [get_task_result, hm, hs] at h
  · intro t hm hs hmiss
    have hres : get_task_result st cacheDb ttl task_id now cacheNow = none := by
      cases hmiss with
      | inl hempty => simp [get_task_result, hm, hs, hempty]
      | inr hnone =>
        by_cases hempty : (finalKeyOf t).isEmpty = true
        · simp [get_task_result, hm, hs, hempty]
        · simp [get_task_result, hm, hs, hempty, hnone]
    simp [get_task_result_route, get_task_status, hm, hs, hres]

/-- Witness for C8: with `task1done` and a cache entry present the accessor
returns a payload only because the task is `done`; with an empty cache the
route reports the distinct inconsistency response. -/
theorem task_result_done_and_inconsistency_witness :
    (∃ t, (cleanup_expired stQ1 10).tasksById (str "T1") = some t ∧ t.status = str "done") ∧
    get_task_result_route stQ1 [] CACHE_TTL_SECONDS (str "T1") 10 5 =
      RouteResult.inconsistency (str "T1") :=
  ⟨(task_result_done_and_inconsistency stQ1 [centry0] CACHE_TTL_SECONDS (str "T1") 10 5).1
      (str "payload") (by decide),
   (task_result_done_and_inconsistency stQ1 [] CACHE_TTL_SECONDS (str "T1") 10 5).2
     task1done (by decide) (by decide) (Or.inr (by decide))⟩

/-! ### Analysis-pipeline lemmas -/

/-- C2 (amended): the per-item run skips exactly when the scrape returned a
nonempty review list, the cache key is nonempty, a cache entry exists
(stale allowed), refresh was not forced, and zero new reviews were
inserted; a skip sets `skipped_no_new_reviews` and never invokes
inference. -/
theorem process_one_skip_iff (pyHash : Str → Int) (force : Bool) (mode : Str)
    (canonical_url display_name : Str) (scraped : List (Option InReview))
    (analysis : Str) (revDB : ReviewDB) (cacheDB : List CacheEntryRec)
    (ttl : Int) (now : Int) (nowS : Str) :
    ((process_one pyHash force mode canonical_url display_name scraped analysis revDB
        cacheDB ttl now nowS).result = str "skipped" ↔
      ((canonicalize canonical_url).cache_key.isEmpty = false ∧ scraped.isEmpty = false ∧
        force = false ∧
        (get_cached_analysis ttl cacheDB (canonicalize canonical_url).cache_key mode true
          now).isSome = true ∧
        (upsert_place_reviews pyHash revDB canonical_url scraped nowS).1.1 = 0)) ∧
    ((process_one pyHash force mode canonical_url display_name scraped analysis revDB
        cacheDB ttl now nowS).result = str "skipped" →
      (process_one pyHash force mode canonical_url display_name scraped analysis revDB
          cacheDB ttl now nowS).inferenceInvoked = false ∧
        (process_one pyHash force mode canonical_url display_name scraped analysis revDB
            cacheDB ttl now nowS).status = str "skipped_no_new_reviews") := by
  unfold process_one
  by_cases h1 : (canonicalize canonical_url).cache_key.isEmpty = true
  · simp only [h1, if_true]
    constructor
    · constructor
      · intro h; exact absurd h (by decide)
      · rintro ⟨hf, -⟩; simp [h1] at hf
    · intro h; exact absurd h (by decide)
  · simp only [Bool.not_eq_true] at h1
    simp only [h1, Bool.false_eq_true, if_neg, ite_false]
    by_cases h2 : scraped.isEmpty = true
    · simp only [h2, if_true]
      constructor
      · constructor
        · intro h; exact absurd h (by decide)
        · rintro ⟨-, hf, -⟩; simp [h2] at hf
      · intro h; exact absurd h (by decide)
    · simp only [Bool.not_eq_true] at h2
      simp only [h2, Bool.false_eq_true, if_neg, ite_false]
      by_cases hc : force = false ∧
          (get_cached_analysis ttl cacheDB (canonicalize canonical_url).cache_key mode true
            now).isSome = true ∧
          (upsert_place_reviews pyHash revDB canonical_url scraped nowS).1.1 = 0
      · rw [if_pos hc]
        exact ⟨⟨fun _ => ⟨by simp [h1], by simp [h2], hc.1, hc.2.1, hc.2.2⟩, fun _ => rfl⟩,
          fun _ => ⟨rfl, rfl⟩⟩
      · rw [if_neg hc]
        constructor
        · constructor
          · intro h
            have hh : (str "analyzed") = str "skipped" := h
            exact absurd hh (by decide)
          · rintro ⟨-, -, hf, hcc, hi⟩; exact absurd ⟨hf, hcc, hi⟩ hc
        · intro h
          have hh : (str "analyzed") = str "skipped" := h
          exact absurd hh (by decide)

/-- Witness for C2: with a stored cache entry, no forced refresh, and a
re-scrape that re-delivers the already-stored review, the item is skipped
without inference. -/
theorem process_one_skip_iff_witness :
    (process_one pyHash0 false (str "quick") (str "u") (str "d") [some rev0] (str "a")
        revDB0 [centry_u] CACHE_TTL_SECONDS 10 (str "t")).result = str "skipped" ∧
    (process_one pyHash0 false (str "quick") (str "u") (str "d") [some rev0] (str "a")
        revDB0 [centry_u] CACHE_TTL_SECONDS 10 (str "t")).inferenceInvoked = false ∧
    (process_one pyHash0 false (str "quick") (str "u") (str "d") [some rev0] (str "a")
        revDB0 [centry_u] CACHE_TTL_SECONDS 10 (str "t")).status =
      str "skipped_no_new_reviews" := by
  have hskip := (process_one_skip_iff pyHash0 false (str "quick") (str "u") (str "d")
    [some rev0] (str "a") revDB0 [centry_u] CACHE_TTL_SECONDS 10 (str "t")).1.mpr
    ⟨by decide, by decide, rfl, by decide, by decide⟩
  have hrest := (process_one_skip_iff pyHash0 false (str "quick") (str "u") (str "d")
    [some rev0] (str "a") revDB0 [centry_u] CACHE_TTL_SECONDS 10 (str "t")).2 hskip
  exact ⟨hskip, hrest.1, hrest.2⟩

/-- C2 counterexample: with a cache entry present, refresh not forced, and
zero inserted reviews (because the scrape returned nothing at all), the
claim's skip condition holds, yet the item fails with
`no reviews returned from Apify` instead of being skipped. -/
theorem process_one_empty_scrape_fails :
    (process_one pyHash0 false (str "quick") (str "u") (str "d") [] (str "a") revDB0
        [centry_u] CACHE_TTL_SECONDS 10 (str "t")).result = str "failed" ∧
    (process_one pyHash0 false (str "quick") (str "u") (str "d") [] (str "a") revDB0
        [centry_u] CACHE_TTL_SECONDS 10 (str "t")).status = str "error" ∧
    (process_one pyHash0 false (str "quick") (str "u") (str "d") [] (str "a") revDB0
        [centry_u] CACHE_TTL_SECONDS 10 (str "t")).errorMsg =
      some (str "no reviews returned from Apify") ∧
    (get_cached_analysis CACHE_TTL_SECONDS [centry_u] (canonicalize (str "u")).cache_key
        (str "quick") true 10).isSome = true ∧
    (upsert_place_reviews pyHash0 revDB0 (str "u") [] (str "t")).1.1 = 0 := by
  refine ⟨by decide, by decide, by decide, by decide, by decide⟩

/-! ### Apify token-guard lemmas -/

theorem isEmpty_cons_append (c : Char) (l m : List Char) :
    ((c :: l) ++ m).isEmpty = false := rfl

/-- The cache key of `canonicalize` is never empty: each of its three
namespaces starts with a literal tag. -/
theorem cache_key_nonempty (u : Str) : (canonicalize u).cache_key.isEmpty = false := by
  unfold canonicalize
  rcases hp : (parse_maps_components (clean_tracking_params u)).place_id with _ | pid <;>
    rcases hc : (parse_maps_components (clean_tracking_params u)).cid with _ | c <;>
      simp only [hp, hc] <;> exact isEmpty_cons_append _ _ _

/-- C10 (amended): with no API token configured, `scrape_reviews` returns
`[]` without raising and without contacting the service;
`search_places_by_text` raises, and `search_places_bulk` raises provided at
least one query survives stripping (an empty query list returns `[]` before
the token check); feeding the empty scrape into the per-item pipeline
surfaces as a per-item failure `no reviews returned from Apify`, not a
distinguished configuration error. -/
theorem apify_no_token_behaviour (env : Str → Str)
    (actorR : List (Option InReview)) (actorP : List (Option PlaceItem))
    (queries : List Str) (htok : (get_apify_token env).isEmpty = true) :
    scrape_reviews env actorR = ([], false) ∧
    search_places_by_text env actorP = Except.error (str "APIFY_TOKEN not set") ∧
    (((queries.map pyStrip).filter (fun q => !q.isEmpty)).isEmpty = false →
      search_places_bulk env queries actorP = Except.error (str "APIFY_TOKEN not set")) ∧
    (∀ (pyHash : Str → Int) (mode curl dn analysis : Str) (revDB : ReviewDB)
        (cacheDB : List CacheEntryRec) (ttl now : Int) (nowS : Str),
      (process_one pyHash false mode curl dn (scrape_reviews env actorR).1 analysis revDB
          cacheDB ttl now nowS).result = str "failed" ∧
        (process_one pyHash false mode curl dn (scrape_reviews env actorR).1 analysis revDB
            cacheDB ttl now nowS).errorMsg =
          some (str "no reviews returned from Apify")) := by
  refine ⟨?_, ?_, ?_, ?_⟩
  · simp [scrape_reviews, htok]
  · simp [search_places_by_text, htok]
  · intro hq
    simp only [search_places_bulk, hq, Bool.false_eq_true, if_neg, ite_false, htok, if_true]
  · intro pyHash mode curl dn analysis revDB cacheDB ttl now nowS
    have hs : (scrape_reviews env actorR).1 = [] := by simp [scrape_reviews, htok]
    rw [hs]
    unfold process_one
    simp only [cache_key_nonempty curl, Bool.false_eq_true, if_neg, ite_false,
      List.isEmpty_nil, if_true]
    constructor <;> first | rfl | trivial

/-- Witness for C10's amended theorem with an empty environment and one
nonblank query. -/
theorem apify_no_token_behaviour_witness :
    scrape_reviews (fun _ => []) [some rev0] = ([], false) ∧
    search_places_bulk (fun _ => []) [str "q"] [] =
      Except.error (str "APIFY_TOKEN not set") ∧
    (process_one pyHash0 false (str "quick") (str "u") (str "d")
        (scrape_reviews (fun _ => []) [some rev0]).1 (str "a") revDB0 [] CACHE_TTL_SECONDS
        10 (str "t")).result = str "failed" :=
  ⟨(apify_no_token_behaviour (fun _ => []) [some rev0] [] [str "q"] (by decide)).1,
   (apify_no_token_behaviour (fun _ => []) [some rev0] [] [str "q"] (by decide)).2.2.1
     (by decide),
   ((apify_no_token_behaviour (fun _ => []) [some rev0] [] [str "q"] (by decide)).2.2.2
     pyHash0 (str "quick") (str "u") (str "d") (str "a") revDB0 [] CACHE_TTL_SECONDS 10
     (str "t")).1⟩

/-- C10 counterexample: `search_places_bulk` with an empty (or all-blank)
query list and no token returns `[]` instead of raising — the two discovery
entry points do not raise uniformly in the missing-token situation. -/
theorem search_places_bulk_empty_no_raise :
    search_places_bulk (fun _ => []) [] [] = Except.ok [] ∧
    (get_apify_token (fun _ => [])).isEmpty = true ∧
    search_places_by_text (fun _ => []) [] = Except.error (str "APIFY_TOKEN not set") := by
  refine ⟨rfl, by decide, rfl⟩

/-! ### Discovery lemmas -/

theorem discoverSeqGo_append (tag : Str) (fetch : Nat → Except Str (List (Option PlaceItem)))
    (l1 l2 : List (List Str)) :
    ∀ (bi : Nat) (st : DiscState), (discoverSeqGo tag fetch none l1 bi st).1 = none →
      discoverSeqGo tag fetch none (l1 ++ l2) bi st =
        discoverSeqGo tag fetch none l2 (bi + l1.length)
          (discoverSeqGo tag fetch none l1 bi st).2 := by
  induction l1 with
  | nil => intro bi st _; simp [discoverSeqGo]
  | cons b t ih =>
    intro bi st h
    simp only [List.cons_append, discoverSeqGo] at h ⊢
    cases hf : fetch bi with
    | error e => simp [hf] at h
    | ok items =>
      simp only [hf] at h ⊢
      have harith : bi + 1 + t.length = bi + (b :: t).length := by
        simp only [List.length_cons]; omega
      exact (ih (bi + 1) _ h).trans
        (congrArg (fun n => discoverSeqGo tag fetch none l2 n _) harith)

theorem discover_seq_quota_lemma (tag : Str)
    (fetch : Nat → Except Str (List (Option PlaceItem)))
    (pre : List (List Str)) (bfail : List Str) (rest : List (List Str)) (e : Str)
    (hpre : (discoverSeqGo tag fetch none pre 1 discInit).1 = none)
    (hf : fetch (1 + pre.length) = Except.error e) :
    discover_seq tag fetch (pre ++ bfail :: rest) none =
      (some e,
        { (discoverSeqGo tag fetch none pre 1 discInit).2 with
          fetched := (discoverSeqGo tag fetch none pre 1 discInit).2.fetched ++
            [1 + pre.length] }) := by
  unfold discover_seq
  rw [discoverSeqGo_append tag fetch pre (bfail :: rest) 1 discInit hpre]
  simp [discoverSeqGo, hf]

theorem discover_par_quota_lemma (tag : Str) (evsPre : List DiscEvent) (bi : Nat) (e : Str)
    (evsPost : List DiscEvent) :
    ∀ st0 : DiscState,
      (∀ p ∈ evsPre, ∀ e', p.2 = Except.error e' →
        is_apify_memory_limit_error e' = false) →
      is_apify_memory_limit_error e = true →
      discoverParGo tag none (evsPre ++ (bi, Except.error e) :: evsPost) st0 =
        { discoverParGo tag none evsPre st0 with
          failed_batches := (discoverParGo tag none evsPre st0).failed_batches + 1
          done_batches := (discoverParGo tag none evsPre st0).done_batches + 1
          jobStatus := str "error"
          jobDone := (discoverParGo tag none evsPre st0).done_batches + 1
          jobFailed := (discoverParGo tag none evsPre st0).failed_batches + 1
          aborted := true
          fetched := (discoverParGo tag none evsPre st0).fetched ++ [bi] } := by
  induction evsPre with
  | nil =>
    intro st0 _ hq
    simp [discoverParGo, hq]
  | cons p t ih =>
    intro st0 hpre hq
    obtain ⟨bj, r⟩ := p
    cases r with
    | ok items =>
      simp only [List.cons_append, discoverParGo]
      exact ih _ (fun p hp => hpre p (List.mem_cons_of_mem _ hp)) hq
    | error e' =>
      have hne : is_apify_memory_limit_error e' = false :=
        hpre (bj, Except.error e') (List.mem_cons_self _ _) e' rfl
      simp only [List.cons_append, discoverParGo, hne, Bool.false_eq_true, if_neg,
        ite_false]
      exact ih _ (fun p hp => hpre p (List.mem_cons_of_mem _ hp)) hq

/-- C9 (amended): on a quota-exhaustion failure, work persisted before the
failure survives and nothing later is processed, but the bookkeeping
depends on the worker count.  Sequential mode (`workers <= 1`, the
default): the exception propagates out of the run, batches after the
failing one are never dispatched, the catalog/job state is exactly the
state after the completed prefix — the failing batch is NOT counted as
failed.  Parallel mode (`workers > 1`): the completion loop counts the
failing batch, marks the job `error`, aborts, and processes no later
completion event. -/
theorem discover_quota_abort :
    (∀ (tag : Str) (fetch : Nat → Except Str (List (Option PlaceItem)))
        (pre : List (List Str)) (bfail : List Str) (rest : List (List Str)) (e : Str),
      (discoverSeqGo tag fetch none pre 1 discInit).1 = none →
      fetch (1 + pre.length) = Except.error e →
      discover_seq tag fetch (pre ++ bfail :: rest) none =
        (some e,
          { (discoverSeqGo tag fetch none pre 1 discInit).2 with
            fetched := (discoverSeqGo tag fetch none pre 1 discInit).2.fetched ++
              [1 + pre.length] })) ∧
    (∀ (tag : Str) (evsPre : List DiscEvent) (bi : Nat) (e : Str)
        (evsPost : List DiscEvent) (st0 : DiscState),
      (∀ p ∈ evsPre, ∀ e', p.2 = Except.error e' →
        is_apify_memory_limit_error e' = false) →
      is_apify_memory_limit_error e = true →
      discoverParGo tag none (evsPre ++ (bi, Except.error e) :: evsPost) st0 =
        { discoverParGo tag none evsPre st0 with
          failed_batches := (discoverParGo tag none evsPre st0).failed_batches + 1
          done_batches := (discoverParGo tag none evsPre st0).done_batches + 1
          jobStatus := str "error"
          jobDone := (discoverParGo tag none evsPre st0).done_batches + 1
          jobFailed := (discoverParGo tag none evsPre st0).failed_batches + 1
          aborted := true
          fetched := (discoverParGo tag none evsPre st0).fetched ++ [bi] }) :=
  ⟨fun tag fetch pre bfail rest e hpre hf =>
      discover_seq_quota_lemma tag fetch pre bfail rest e hpre hf,
   fun tag evsPre bi e evsPost st0 hpre hq =>
      discover_par_quota_lemma tag evsPre bi e evsPost st0 hpre hq⟩

/-- Witness for C9: ten batches with batch 3 quota-failing — sequentially
the run raises with only batches 1-3 dispatched; in the parallel loop the
quota event after two successes yields one failed batch, an `error` job,
and the abort flag, with event 4 never processed. -/
theorem discover_quota_abort_witness :
    discover_seq (str "xinyi") fetchQ3
        ([[str "q1"], [str "q2"]] ++ [str "q3"] ::
          [[str "q4"], [str "q5"], [str "q6"], [str "q7"], [str "q8"], [str "q9"],
           [str "q10"]]) none =
      (some quotaErr,
        { (discoverSeqGo (str "xinyi") fetchQ3 none [[str "q1"], [str "q2"]] 1 discInit).2 with
          fetched := (discoverSeqGo (str "xinyi") fetchQ3 none [[str "q1"], [str "q2"]] 1
            discInit).2.fetched ++ [1 + ([[str "q1"], [str "q2"]] : List (List Str)).length] }) ∧
    discoverParGo (str "xinyi") none
        ([(1, Except.ok []), (2, Except.ok [])] ++
          (3, Except.error quotaErr) :: [(4, Except.ok [])]) discInit =
      { discoverParGo (str "xinyi") none [(1, Except.ok []), (2, Except.ok [])] discInit with
        failed_batches := (discoverParGo (str "xinyi") none
          [(1, Except.ok []), (2, Except.ok [])] discInit).failed_batches + 1
        done_batches := (discoverParGo (str "xinyi") none
          [(1, Except.ok []), (2, Except.ok [])] discInit).done_batches + 1
        jobStatus := str "error"
        jobDone := (discoverParGo (str "xinyi") none
          [(1, Except.ok []), (2, Except.ok [])] discInit).done_batches + 1
        jobFailed := (discoverParGo (str "xinyi") none
          [(1, Except.ok []), (2, Except.ok [])] discInit).failed_batches + 1
        aborted := true
        fetched := (discoverParGo (str "xinyi") none
          [(1, Except.ok []), (2, Except.ok [])] discInit).fetched ++ [3] } :=
  ⟨(discover_quota_abort).1 (str "xinyi") fetchQ3 [[str "q1"], [str "q2"]] [str "q3"]
      [[str "q4"], [str "q5"], [str "q6"], [str "q7"], [str "q8"], [str "q9"], [str "q10"]]
      quotaErr (by decide) rfl,
   (discover_quota_abort).2 (str "xinyi") [(1, Except.ok []), (2, Except.ok [])] 3 quotaErr
     [(4, Except.ok [])] discInit
     (by
       intro p hp e' he'
       rcases List.mem_cons.mp hp with h | h
       · subst h; cases he'
       · rcases List.mem_cons.mp h with h2 | h2
         · subst h2; cases he'
         · cases h2)
     (by decide)⟩

/-- C9 counterexample: at worker count 1 (the default), a quota-exhaustion
failure on batch 3 of 10 propagates as an exception — batches 4-10 are
never dispatched, but the failing batch is never counted as failed and the
job is never marked, contradicting the claim for "every worker count". -/
theorem discover_seq_quota_uncounted :
    (discover_seq (str "xinyi") fetchQ3 batches10 none).1 = some quotaErr ∧
    (discover_seq (str "xinyi") fetchQ3 batches10 none).2.failed_batches = 0 ∧
    (discover_seq (str "xinyi") fetchQ3 batches10 none).2.jobStatus = str "running" ∧
    (discover_seq (str "xinyi") fetchQ3 batches10 none).2.fetched = [1, 2, 3] ∧
    is_apify_memory_limit_error quotaErr = true := by
  refine ⟨by decide, by decide, by decide, by decide, by decide⟩

/-! ### Identity-resolution counterexamples -/

/-- C3 counterexample: for the free-text input `cafe`, re-resolving the
canonical reference reproduces the canonical URL but moves the cache key
from the `search_url:` namespace to the `url:` namespace, so resolution is
not idempotent on free-text inputs. -/
theorem normalize_free_text_not_idempotent :
    (normalize_input_to_canonical
        (normalize_input_to_canonical (str "cafe")).canonical_url).canonical_url =
      (normalize_input_to_canonical (str "cafe")).canonical_url ∧
    (normalize_input_to_canonical (str "cafe")).cache_key =
      str "search_url:186030d14b3ea9cc" ∧
    (normalize_input_to_canonical
        (normalize_input_to_canonical (str "cafe")).canonical_url).cache_key =
      str "url:186030d14b3ea9cc" ∧
    (normalize_input_to_canonical
        (normalize_input_to_canonical (str "cafe")).canonical_url).cache_key ≠
      (normalize_input_to_canonical (str "cafe")).cache_key := by
  refine ⟨by decide, by decide, by decide, by decide⟩

/-- C4 counterexample: two URLs differing only in host casing on a
non-Google host resolve to different cache keys, because the host's casing
is preserved in the canonical URL that gets hashed. -/
theorem resolve_host_casing_not_invariant :
    (normalize_input_to_canonical (str "https://shop.example.com/menu")).cache_key =
      str "url:24ca019947cf5e05" ∧
    (normalize_input_to_canonical (str "https://SHOP.example.com/menu")).cache_key =
      str "url:aa58891764dac520" ∧
    (normalize_input_to_canonical (str "https://shop.example.com/menu")).cache_key ≠
      (normalize_input_to_canonical (str "https://SHOP.example.com/menu")).cache_key := by
  refine ⟨by decide, by decide, by decide⟩

/-! ### Parsing utility lemmas -/

theorem char_ne_of_excluded {f : Char → Bool} {c d : Char} (hc : f c = true)
    (hd : f d = false) : ¬c = d := by
  intro h; subst h; rw [hc] at hd; cases hd

theorem findIdx?_append_cons {p : Char → Bool} (d : Char) (hd : p d = true) :
    ∀ (l m : Str) (i : Nat), (∀ c ∈ l, p c = false) →
      List.findIdx? p (l ++ d :: m) i = some (i + l.length) := by
  intro l
  induction l with
  | nil => intro m i _; simp [List.findIdx?_cons, hd]
  | cons c t ih =>
    intro m i hl
    rw [List.cons_append, List.findIdx?_cons]
    rw [hl c (List.mem_cons_self _ _)]
    simp only [Bool.false_eq_true, if_neg, ite_false]
    rw [ih m (i + 1) (fun c' hc' => hl c' (List.mem_cons_of_mem _ hc'))]
    simp only [List.length_cons]
    congr 1
    omega

theorem findIdx?_none {p : Char → Bool} :
    ∀ (l : Str) (i : Nat), (∀ c ∈ l, p c = false) → List.findIdx? p l i = none := by
  intro l
  induction l with
  | nil => intro i _; rfl
  | cons c t ih =>
    intro i hl
    rw [List.findIdx?_cons, hl c (List.mem_cons_self _ _)]
    simp only [Bool.false_eq_true, if_neg, ite_false]
    exact ih (i + 1) (fun c' hc' => hl c' (List.mem_cons_of_mem _ hc'))

theorem takeWhile_all {p : Char → Bool} :
    ∀ l : Str, (∀ c ∈ l, p c = true) → l.takeWhile p = l := by
  intro l
  induction l with
  | nil => intro _; rfl
  | cons c t ih =>
    intro h
    rw [List.takeWhile_cons, h c (List.mem_cons_self _ _), if_pos rfl]
    rw [ih (fun c' hc' => h c' (List.mem_cons_of_mem _ hc'))]

theorem dropWhile_all {p : Char → Bool} :
    ∀ l : Str, (∀ c ∈ l, p c = true) → l.dropWhile p = [] := by
  intro l
  induction l with
  | nil => intro _; rfl
  | cons c t ih =>
    intro h
    rw [List.dropWhile_cons, h c (List.mem_cons_self _ _), if_pos rfl]
    exact ih (fun c' hc' => h c' (List.mem_cons_of_mem _ hc'))

/-- `takeWhile` over an all-true prefix followed by a stopped (or empty)
suffix. -/
theorem takeWhile_append_stop {p : Char → Bool} (l m : Str)
    (hl : ∀ c ∈ l, p c = true)
    (hm : m = [] ∨ ∃ c t, m = c :: t ∧ p c = false) :
    (l ++ m).takeWhile p = l := by
  rw [List.takeWhile_append]
  rw [takeWhile_all l hl]
  simp only [if_pos rfl]
  rcases hm with h | ⟨c, t, hm, hc⟩
  · simp [h]
  · subst hm
    rw [List.takeWhile_cons, hc]
    simp

theorem dropWhile_append_stop {p : Char → Bool} (l m : Str)
    (hl : ∀ c ∈ l, p c = true)
    (hm : m = [] ∨ ∃ c t, m = c :: t ∧ p c = false) :
    (l ++ m).dropWhile p = m := by
  rw [List.dropWhile_append]
  rw [dropWhile_all l hl]
  simp only [List.isEmpty_nil, if_pos rfl]
  rcases hm with h | ⟨c, t, hm, hc⟩
  · simp [h]
  · subst hm
    rw [List.dropWhile_cons, hc]
    simp

theorem contains_false_of_all {f : Char → Bool} (l : Str) (d : Char)
    (hl : ∀ c ∈ l, f c = true) (hd : f d = false) : l.contains d = false := by
  rw [← Bool.not_eq_true, List.contains_iff_exists_mem_beq]
  rintro ⟨c, hc, hbeq⟩
  have : d = c := beq_iff_eq.mp hbeq
  subst this
  rw [hl d hc] at hd
  cases hd

theorem headD_append_of_ne_nil {l : Str} (m : Str) (d : Char) (h : l ≠ []) :
    (l ++ m).headD d = l.headD d := by
  cases l with
  | nil => exact absurd rfl h
  | cons c t => rfl

theorem drop_append_cons_len (l : Str) (c : Char) (m : Str) :
    (l ++ c :: m).drop (l.length + 1) = m := by
  have : l ++ c :: m = (l ++ [c]) ++ m := by simp
  rw [this]
  have hlen : (l ++ [c]).length = l.length + 1 := by simp
  rw [← hlen, List.drop_left]

/-! ### `urlparse` on rendered URLs -/

theorem splitScheme_raw (s : Str) (R : Str) (hs : schemeOk s = true) :
    splitScheme (s ++ ':' :: R) = (pyLower s, R) := by
  rw [schemeOk, Bool.and_eq_true, Bool.and_eq_true] at hs
  obtain ⟨⟨hs1, hs2⟩, hs3⟩ := hs
  rw [List.all_eq_true] at hs3
  have hs0 : s ≠ [] := by
    cases s with
    | nil => cases hs1
    | cons a t => exact List.cons_ne_nil a t
  unfold splitScheme
  have hfind : List.findIdx? (fun c => c = ':') (s ++ ':' :: R) = some s.length := by
    have := findIdx?_append_cons (p := fun c => c = ':') ':' (by decide) s R 0
      (fun c hc => by
        have hne := char_ne_of_excluded (hs3 c hc) (show isSchemeChar ':' = false by decide)
        simp [hne])
    simpa using this
  rw [hfind]
  have hpos : 0 < s.length := List.length_pos.mpr hs0
  have hhead : (s ++ ':' :: R).headD ' ' = s.headD ' ' := headD_append_of_ne_nil _ ' ' hs0
  have htake : (s ++ ':' :: R).take s.length = s := List.take_left s (':' :: R)
  simp only [htake, hhead, drop_append_cons_len]
  rw [if_pos]
  simp only [Bool.and_eq_true]
  exact ⟨⟨by simpa using hpos, hs2⟩, List.all_eq_true.mpr hs3⟩

theorem splitNetloc_raw (h rest : Str) (hhc : ∀ c ∈ h, hostChar c = true)
    (hrest : rest = [] ∨ ∃ c t, rest = c :: t ∧ (c = '/' ∨ c = '?')) :
    splitNetloc ('/' :: '/' :: (h ++ rest)) = (h, rest) := by
  unfold splitNetloc
  rw [if_pos (by simp [str, List.isPrefixOf])]
  have hstop : rest = [] ∨ ∃ c t, rest = c :: t ∧
      (!(c = '/' || c = '?' || c = '#')) = false := by
    rcases hrest with h1 | ⟨c, t, h1, h2⟩
    · exact Or.inl h1
    · refine Or.inr ⟨c, t, h1, ?_⟩
      rcases h2 with h2 | h2 <;> simp [h2]
  have hall : ∀ c ∈ h, (!(c = '/' || c = '?' || c = '#')) = true := by
    intro c hc
    have h1 := char_ne_of_excluded (hhc c hc) (show hostChar '/' = false by decide)
    have h2 := char_ne_of_excluded (hhc c hc) (show hostChar '?' = false by decide)
    have h3 := char_ne_of_excluded (hhc c hc) (show hostChar '#' = false by decide)
    simp [h1, h2, h3]
  have ht := takeWhile_append_stop h rest hall hstop
  have hd := dropWhile_append_stop h rest hall hstop
  simp only [List.drop_succ_cons, List.drop_zero]
  rw [ht, hd]

theorem splitOnce_no_occurrence (d : Char) (l : Str) (hl : ∀ c ∈ l, ¬c = d) :
    splitOnceChar d l = (l, []) := by
  unfold splitOnceChar
  have ht := takeWhile_all (p := fun c => c ≠ d) l
    (fun c hc => by simp [hl c hc])
  have hd := dropWhile_all (p := fun c => c ≠ d) l
    (fun c hc => by simp [hl c hc])
  rw [ht, hd]

theorem splitOnce_at (d : Char) (l m : Str) (hl : ∀ c ∈ l, ¬c = d) :
    splitOnceChar d (l ++ d :: m) = (l, m) := by
  unfold splitOnceChar
  have hstop : d :: m = [] ∨ ∃ c t, d :: m = c :: t ∧ (decide (c ≠ d)) = false :=
    Or.inr ⟨d, m, rfl, by simp⟩
  have hall : ∀ c ∈ l, (decide (c ≠ d)) = true := fun c hc => by simp [hl c hc]
  have ht := takeWhile_append_stop l (d :: m) hall hstop
  have hd := dropWhile_append_stop l (d :: m) hall hstop
  rw [ht, hd]

theorem splitParams_none (p : Str) (hp : ∀ c ∈ p, ¬c = ';') :
    splitParamsPy p = (p, []) := by
  unfold splitParamsPy
  have hfind : ∀ k, findFrom ';' k p = none := by
    intro k
    unfold findFrom
    rw [findIdx?_none (p.drop k) 0
      (fun c hc => by simp [hp c (List.drop_subset k p hc)])]
  by_cases hc : p.contains '/' = true <;> simp [hc, hfind]

/-- `urlparse` of a rendered URL recovers its components (scheme
lowercased, params empty). -/
theorem urlparse_raw (s h p qs : Str)
    (hs : schemeOk s = true) (hhc : ∀ c ∈ h, hostChar c = true)
    (hp : p = [] ∨ ((str "/").isPrefixOf p = true ∧ ∀ c ∈ p, pathChar c = true))
    (hq : ∀ c ∈ qs, ¬c = '#') :
    urlparse (s ++ str "://" ++ h ++ p ++ optQ qs) = ⟨pyLower s, h, p, [], qs, []⟩ := by
  have hsep : (str "://" : Str) = ':' :: '/' :: '/' :: [] := rfl
  have hurl : s ++ str "://" ++ h ++ p ++ optQ qs =
      s ++ ':' :: ('/' :: '/' :: (h ++ (p ++ optQ qs))) := by
    rw [hsep]; simp
  have hpchars : ∀ c ∈ p, pathChar c = true := by
    rcases hp with h1 | ⟨-, h1⟩
    · subst h1; intro c hc; cases hc
    · exact h1
  have hqchars : ∀ c ∈ optQ qs, ¬c = '#' := by
    intro c hc
    unfold optQ at hc
    by_cases he : qs.isEmpty = true
    · rw [if_pos he] at hc; cases hc
    · rw [if_neg he] at hc
      rcases List.mem_cons.mp hc with h1 | h1
      · subst h1; decide
      · exact hq c h1
  have hrest : p ++ optQ qs = [] ∨ ∃ c t, p ++ optQ qs = c :: t ∧ (c = '/' ∨ c = '?') := by
    rcases hp with h1 | ⟨h1, -⟩
    · subst h1
      simp only [List.nil_append]
      unfold optQ
      by_cases he : qs.isEmpty = true
      · exact Or.inl (by rw [if_pos he])
      · exact Or.inr ⟨'?', qs, by rw [if_neg he], Or.inr rfl⟩
    · rcases (List.isPrefixOf_iff_prefix.mp h1) with ⟨t, ht⟩
      have ht' : '/' :: t = p := ht
      exact Or.inr ⟨'/', t ++ optQ qs, by rw [← ht']; rfl, Or.inl rfl⟩
  have hhash : splitOnceChar '#' (p ++ optQ qs) = (p ++ optQ qs, []) :=
    splitOnce_no_occurrence '#' (p ++ optQ qs)
      (fun c hc => by
        rcases List.mem_append.mp hc with h1 | h1
        · exact char_ne_of_excluded (hpchars c h1) (show pathChar '#' = false by decide)
        · exact hqchars c h1)
  have hqsplit : splitOnceChar '?' (p ++ optQ qs) = (p, qs) := by
    by_cases he : qs.isEmpty = true
    · have hqs : qs = [] := List.isEmpty_iff.mp he
      subst hqs
      have ho : p ++ optQ ([] : Str) = p := by
        have h0 : optQ ([] : Str) = [] := rfl
        rw [h0, List.append_nil]
      rw [ho]
      exact splitOnce_no_occurrence '?' p
        (fun c hc => char_ne_of_excluded (hpchars c hc)
          (show pathChar '?' = false by decide))
    · have : optQ qs = '?' :: qs := by unfold optQ; rw [if_neg he]
      rw [this]
      exact splitOnce_at '?' p qs
        (fun c hc => char_ne_of_excluded (hpchars c hc)
          (show pathChar '?' = false by decide))
  have hparams : splitParamsPy p = (p, []) :=
    splitParams_none p
      (fun c hc => char_ne_of_excluded (hpchars c hc)
        (show pathChar ';' = false by decide))
  unfold urlparse
  rw [hurl]
  simp only [splitScheme_raw s _ hs, splitNetloc_raw h (p ++ optQ qs) hhc hrest,
    hhash, hqsplit, hparams]

/-- `urlunparse` of rendered components (empty params and fragment). -/
theorem urlunparse_raw (s h p qs : Str) (hs : s ≠ []) (hh : h ≠ [])
    (hp : p = [] ∨ (str "/").isPrefixOf p = true) :
    urlunparse ⟨s, h, p, [], qs, []⟩ = s ++ str "://" ++ h ++ p ++ optQ qs := by
  have hnet : ((!(h.isEmpty)) || (str "//").isPrefixOf p) = true := by
    cases h with
    | nil => exact absurd rfl hh
    | cons a t => rfl
  have hu1 : (if ((!p.isEmpty) && decide (p.headD ' ' ≠ '/')) = true
      then '/' :: p else p) = p := by
    rcases hp with h1 | h1
    · subst h1; rfl
    · rcases (List.isPrefixOf_iff_prefix.mp h1) with ⟨t, ht⟩
      have ht' : '/' :: t = p := ht
      rw [← ht']
      simp
  have hsne : (!(s.isEmpty)) = true := by
    cases s with
    | nil => exact absurd rfl hs
    | cons a t => rfl
  have hmain : (if ((!(h.isEmpty)) || (str "//").isPrefixOf p) = true then
      (str "//") ++ h ++
        (if ((!p.isEmpty) && decide (p.headD ' ' ≠ '/')) = true then '/' :: p else p)
      else p) = (str "//") ++ h ++ p := by
    rw [if_pos hnet, hu1]
  show (if (!qs.isEmpty) = true then
      (if (!s.isEmpty) = true then
        s ++ ':' :: (if ((!(h.isEmpty)) || (str "//").isPrefixOf p) = true then
          (str "//") ++ h ++
            (if ((!p.isEmpty) && decide (p.headD ' ' ≠ '/')) = true then '/' :: p else p)
          else p)
        else (if ((!(h.isEmpty)) || (str "//").isPrefixOf p) = true then
          (str "//") ++ h ++
            (if ((!p.isEmpty) && decide (p.headD ' ' ≠ '/')) = true then '/' :: p else p)
          else p)) ++ '?' :: qs
      else
      (if (!s.isEmpty) = true then
        s ++ ':' :: (if ((!(h.isEmpty)) || (str "//").isPrefixOf p) = true then
          (str "//") ++ h ++
            (if ((!p.isEmpty) && decide (p.headD ' ' ≠ '/')) = true then '/' :: p else p)
          else p)
        else (if ((!(h.isEmpty)) || (str "//").isPrefixOf p) = true then
          (str "//") ++ h ++
            (if ((!p.isEmpty) && decide (p.headD ' ' ≠ '/')) = true then '/' :: p else p)
          else p)))
    = s ++ str "://" ++ h ++ p ++ optQ qs
  rw [hmain, if_pos hsne]
  have hsep : (str "://" : Str) = ':' :: str "//" := rfl
  by_cases he : qs.isEmpty = true
  · have hqs : qs = [] := List.isEmpty_iff.mp he
    subst hqs
    rw [if_neg (by decide)]
    have ho : optQ ([] : Str) = [] := rfl
    rw [ho, List.append_nil, hsep]
    simp [List.append_assoc]
  · have hne : (!qs.isEmpty) = true := by simp [he]
    rw [if_pos hne]
    have ho : optQ qs = '?' :: qs := by unfold optQ; rw [if_neg he]
    rw [ho, hsep]
    simp [List.append_assoc]

/-! ### ASCII lowercasing -/

theorem toNat_ofNat_valid {n : Nat} (h : n.isValidChar) : (Char.ofNat n).toNat = n := by
  unfold Char.ofNat
  rw [dif_pos h]
  rfl

theorem isUpper_iff_toNat {c : Char} : c.isUpper = true ↔ 65 ≤ c.toNat ∧ c.toNat ≤ 90 := by
  unfold Char.isUpper
  rw [Bool.and_eq_true, decide_eq_true_iff, decide_eq_true_iff]
  exact Iff.rfl

theorem isLower_iff_toNat {c : Char} : c.isLower = true ↔ 97 ≤ c.toNat ∧ c.toNat ≤ 122 := by
  unfold Char.isLower
  rw [Bool.and_eq_true, decide_eq_true_iff, decide_eq_true_iff]
  exact Iff.rfl

theorem isDigit_iff_toNat {c : Char} : c.isDigit = true ↔ 48 ≤ c.toNat ∧ c.toNat ≤ 57 := by
  unfold Char.isDigit
  rw [Bool.and_eq_true, decide_eq_true_iff, decide_eq_true_iff]
  exact Iff.rfl

theorem toLower_toNat_of_upper {c : Char} (h1 : 65 ≤ c.toNat) (h2 : c.toNat ≤ 90) :
    (Char.toLower c).toNat = c.toNat + 32 := by
  unfold Char.toLower
  rw [if_pos ⟨h1, h2⟩]
  exact toNat_ofNat_valid (Or.inl (by omega))

theorem toLower_eq_self {c : Char} (h : ¬(65 ≤ c.toNat ∧ c.toNat ≤ 90)) :
    Char.toLower c = c := by
  unfold Char.toLower
  rw [if_neg h]

theorem isAlpha_toLower {c : Char} (h : c.isAlpha = true) :
    (Char.toLower c).isAlpha = true := by
  unfold Char.isAlpha at h ⊢
  rw [Bool.or_eq_true] at h
  rcases h with h | h
  · obtain ⟨h1, h2⟩ := isUpper_iff_toNat.mp h
    rw [Bool.or_eq_true]
    exact Or.inr (isLower_iff_toNat.mpr (by
      rw [toLower_toNat_of_upper h1 h2]
      omega))
  · obtain ⟨h1, h2⟩ := isLower_iff_toNat.mp h
    rw [toLower_eq_self (by omega), Bool.or_eq_true]
    exact Or.inr (isLower_iff_toNat.mpr ⟨h1, h2⟩)

theorem isSchemeChar_toLower {c : Char} (h : isSchemeChar c = true) :
    isSchemeChar (Char.toLower c) = true := by
  unfold isSchemeChar at h ⊢
  rw [Bool.or_eq_true, Bool.or_eq_true, Bool.or_eq_true] at h
  rcases h with ((h | h) | h) | h
  · unfold Char.isAlphanum at h ⊢
    rw [Bool.or_eq_true] at h
    rcases h with h | h
    · simp only [isAlpha_toLower h, Bool.true_or]
    · obtain ⟨h1, h2⟩ := isDigit_iff_toNat.mp h
      rw [toLower_eq_self (by omega)]
      simp only [h, Bool.or_true, Bool.true_or]
  · have hc : c = '+' := of_decide_eq_true h
    subst hc
    decide
  · have hc : c = '-' := of_decide_eq_true h
    subst hc
    decide
  · have hc : c = '.' := of_decide_eq_true h
    subst hc
    decide

theorem pyLower_ne_nil {s : Str} (h : s ≠ []) : pyLower s ≠ [] := by
  unfold pyLower
  simpa using h

theorem schemeOk_pyLower {s : Str} (h : schemeOk s = true) : schemeOk (pyLower s) = true := by
  rw [schemeOk, Bool.and_eq_true, Bool.and_eq_true] at h ⊢
  obtain ⟨⟨h1, h2⟩, h3⟩ := h
  have hne : s ≠ [] := by
    cases s with
    | nil => cases h1
    | cons a t => exact List.cons_ne_nil a t
  refine ⟨⟨?_, ?_⟩, ?_⟩
  · cases hs : pyLower s with
    | nil => exact absurd hs (pyLower_ne_nil hne)
    | cons a t => rfl
  · cases s with
    | nil => cases h1
    | cons a t =>
      show ((a.toLower :: t.map Char.toLower).headD ' ').isAlpha = true
      exact isAlpha_toLower h2
  · rw [List.all_eq_true] at h3 ⊢
    intro c hc
    unfold pyLower at hc
    rcases List.mem_map.mp hc with ⟨a, ha, hac⟩
    subst hac
    exact isSchemeChar_toLower (h3 a ha)

/-! ### Strip, unquote and quote identities on unreserved characters -/

theorem dropWhile_head_false {p : Char → Bool} {s : Str} (h : p (s.headD ' ') = false) :
    s.dropWhile p = s := by
  cases s with
  | nil => rfl
  | cons c t =>
    simp only [List.headD_cons] at h
    rw [List.dropWhile_cons, h]
    simp

theorem pyStrip_id {s : Str} (h1 : isPyWs (s.headD ' ') = false)
    (h2 : isPyWs (s.reverse.headD ' ') = false) : pyStrip s = s := by
  unfold pyStrip
  rw [dropWhile_head_false h1, dropWhile_head_false h2, List.reverse_reverse]

theorem pyRstrip_id {chars s : Str} (h : chars.contains (s.reverse.headD ' ') = false) :
    pyRstrip chars s = s := by
  unfold pyRstrip
  rw [dropWhile_head_false h, List.reverse_reverse]

theorem unquoteGo_no_pct (s : Str) (h : ∀ c ∈ s, ¬c = '%') :
    ∀ fuel, unquoteGo fuel s = s := by
  induction s with
  | nil => intro fuel; cases fuel <;> rfl
  | cons c t ih =>
    intro fuel
    cases fuel with
    | zero => rfl
    | succ f =>
      unfold unquoteGo
      rw [if_neg (h c (List.mem_cons_self c t)),
        ih (fun x hx => h x (List.mem_cons_of_mem c hx)) f]

theorem unquote_no_pct {s : Str} (h : ∀ c ∈ s, ¬c = '%') : unquote s = s := by
  have hcon : s.contains '%' = false :=
    contains_false_of_all (f := fun c => !(c = '%')) s '%'
      (fun c hc => by simp [h c hc]) (by decide)
  unfold unquote
  rw [hcon]
  simp

theorem map_plus_id {s : Str} (h : ∀ c ∈ s, ¬c = '+') :
    s.map (fun c => if c = '+' then ' ' else c) = s := by
  induction s with
  | nil => rfl
  | cons c t ih =>
    simp only [List.map_cons]
    rw [if_neg (h c (List.mem_cons_self c t)),
      ih (fun x hx => h x (List.mem_cons_of_mem c hx))]

theorem unquotePlus_safe {s : Str} (h : ∀ c ∈ s, ¬c = '%' ∧ ¬c = '+') :
    unquotePlus s = s := by
  unfold unquotePlus
  rw [map_plus_id (fun c hc => (h c hc).2), unquote_no_pct (fun c hc => (h c hc).1)]

theorem utf8EncodeChar_ascii {c : Char} (h : c.toNat < 128) :
    utf8EncodeChar c = [c.toNat] := by
  unfold utf8EncodeChar
  rw [if_pos h]

theorem quoteByte_safe {c : Char} (h : c.toNat < 128) (hs : isAlwaysSafe c = true) :
    quoteByte [] c.toNat = [c] := by
  unfold quoteByte
  simp only [Char.ofNat_toNat]
  rw [if_pos]
  rw [Bool.and_eq_true]
  exact ⟨by simpa using h, by simp [hs]⟩

theorem qSafeChar_facts {c : Char} (h : qSafeChar c = true) :
    isAlwaysSafe c = true ∧ c.toNat < 128 := by
  unfold qSafeChar at h
  rw [Bool.or_eq_true, Bool.or_eq_true, Bool.or_eq_true] at h
  rcases h with ((h | h) | h) | h
  · refine ⟨by unfold isAlwaysSafe; simp [h], ?_⟩
    unfold Char.isAlphanum at h
    rw [Bool.or_eq_true] at h
    rcases h with h | h
    · unfold Char.isAlpha at h
      rw [Bool.or_eq_true] at h
      rcases h with h | h
      · obtain ⟨-, h2⟩ := isUpper_iff_toNat.mp h
        omega
      · obtain ⟨-, h2⟩ := isLower_iff_toNat.mp h
        omega
    · obtain ⟨-, h2⟩ := isDigit_iff_toNat.mp h
      omega
  · have hc : c = '_' := of_decide_eq_true h
    subst hc
    exact ⟨by decide, by decide⟩
  · have hc : c = '-' := of_decide_eq_true h
    subst hc
    exact ⟨by decide, by decide⟩
  · have hc : c = '~' := of_decide_eq_true h
    subst hc
    exact ⟨by decide, by decide⟩

theorem quote_safe_id {x : Str} (h : ∀ c ∈ x, qSafeChar c = true) : quote [] x = x := by
  induction x with
  | nil => rfl
  | cons c t ih =>
    obtain ⟨hsafe, hlt⟩ := qSafeChar_facts (h c (List.mem_cons_self c t))
    show ((c :: t).flatMap utf8EncodeChar).flatMap (quoteByte []) = c :: t
    rw [List.flatMap_cons, utf8EncodeChar_ascii hlt, List.flatMap_append]
    rw [show ([c.toNat] : List Nat).flatMap (quoteByte []) = quoteByte [] c.toNat by simp]
    rw [quoteByte_safe hlt hsafe]
    have ht := ih (fun a ha => h a (List.mem_cons_of_mem c ha))
    rw [show (t.flatMap utf8EncodeChar).flatMap (quoteByte []) = quote [] t from rfl, ht]
    rfl

theorem quote_append (safe a b : Str) :
    quote safe (a ++ b) = quote safe a ++ quote safe b := by
  unfold quote utf8Encode
  rw [List.flatMap_append, List.flatMap_append]

theorem quotePlus_no_space {x : Str} (h : x.contains ' ' = false) :
    quotePlus [] x = quote [] x := by
  unfold quotePlus
  rw [h]
  simp

theorem quotePlus_safe_id {x : Str} (h : ∀ c ∈ x, qSafeChar c = true) :
    quotePlus [] x = x := by
  rw [quotePlus_no_space (contains_false_of_all x ' ' h (by decide)), quote_safe_id h]

/-! ### ASCII character-class transfer and `str.split` -/

theorem ascii_prop {P : Char → Prop} [DecidablePred P] {c : Char} (h : c.toNat < 128)
    (hP : ∀ n, n < 128 → P (Char.ofNat n)) : P c := by
  have := hP c.toNat h
  rwa [Char.ofNat_toNat] at this

theorem alphanum_lt128 {c : Char} (h : c.isAlphanum = true) : c.toNat < 128 := by
  unfold Char.isAlphanum at h
  rw [Bool.or_eq_true] at h
  rcases h with h | h
  · unfold Char.isAlpha at h
    rw [Bool.or_eq_true] at h
    rcases h with h | h
    · obtain ⟨-, h2⟩ := isUpper_iff_toNat.mp h
      omega
    · obtain ⟨-, h2⟩ := isLower_iff_toNat.mp h
      omega
  · obtain ⟨-, h2⟩ := isDigit_iff_toNat.mp h
    omega

theorem pathChar_lt128 {c : Char} (h : pathChar c = true) : c.toNat < 128 := by
  unfold pathChar at h
  rw [Bool.or_eq_true, Bool.or_eq_true, Bool.or_eq_true, Bool.or_eq_true] at h
  rcases h with (((h | h) | h) | h) | h
  · exact alphanum_lt128 h
  all_goals first
    | (have hc : c = '/' := of_decide_eq_true h; subst hc; decide)
    | (have hc : c = '_' := of_decide_eq_true h; subst hc; decide)
    | (have hc : c = '-' := of_decide_eq_true h; subst hc; decide)
    | (have hc : c = '~' := of_decide_eq_true h; subst hc; decide)

theorem hostChar_lt128 {c : Char} (h : hostChar c = true) : c.toNat < 128 := by
  unfold hostChar at h
  rw [Bool.or_eq_true, Bool.or_eq_true] at h
  rcases h with (h | h) | h
  · exact alphanum_lt128 h
  all_goals first
    | (have hc : c = '.' := of_decide_eq_true h; subst hc; decide)
    | (have hc : c = '-' := of_decide_eq_true h; subst hc; decide)

theorem qSafe_not_stop {c : Char} (h : qSafeChar c = true) : isUrlStopChar c = false :=
  ascii_prop (P := fun c => qSafeChar c = true → isUrlStopChar c = false)
    (qSafeChar_facts h).2
    (by decide) h

theorem pathChar_not_stop {c : Char} (h : pathChar c = true) : isUrlStopChar c = false :=
  ascii_prop (P := fun c => pathChar c = true → isUrlStopChar c = false)
    (pathChar_lt128 h) (by decide) h

theorem hostChar_not_stop {c : Char} (h : hostChar c = true) : isUrlStopChar c = false :=
  ascii_prop (P := fun c => hostChar c = true → isUrlStopChar c = false)
    (hostChar_lt128 h) (by decide) h

theorem qSafe_not_rstrip {c : Char} (h : qSafeChar c = true) :
    rstripSet.contains c = false :=
  ascii_prop (P := fun c => qSafeChar c = true → rstripSet.contains c = false)
    (qSafeChar_facts h).2 (by decide) h

theorem splitOnCharGo_fuel (d : Char) :
    ∀ f1 f2 s, s.length ≤ f1 → s.length ≤ f2 →
      splitOnCharGo f1 d s = splitOnCharGo f2 d s := by
  intro f1
  induction f1 with
  | zero =>
    intro f2 s h1 h2
    have hs : s = [] := List.eq_nil_of_length_eq_zero (Nat.le_zero.mp h1)
    subst hs
    cases f2 <;> rfl
  | succ g1 ih =>
    intro f2 s h1 h2
    cases f2 with
    | zero =>
      have hs : s = [] := List.eq_nil_of_length_eq_zero (Nat.le_zero.mp h2)
      subst hs
      rfl
    | succ g2 =>
      unfold splitOnCharGo
      cases hdw : s.dropWhile (· ≠ d) with
      | nil => rfl
      | cons c t =>
        have hlt : t.length < s.length := by
          have hsub := (List.dropWhile_sublist (l := s) (· ≠ d)).length_le
          rw [hdw] at hsub
          simp only [List.length_cons] at hsub
          omega
        show List.takeWhile (· ≠ d) s :: splitOnCharGo g1 d t
            = List.takeWhile (· ≠ d) s :: splitOnCharGo g2 d t
        rw [ih g2 t (by omega) (by omega)]

theorem splitOnChar_no_occ {d : Char} {s : Str} (h : ∀ c ∈ s, ¬c = d) :
    splitOnChar d s = [s] := by
  cases s with
  | nil => rfl
  | cons c t =>
    show splitOnCharGo (Nat.succ t.length) d (c :: t) = [c :: t]
    unfold splitOnCharGo
    rw [dropWhile_all (p := (· ≠ d)) (c :: t) (fun x hx => by simp [h x hx])]

theorem splitOnChar_cons_at {d : Char} (a rest : Str) (h : ∀ c ∈ a, ¬c = d) :
    splitOnChar d (a ++ d :: rest) = a :: splitOnChar d rest := by
  have hall : ∀ c ∈ a, (decide (c ≠ d)) = true := fun c hc => by simp [h c hc]
  have hstop : (d :: rest : Str) = [] ∨ ∃ c t, d :: rest = c :: t ∧ (decide (c ≠ d)) = false :=
    Or.inr ⟨d, rest, rfl, by simp⟩
  have hdw := dropWhile_append_stop a (d :: rest) hall hstop
  have htw := takeWhile_append_stop a (d :: rest) hall hstop
  have hlen : (a ++ d :: rest).length = (a.length + rest.length) + 1 := by
    simp only [List.length_append, List.length_cons]
    omega
  calc splitOnChar d (a ++ d :: rest)
      = splitOnCharGo (Nat.succ (a.length + rest.length)) d (a ++ d :: rest) :=
        splitOnCharGo_fuel d _ _ _ (le_refl _) (le_of_eq hlen)
    _ = a :: splitOnCharGo (a.length + rest.length) d rest := by
        conv_lhs => unfold splitOnCharGo
        rw [hdw]
        simp only [htw]
    _ = a :: splitOnChar d rest :=
        congrArg (fun z => a :: z) (splitOnCharGo_fuel d _ _ rest (by omega) (le_refl _))

/-! ### `parse_qsl` on rendered queries -/

theorem qSafe_unquotePlus {x : Str} (h : ∀ c ∈ x, qSafeChar c = true) :
    unquotePlus x = x :=
  unquotePlus_safe (fun c hc =>
    ⟨char_ne_of_excluded (h c hc) (by decide), char_ne_of_excluded (h c hc) (by decide)⟩)

theorem chunk_isEmpty_false (k v : Str) : (k ++ '=' :: v).isEmpty = false := by
  cases k <;> rfl

theorem chunk_dropWhile (k v : Str) (hk : ∀ c ∈ k, qSafeChar c = true) :
    (k ++ '=' :: v).dropWhile (· ≠ '=') = '=' :: v :=
  dropWhile_append_stop k ('=' :: v)
    (fun c hc => by
      simp [char_ne_of_excluded (hk c hc) (show qSafeChar '=' = false by decide)])
    (Or.inr ⟨'=', v, rfl, by simp⟩)

theorem chunk_takeWhile (k v : Str) (hk : ∀ c ∈ k, qSafeChar c = true) :
    (k ++ '=' :: v).takeWhile (· ≠ '=') = k :=
  takeWhile_append_stop k ('=' :: v)
    (fun c hc => by
      simp [char_ne_of_excluded (hk c hc) (show qSafeChar '=' = false by decide)])
    (Or.inr ⟨'=', v, rfl, by simp⟩)

theorem chunk_no_amp (k v : Str) (hk : ∀ c ∈ k, qSafeChar c = true)
    (hv : ∀ c ∈ v, qSafeChar c = true) : ∀ c ∈ k ++ '=' :: v, ¬c = '&' := by
  intro c hc
  rcases List.mem_append.mp hc with h1 | h1
  · exact char_ne_of_excluded (hk c h1) (by decide)
  · rcases List.mem_cons.mp h1 with h2 | h2
    · subst h2; decide
    · exact char_ne_of_excluded (hv c h2) (by decide)

theorem parseQsl_single (k v : Str) (hk : ∀ c ∈ k, qSafeChar c = true)
    (hv0 : v ≠ []) (hv : ∀ c ∈ v, qSafeChar c = true) :
    parseQsl (k ++ '=' :: v) = [(k, v)] := by
  unfold parseQsl
  rw [splitOnChar_no_occ (chunk_no_amp k v hk hv)]
  simp only [List.foldr_cons, List.foldr_nil, chunk_isEmpty_false,
    Bool.false_eq_true, if_false]
  rw [chunk_dropWhile k v hk]
  simp only [chunk_takeWhile k v hk]
  rw [if_neg (by simp [hv0]), qSafe_unquotePlus hk, qSafe_unquotePlus hv]

theorem parseQsl_cons_chunk (k v rest : Str) (hk : ∀ c ∈ k, qSafeChar c = true)
    (hv0 : v ≠ []) (hv : ∀ c ∈ v, qSafeChar c = true) :
    parseQsl ((k ++ '=' :: v) ++ '&' :: rest) = (k, v) :: parseQsl rest := by
  unfold parseQsl
  rw [splitOnChar_cons_at _ _ (chunk_no_amp k v hk hv)]
  simp only [List.foldr_cons, chunk_isEmpty_false, Bool.false_eq_true, if_false]
  rw [chunk_dropWhile k v hk]
  simp only [chunk_takeWhile k v hk]
  rw [if_neg (by simp [hv0]), qSafe_unquotePlus hk, qSafe_unquotePlus hv]

theorem queryOkKV_head {kv : Str × Str} {t : List (Str × Str)}
    (h : queryOkKV (kv :: t) = true) :
    kv.1 ≠ [] ∧ (∀ c ∈ kv.1, qSafeChar c = true) ∧ kv.2 ≠ [] ∧
      (∀ c ∈ kv.2, qSafeChar c = true) ∧ queryOkKV t = true := by
  unfold queryOkKV at h
  rw [List.all_cons, Bool.and_eq_true] at h
  obtain ⟨h1, h2⟩ := h
  rw [Bool.and_eq_true, Bool.and_eq_true, Bool.and_eq_true] at h1
  obtain ⟨⟨⟨ha, hb⟩, hc⟩, hd⟩ := h1
  exact ⟨by simpa using ha, List.all_eq_true.mp hb, by simpa using hc,
    List.all_eq_true.mp hd, h2⟩

theorem parseQsl_render {l : List (Str × Str)} (h : queryOkKV l = true) :
    parseQsl (renderQuery l) = l := by
  induction l with
  | nil => rfl
  | cons kv t ih =>
    obtain ⟨hk0, hkq, hv0, hvq, ht⟩ := queryOkKV_head h
    cases t with
    | nil =>
      have hr : renderQuery [kv] = kv.1 ++ '=' :: kv.2 := rfl
      rw [hr, parseQsl_single kv.1 kv.2 hkq hv0 hvq]
    | cons kv2 t2 =>
      have hr : renderQuery (kv :: kv2 :: t2)
          = (kv.1 ++ '=' :: kv.2) ++ '&' :: renderQuery (kv2 :: t2) := rfl
      rw [hr, parseQsl_cons_chunk kv.1 kv.2 _ hkq hv0 hvq, ih ht]

theorem parseQs_render {l : List (Str × Str)} (h : queryOkKV l = true) :
    parseQs (renderQuery l) = groupPairs l := by
  unfold parseQs groupPairs
  rw [parseQsl_render h]

/-! ### Grouping round-trips (`parse_qs` / `urlencode`) -/

theorem insertGrouped_not_mem {k : Str} (v : Str) {acc : List (Str × List Str)}
    (h : ∀ kv ∈ acc, kv.1 ≠ k) :
    insertGrouped k v acc = acc ++ [(k, [v])] := by
  induction acc with
  | nil => rfl
  | cons kv0 t ih =>
    obtain ⟨k0, vs⟩ := kv0
    show insertGrouped k v ((k0, vs) :: t) = ((k0, vs) :: t) ++ [(k, [v])]
    unfold insertGrouped
    rw [if_neg (h (k0, vs) (List.mem_cons_self _ _)),
      ih (fun kv hkv => h kv (List.mem_cons_of_mem _ hkv))]
    rfl

theorem insertGrouped_last {k : Str} (v : Str) (u : List Str) {acc : List (Str × List Str)}
    (h : ∀ kv ∈ acc, kv.1 ≠ k) :
    insertGrouped k v (acc ++ [(k, u)]) = acc ++ [(k, u ++ [v])] := by
  induction acc with
  | nil =>
    show insertGrouped k v [(k, u)] = [(k, u ++ [v])]
    unfold insertGrouped
    rw [if_pos rfl]
  | cons kv0 t ih =>
    obtain ⟨k0, vs⟩ := kv0
    show insertGrouped k v ((k0, vs) :: (t ++ [(k, u)])) = ((k0, vs) :: t) ++ [(k, u ++ [v])]
    unfold insertGrouped
    rw [if_neg (h (k0, vs) (List.mem_cons_self _ _)),
      ih (fun kv hkv => h kv (List.mem_cons_of_mem _ hkv))]
    rfl

theorem foldl_insert_values (k : Str) (vs : List Str) (u : List Str)
    {acc : List (Str × List Str)} (h : ∀ kv ∈ acc, kv.1 ≠ k) :
    vs.foldl (fun a v => insertGrouped k v a) (acc ++ [(k, u)])
      = acc ++ [(k, u ++ vs)] := by
  induction vs generalizing u with
  | nil => simp
  | cons v vs' ih =>
    rw [List.foldl_cons, insertGrouped_last v u h, ih (u ++ [v])]
    simp

theorem ungroup_cons (kv : Str × List Str) (t : List (Str × List Str)) :
    ungroup (kv :: t) = kv.2.map (fun v => (kv.1, v)) ++ ungroup t := by
  unfold ungroup
  rw [List.flatMap_cons]

theorem foldl_insert_ungroup (gl : List (Str × List Str)) :
    ∀ acc : List (Str × List Str),
      (∀ kv ∈ gl, ∀ kv' ∈ acc, kv'.1 ≠ kv.1) → wellGrouped gl →
      (ungroup gl).foldl (fun a kv => insertGrouped kv.1 kv.2 a) acc = acc ++ gl := by
  induction gl with
  | nil =>
    intro acc _ _
    simp [ungroup]
  | cons kv0 t ih =>
    intro acc hdisj hwg
    obtain ⟨k, vs⟩ := kv0
    obtain ⟨hnd, hne⟩ := hwg
    have hvs : vs ≠ [] := hne (k, vs) (List.mem_cons_self _ _)
    obtain ⟨v0, vs', rfl⟩ := List.exists_cons_of_ne_nil hvs
    rw [ungroup_cons, List.foldl_append, List.foldl_map, List.foldl_cons]
    have hacc : ∀ kv' ∈ acc, kv'.1 ≠ k :=
      fun kv' h' => hdisj (k, v0 :: vs') (List.mem_cons_self _ _) kv' h'
    rw [insertGrouped_not_mem v0 hacc, foldl_insert_values k vs' [v0] hacc]
    simp only [List.singleton_append]
    have hkt : ∀ kv ∈ t, ¬k = kv.1 := by
      intro kv hkv hk
      rw [List.map_cons, List.nodup_cons] at hnd
      exact hnd.1 (hk ▸ List.mem_map.mpr ⟨kv, hkv, rfl⟩)
    rw [ih (acc ++ [(k, v0 :: vs')])
      (fun kv hkv kv' hkv' => by
        rcases List.mem_append.mp hkv' with h1 | h1
        · exact hdisj kv (List.mem_cons_of_mem _ hkv) kv' h1
        · rcases List.mem_singleton.mp h1 with rfl
          exact hkt kv hkv)
      ⟨by
        rw [List.map_cons, List.nodup_cons] at hnd
        exact hnd.2,
        fun kv hkv => hne kv (List.mem_cons_of_mem _ hkv)⟩]
    simp

theorem groupPairs_ungroup {gl : List (Str × List Str)} (h : wellGrouped gl) :
    groupPairs (ungroup gl) = gl := by
  unfold groupPairs
  have := foldl_insert_ungroup gl [] (by intro kv _ kv' h'; cases h') h
  simpa using this

theorem insertGrouped_mem_keys {k : Str} {v : Str} {acc : List (Str × List Str)} {x : Str}
    (h : x ∈ (insertGrouped k v acc).map (fun kv => kv.1)) :
    x ∈ acc.map (fun kv => kv.1) ∨ x = k := by
  induction acc with
  | nil =>
    simp only [insertGrouped, List.map_cons, List.map_nil, List.mem_singleton] at h
    exact Or.inr h
  | cons kv0 t ih =>
    obtain ⟨k0, vs⟩ := kv0
    unfold insertGrouped at h
    by_cases hk : k0 = k
    · rw [if_pos hk] at h
      simp only [List.map_cons, List.mem_cons] at h
      rcases h with h | h
      · exact Or.inl (by simp [h])
      · exact Or.inl (by simp [h])
    · rw [if_neg hk] at h
      simp only [List.map_cons, List.mem_cons] at h
      rcases h with h | h
      · exact Or.inl (by simp [h])
      · rcases ih h with h1 | h1
        · exact Or.inl (by simp [h1])
        · exact Or.inr h1

theorem insertGrouped_wellGrouped {k v : Str} {acc : List (Str × List Str)}
    (h : wellGrouped acc) : wellGrouped (insertGrouped k v acc) := by
  induction acc with
  | nil =>
    exact ⟨by simp [insertGrouped], by
      intro kv hkv
      rcases List.mem_singleton.mp hkv with rfl
      simp⟩
  | cons kv0 t ih =>
    obtain ⟨k0, vs⟩ := kv0
    obtain ⟨hnd, hne⟩ := h
    rw [List.map_cons, List.nodup_cons] at hnd
    show wellGrouped (if k0 = k then (k0, vs ++ [v]) :: t else (k0, vs) :: insertGrouped k v t)
    by_cases hk : k0 = k
    · rw [if_pos hk]
      refine ⟨by simpa [List.map_cons, List.nodup_cons] using hnd, ?_⟩
      intro kv hkv
      rcases List.mem_cons.mp hkv with rfl | h1
      · simp
      · exact hne kv (List.mem_cons_of_mem _ h1)
    · rw [if_neg hk]
      obtain ⟨ihnd, ihne⟩ := ih ⟨hnd.2, fun kv hkv => hne kv (List.mem_cons_of_mem _ hkv)⟩
      refine ⟨?_, ?_⟩
      · rw [List.map_cons, List.nodup_cons]
        refine ⟨?_, ihnd⟩
        intro hmem
        rcases insertGrouped_mem_keys hmem with h1 | h1
        · exact hnd.1 h1
        · exact hk h1
      · intro kv hkv
        rcases List.mem_cons.mp hkv with rfl | h1
        · exact hne (k0, vs) (List.mem_cons_self _ _)
        · exact ihne kv h1

theorem groupPairs_wellGrouped (l : List (Str × Str)) : wellGrouped (groupPairs l) := by
  unfold groupPairs
  suffices h : ∀ acc, wellGrouped acc →
      wellGrouped (l.foldl (fun acc kv => insertGrouped kv.1 kv.2 acc) acc) from
    h [] ⟨List.nodup_nil, by intro kv hkv; cases hkv⟩
  induction l with
  | nil => intro acc h; exact h
  | cons kv t ih =>
    intro acc h
    rw [List.foldl_cons]
    exact ih _ (insertGrouped_wellGrouped h)

theorem wellGrouped_filter {gl : List (Str × List Str)} (f : Str × List Str → Bool)
    (h : wellGrouped gl) : wellGrouped (gl.filter f) := by
  obtain ⟨hnd, hne⟩ := h
  refine ⟨?_, ?_⟩
  · exact hnd.sublist ((gl.filter_sublist).map (fun kv => kv.1))
  · intro kv hkv
    exact hne kv (List.mem_of_mem_filter hkv)

/-! ### Safe-character invariants through grouping and encoding -/

theorem groupOkKV_mem {gl : List (Str × List Str)} (h : groupOkKV gl = true)
    {kv : Str × List Str} (hm : kv ∈ gl) :
    kv.1 ≠ [] ∧ (∀ c ∈ kv.1, qSafeChar c = true) ∧ kv.2 ≠ [] ∧
      ∀ v ∈ kv.2, v ≠ [] ∧ ∀ c ∈ v, qSafeChar c = true := by
  unfold groupOkKV at h
  rw [List.all_eq_true] at h
  have h1 := h kv hm
  rw [Bool.and_eq_true, Bool.and_eq_true, Bool.and_eq_true] at h1
  obtain ⟨⟨⟨ha, hb⟩, hc⟩, hd⟩ := h1
  rw [List.all_eq_true] at hd
  refine ⟨by simpa using ha, List.all_eq_true.mp hb, by simpa using hc, ?_⟩
  intro v hv
  have h2 := hd v hv
  rw [Bool.and_eq_true] at h2
  exact ⟨by simpa using h2.1, List.all_eq_true.mp h2.2⟩

theorem groupOkKV_of_forall {gl : List (Str × List Str)}
    (h : ∀ kv ∈ gl, kv.1 ≠ [] ∧ (∀ c ∈ kv.1, qSafeChar c = true) ∧ kv.2 ≠ [] ∧
      ∀ v ∈ kv.2, v ≠ [] ∧ ∀ c ∈ v, qSafeChar c = true) : groupOkKV gl = true := by
  unfold groupOkKV
  rw [List.all_eq_true]
  intro kv hm
  obtain ⟨ha, hb, hc, hd⟩ := h kv hm
  rw [Bool.and_eq_true, Bool.and_eq_true, Bool.and_eq_true]
  refine ⟨⟨⟨by simpa using ha, List.all_eq_true.mpr hb⟩, by simpa using hc⟩, ?_⟩
  rw [List.all_eq_true]
  intro v hv
  rw [Bool.and_eq_true]
  exact ⟨by simpa using (hd v hv).1, List.all_eq_true.mpr (hd v hv).2⟩

theorem insertGrouped_mem {k v : Str} {acc : List (Str × List Str)} {kv : Str × List Str}
    (h : kv ∈ insertGrouped k v acc) :
    kv ∈ acc ∨ kv = (k, [v]) ∨ ∃ kv' ∈ acc, kv = (kv'.1, kv'.2 ++ [v]) := by
  induction acc with
  | nil =>
    rcases List.mem_singleton.mp h with rfl
    exact Or.inr (Or.inl rfl)
  | cons kv0 t ih =>
    obtain ⟨k0, vs⟩ := kv0
    unfold insertGrouped at h
    by_cases hk : k0 = k
    · rw [if_pos hk] at h
      rcases List.mem_cons.mp h with rfl | h1
      · exact Or.inr (Or.inr ⟨(k0, vs), List.mem_cons_self _ _, rfl⟩)
      · exact Or.inl (List.mem_cons_of_mem _ h1)
    · rw [if_neg hk] at h
      rcases List.mem_cons.mp h with rfl | h1
      · exact Or.inl (List.mem_cons_self _ _)
      · rcases ih h1 with h2 | h2 | ⟨kv', hkv', h2⟩
        · exact Or.inl (List.mem_cons_of_mem _ h2)
        · exact Or.inr (Or.inl h2)
        · exact Or.inr (Or.inr ⟨kv', List.mem_cons_of_mem _ hkv', h2⟩)

theorem groupOkKV_groupPairs {l : List (Str × Str)} (h : queryOkKV l = true) :
    groupOkKV (groupPairs l) = true := by
  unfold groupPairs
  rw [queryOkKV, List.all_eq_true] at h
  suffices hs : ∀ acc, groupOkKV acc = true →
      groupOkKV (l.foldl (fun acc kv => insertGrouped kv.1 kv.2 acc) acc) = true from
    hs [] rfl
  induction l with
  | nil => intro acc ha; exact ha
  | cons kv t ih =>
    intro acc ha
    rw [List.foldl_cons]
    have hkv := h kv (List.mem_cons_self _ _)
    rw [Bool.and_eq_true, Bool.and_eq_true, Bool.and_eq_true] at hkv
    obtain ⟨⟨⟨h1, h2⟩, h3⟩, h4⟩ := hkv
    refine ih (fun x hx => h x (List.mem_cons_of_mem _ hx)) _ ?_
    apply groupOkKV_of_forall
    intro kv' hkv'
    rcases insertGrouped_mem hkv' with hm | hm | ⟨kv'', hkv'', hm⟩
    · exact groupOkKV_mem ha hm
    · subst hm
      refine ⟨by simpa using h1, List.all_eq_true.mp h2, by simp, ?_⟩
      intro v hv
      rcases List.mem_singleton.mp hv with rfl
      exact ⟨by simpa using h3, List.all_eq_true.mp h4⟩
    · subst hm
      obtain ⟨ha1, ha2, ha3, ha4⟩ := groupOkKV_mem ha hkv''
      refine ⟨ha1, ha2, by simp, ?_⟩
      intro v hv
      rcases List.mem_append.mp hv with h5 | h5
      · exact ha4 v h5
      · rcases List.mem_singleton.mp h5 with rfl
        exact ⟨by simpa using h3, List.all_eq_true.mp h4⟩

theorem groupOkKV_filter {gl : List (Str × List Str)} (f : Str × List Str → Bool)
    (h : groupOkKV gl = true) : groupOkKV (gl.filter f) = true :=
  groupOkKV_of_forall (fun _ hkv => groupOkKV_mem h (List.mem_of_mem_filter hkv))

theorem queryOkKV_ungroup {gl : List (Str × List Str)} (h : groupOkKV gl = true) :
    queryOkKV (ungroup gl) = true := by
  rw [queryOkKV, List.all_eq_true]
  intro kv hkv
  unfold ungroup at hkv
  rcases List.mem_flatMap.mp hkv with ⟨kv0, hkv0, hmem⟩
  rcases List.mem_map.mp hmem with ⟨v, hvmem, rfl⟩
  obtain ⟨hk0, hkq, -, hvs⟩ := groupOkKV_mem h hkv0
  obtain ⟨hv0, hvq⟩ := hvs v hvmem
  rw [Bool.and_eq_true, Bool.and_eq_true, Bool.and_eq_true]
  exact ⟨⟨⟨by simpa using hk0, List.all_eq_true.mpr hkq⟩, by simpa using hv0⟩,
    List.all_eq_true.mpr hvq⟩

theorem groupOkKV_head {kv : Str × List Str} {t : List (Str × List Str)}
    (h : groupOkKV (kv :: t) = true) : groupOkKV t = true := by
  unfold groupOkKV at h ⊢
  rw [List.all_cons, Bool.and_eq_true] at h
  exact h.2

theorem urlencode_eq_renderQuery {gl : List (Str × List Str)} (h : groupOkKV gl = true) :
    urlencode gl = renderQuery (ungroup gl) := by
  suffices hs : gl.flatMap (fun kv => kv.2.map fun v => quotePlus [] kv.1 ++ '=' :: quotePlus [] v)
      = (ungroup gl).map (fun kv => kv.1 ++ '=' :: kv.2) by
    unfold urlencode renderQuery
    rw [hs]
  induction gl with
  | nil => rfl
  | cons kv t ih =>
    obtain ⟨-, hkq, -, hvs⟩ := groupOkKV_mem h (List.mem_cons_self kv t)
    rw [List.flatMap_cons, ungroup_cons, List.map_append, List.map_map,
      ih (groupOkKV_head h)]
    congr 1
    refine List.map_congr_left ?_
    intro v hv
    show quotePlus [] kv.1 ++ '=' :: quotePlus [] v = kv.1 ++ '=' :: v
    rw [quotePlus_safe_id hkq, quotePlus_safe_id (hvs v hv).2]

theorem append_cons_isEmpty (a : Str) (c : Char) (b : Str) :
    (a ++ c :: b).isEmpty = false := by
  cases a <;> rfl

theorem renderQuery_cons_isEmpty (kv : Str × Str) (t : List (Str × Str)) :
    (renderQuery (kv :: t)).isEmpty = false := by
  cases t with
  | nil => exact append_cons_isEmpty kv.1 '=' kv.2
  | cons kv2 t2 => exact append_cons_isEmpty (kv.1 ++ '=' :: kv.2) '&' (renderQuery (kv2 :: t2))

theorem renderUrl_optQ (s h p : Str) (l : List (Str × Str)) :
    renderUrl s h p l = s ++ str "://" ++ h ++ p ++ optQ (renderQuery l) := by
  unfold renderUrl optQ
  cases l with
  | nil => rfl
  | cons kv t =>
    rw [renderQuery_cons_isEmpty kv t]
    rfl

/-! ### `clean_tracking_params` on rendered URLs -/

theorem queryOkKV_mem {l : List (Str × Str)} (h : queryOkKV l = true)
    {kv : Str × Str} (hm : kv ∈ l) :
    kv.1 ≠ [] ∧ (∀ c ∈ kv.1, qSafeChar c = true) ∧ kv.2 ≠ [] ∧
      ∀ c ∈ kv.2, qSafeChar c = true := by
  rw [queryOkKV, List.all_eq_true] at h
  have h1 := h kv hm
  rw [Bool.and_eq_true, Bool.and_eq_true, Bool.and_eq_true] at h1
  obtain ⟨⟨⟨ha, hb⟩, hc⟩, hd⟩ := h1
  exact ⟨by simpa using ha, List.all_eq_true.mp hb, by simpa using hc,
    List.all_eq_true.mp hd⟩

theorem renderQuery_mem {l : List (Str × Str)} {c : Char} (hc : c ∈ renderQuery l) :
    (∃ kv ∈ l, c ∈ kv.1 ∨ c ∈ kv.2) ∨ c = '=' ∨ c = '&' := by
  induction l with
  | nil => cases hc
  | cons kv t ih =>
    cases t with
    | nil =>
      have hr : renderQuery [kv] = kv.1 ++ '=' :: kv.2 := rfl
      rw [hr] at hc
      rcases List.mem_append.mp hc with h1 | h1
      · exact Or.inl ⟨kv, List.mem_cons_self _ _, Or.inl h1⟩
      · rcases List.mem_cons.mp h1 with rfl | h2
        · exact Or.inr (Or.inl rfl)
        · exact Or.inl ⟨kv, List.mem_cons_self _ _, Or.inr h2⟩
    | cons kv2 t2 =>
      have hr : renderQuery (kv :: kv2 :: t2)
          = (kv.1 ++ '=' :: kv.2) ++ '&' :: renderQuery (kv2 :: t2) := rfl
      rw [hr] at hc
      rcases List.mem_append.mp hc with h1 | h1
      · rcases List.mem_append.mp h1 with h2 | h2
        · exact Or.inl ⟨kv, List.mem_cons_self _ _, Or.inl h2⟩
        · rcases List.mem_cons.mp h2 with rfl | h3
          · exact Or.inr (Or.inl rfl)
          · exact Or.inl ⟨kv, List.mem_cons_self _ _, Or.inr h3⟩
      · rcases List.mem_cons.mp h1 with rfl | h2
        · exact Or.inr (Or.inr rfl)
        · rcases ih h2 with ⟨kv', hkv', h3⟩ | h3 | h3
          · exact Or.inl ⟨kv', List.mem_cons_of_mem _ hkv', h3⟩
          · exact Or.inr (Or.inl h3)
          · exact Or.inr (Or.inr h3)

theorem renderQuery_no_hash {l : List (Str × Str)} (hl : queryOkKV l = true) :
    ∀ c ∈ renderQuery l, ¬c = '#' := by
  intro c hc
  rcases renderQuery_mem hc with ⟨kv, hkv, h1 | h1⟩ | h1 | h1
  · exact char_ne_of_excluded ((queryOkKV_mem hl hkv).2.1 c h1) (by decide)
  · exact char_ne_of_excluded ((queryOkKV_mem hl hkv).2.2.2 c h1) (by decide)
  · subst h1; decide
  · subst h1; decide

theorem schemeOk_ne_nil {s : Str} (hs : schemeOk s = true) : s ≠ [] := by
  rw [schemeOk, Bool.and_eq_true, Bool.and_eq_true] at hs
  intro h
  subst h
  cases hs.1.1

theorem hostOk_facts {h : Str} (hh : hostOk h = true) :
    h ≠ [] ∧ (∀ c ∈ h, hostChar c = true) ∧ (h.getLastD ' ').isAlphanum = true := by
  rw [hostOk, Bool.and_eq_true, Bool.and_eq_true] at hh
  obtain ⟨⟨h1, h2⟩, h3⟩ := hh
  exact ⟨by simpa using h1, List.all_eq_true.mp h2, h3⟩

theorem pathOk_cases {p : Str} (hp : pathOk p = true) :
    p = [] ∨ ((str "/").isPrefixOf p = true ∧ ∀ c ∈ p, pathChar c = true) := by
  rw [pathOk, Bool.or_eq_true] at hp
  rcases hp with h1 | h1
  · exact Or.inl (by simpa using h1)
  · rw [Bool.and_eq_true] at h1
    exact Or.inr ⟨h1.1, List.all_eq_true.mp h1.2⟩

theorem urlparse_render {s h p : Str} (l : List (Str × Str))
    (hs : schemeOk s = true) (hh : hostOk h = true) (hp : pathOk p = true)
    (hl : queryOkKV l = true) :
    urlparse (renderUrl s h p l) = ⟨pyLower s, h, p, [], renderQuery l, []⟩ := by
  rw [renderUrl_optQ]
  exact urlparse_raw s h p (renderQuery l) hs (hostOk_facts hh).2.1
    (pathOk_cases hp) (renderQuery_no_hash hl)

theorem clean_render {s h p : Str} {l : List (Str × Str)}
    (hs : schemeOk s = true) (hh : hostOk h = true) (hp : pathOk p = true)
    (hl : queryOkKV l = true) :
    clean_tracking_params (renderUrl s h p l)
      = renderUrl (pyLower s) h p
          (ungroup ((groupPairs l).filter (fun kv => keepQueryKey kv.1))) := by
  unfold clean_tracking_params
  rw [urlparse_render l hs hh hp hl]
  show urlunparse ⟨pyLower s, h, p, [],
      urlencode ((parseQs (renderQuery l)).filter (fun kv => keepQueryKey kv.1)), []⟩ = _
  rw [parseQs_render hl,
    urlencode_eq_renderQuery (groupOkKV_filter _ (groupOkKV_groupPairs hl)),
    urlunparse_raw (pyLower s) h p _ (pyLower_ne_nil (schemeOk_ne_nil hs))
      (hostOk_facts hh).1
      (by rcases pathOk_cases hp with h1 | h1
          · exact Or.inl h1
          · exact Or.inr h1.1),
    ← renderUrl_optQ]

/-! ### `canonicalize` on rendered URLs -/

theorem path_ite (C : Prop) [Decidable C] (A B : UrlParts) :
    (if C then A else B).path = if C then A.path else B.path :=
  apply_ite UrlParts.path C A B

theorem query_ite (C : Prop) [Decidable C] (A B : UrlParts) :
    (if C then A else B).query = if C then A.query else B.query :=
  apply_ite UrlParts.query C A B

theorem canonicalize_render {s h p : Str} {l : List (Str × Str)}
    (hs : schemeOk s = true) (hh : hostOk h = true) (hp : pathOk p = true)
    (hl : queryOkKV l = true) :
    canonicalize (renderUrl s h p l)
      = canonFromParts h p ((groupPairs l).filter (fun kv => keepQueryKey kv.1)) := by
  set gl' := (groupPairs l).filter (fun kv => keepQueryKey kv.1) with hgl
  have hwg' : wellGrouped gl' := wellGrouped_filter _ (groupPairs_wellGrouped l)
  have hok' : groupOkKV gl' = true := groupOkKV_filter _ (groupOkKV_groupPairs hl)
  have hq' : queryOkKV (ungroup gl') = true := queryOkKV_ungroup hok'
  have hs2 : schemeOk (pyLower s) = true := schemeOk_pyLower hs
  have hclean : clean_tracking_params (renderUrl s h p l)
      = renderUrl (pyLower s) h p (ungroup gl') := clean_render hs hh hp hl
  have hparse2 := urlparse_render (s := pyLower s) (h := h) (p := p) (ungroup gl') hs2 hh hp hq'
  have hpmc : parse_maps_components (renderUrl (pyLower s) h p (ungroup gl'))
      = componentsFromParts (pyLower h) p gl' := by
    unfold parse_maps_components
    rw [hparse2]
    show componentsFromParts (pyLower h) p (parseQs (renderQuery (ungroup gl'))) = _
    rw [parseQs_render hq', groupPairs_ungroup hwg']
  have hfix : (groupPairs (ungroup gl')).filter (fun kv => keepQueryKey kv.1) = gl' := by
    rw [groupPairs_ungroup hwg', hgl, List.filter_filter]
    simp only [Bool.and_self]
  have hclean2 : clean_tracking_params (renderUrl (pyLower s) h p (ungroup gl'))
      = renderUrl (pyLower (pyLower s)) h p (ungroup gl') := by
    rw [clean_render hs2 hh hp hq', hfix]
  have hparse3 := urlparse_render (s := pyLower (pyLower s)) (h := h) (p := p)
    (ungroup gl') (schemeOk_pyLower hs2) hh hp hq'
  have hue : urlencode gl' = renderQuery (ungroup gl') := urlencode_eq_renderQuery hok'
  simp only [canonicalize, canonFromParts]
  rw [hclean, hpmc, hparse2, hclean2, hparse3, hue]
  simp only [path_ite, query_ite, ite_self]

/-! ### `extract_first_url` and `normalize_input_to_canonical` on rendered URLs -/

theorem alphanum_not_rstrip {c : Char} (h : c.isAlphanum = true) :
    rstripSet.contains c = false :=
  ascii_prop (P := fun c => c.isAlphanum = true → rstripSet.contains c = false)
    (alphanum_lt128 h) (by decide) h

theorem pathChar_not_rstrip {c : Char} (h : pathChar c = true) :
    rstripSet.contains c = false :=
  ascii_prop (P := fun c => pathChar c = true → rstripSet.contains c = false)
    (pathChar_lt128 h) (by decide) h

theorem headD_mem {α : Type} {s : List α} (h : s ≠ []) (d : α) : s.headD d ∈ s := by
  cases s with
  | nil => exact absurd rfl h
  | cons c t => exact List.mem_cons_self c t

theorem reverse_headD_eq_getLastD (s : Str) (d : Char) :
    s.reverse.headD d = s.getLastD d := by
  rw [List.headD_eq_head?_getD, List.head?_reverse, List.getLastD_eq_getLast?]

theorem reverse_headD_append (pre : Str) {r : Str} (hr : r ≠ []) (d : Char) :
    (pre ++ r).reverse.headD d = r.reverse.headD d := by
  rw [List.reverse_append]
  exact headD_append_of_ne_nil _ d (by simpa using hr)

theorem optQ_mem {qs : Str} {c : Char} (h : c ∈ optQ qs) : c = '?' ∨ c ∈ qs := by
  unfold optQ at h
  by_cases he : qs.isEmpty = true
  · rw [if_pos he] at h
    cases h
  · rw [if_neg he] at h
    exact List.mem_cons.mp h

theorem renderRest_no_stop {h p : Str} {l : List (Str × Str)}
    (hh : hostOk h = true) (hp : pathOk p = true) (hl : queryOkKV l = true) :
    ∀ c ∈ h ++ p ++ optQ (renderQuery l), isUrlStopChar c = false := by
  intro c hc
  rcases List.mem_append.mp hc with h1 | h1
  · rcases List.mem_append.mp h1 with h2 | h2
    · exact hostChar_not_stop ((hostOk_facts hh).2.1 c h2)
    · rcases pathOk_cases hp with rfl | ⟨-, hpc⟩
      · cases h2
      · exact pathChar_not_stop (hpc c h2)
  · rcases optQ_mem h1 with rfl | h2
    · decide
    · rcases renderQuery_mem h2 with ⟨kv, hkv, h3 | h3⟩ | h3 | h3
      · exact qSafe_not_stop ((queryOkKV_mem hl hkv).2.1 c h3)
      · exact qSafe_not_stop ((queryOkKV_mem hl hkv).2.2.2 c h3)
      · subst h3; decide
      · subst h3; decide

theorem renderRest_ne_nil {h p : Str} (hh : hostOk h = true) (q : Str) :
    h ++ p ++ q ≠ [] := by
  obtain ⟨h1, -, -⟩ := hostOk_facts hh
  simp [h1]

theorem optQ_of_cons (kv : Str × Str) (t : List (Str × Str)) :
    optQ (renderQuery (kv :: t)) = '?' :: renderQuery (kv :: t) := by
  unfold optQ
  rw [renderQuery_cons_isEmpty]
  rfl

theorem renderRest_last_ok {h p : Str} {l : List (Str × Str)}
    (hh : hostOk h = true) (hp : pathOk p = true) (hl : queryOkKV l = true) :
    rstripSet.contains ((h ++ p ++ optQ (renderQuery l)).reverse.headD ' ') = false := by
  cases l with
  | nil =>
    rw [show optQ (renderQuery ([] : List (Str × Str))) = [] from rfl, List.append_nil]
    rcases pathOk_cases hp with rfl | ⟨hpre, hpc⟩
    · rw [List.append_nil, reverse_headD_eq_getLastD]
      exact alphanum_not_rstrip (hostOk_facts hh).2.2
    · rcases List.isPrefixOf_iff_prefix.mp hpre with ⟨t, ht⟩
      have hpn : p ≠ [] := by
        rw [← ht]
        exact List.cons_ne_nil '/' t
      rw [reverse_headD_append h hpn]
      exact pathChar_not_rstrip
        (hpc _ (List.mem_reverse.mp (headD_mem (by simpa using hpn) ' ')))
  | cons kv t =>
    rw [optQ_of_cons kv t]
    have hqn : renderQuery (kv :: t) ≠ [] := by
      intro hq
      have := renderQuery_cons_isEmpty kv t
      rw [hq] at this
      cases this
    have hshape : h ++ p ++ '?' :: renderQuery (kv :: t)
        = (h ++ p ++ ['?']) ++ renderQuery (kv :: t) := by simp
    rw [hshape, reverse_headD_append _ hqn]
    have hmem := List.mem_reverse.mp (headD_mem (by simpa using hqn) ' ')
    rcases renderQuery_mem hmem with ⟨kv', hkv', h3 | h3⟩ | h3 | h3
    · exact qSafe_not_rstrip ((queryOkKV_mem hl hkv').2.1 _ h3)
    · exact qSafe_not_rstrip ((queryOkKV_mem hl hkv').2.2.2 _ h3)
    · rw [h3]; decide
    · rw [h3]; decide

theorem extract_first_url_exact (pre r : Str)
    (hpre : pre = str "http://" ∨ pre = str "https://")
    (hr : r ≠ []) (hstop : ∀ c ∈ r, isUrlStopChar c = false)
    (hlast : rstripSet.contains (r.reverse.headD ' ') = false) :
    extract_first_url (pre ++ r) = some (pre ++ r) := by
  have hwsh : ∀ c, isUrlStopChar c = false → isPyWs c = false := by
    intro c hc
    rw [isUrlStopChar, Bool.or_eq_false_iff, Bool.or_eq_false_iff, Bool.or_eq_false_iff,
      Bool.or_eq_false_iff, Bool.or_eq_false_iff, Bool.or_eq_false_iff] at hc
    exact hc.1.1.1.1.1.1
  have hlastmem : r.reverse.headD ' ' ∈ r := List.mem_reverse.mp (headD_mem (by simpa using hr) ' ')
  have hstrip : pyStrip (pre ++ r) = pre ++ r := by
    apply pyStrip_id
    · rcases hpre with rfl | rfl <;> rfl
    · rw [reverse_headD_append pre hr]
      exact hwsh _ (hstop _ hlastmem)
  have hrstrip : pyRstrip rstripSet (pre ++ r) = pre ++ r := by
    apply pyRstrip_id
    rw [reverse_headD_append pre hr]
    exact hlast
  have htw : r.takeWhile (fun c => !isUrlStopChar c) = r :=
    takeWhile_all (p := fun c => !isUrlStopChar c) r (fun c hc => by simp [hstop c hc])
  have hre : r.isEmpty = false := by
    cases r with
    | nil => exact absurd rfl hr
    | cons a t => rfl
  rcases hpre with rfl | rfl
  · have hhttps : (str "https://").isPrefixOf (str "http://" ++ r) = false := rfl
    have hhttp : (str "http://").isPrefixOf (str "http://" ++ r) = true :=
      List.isPrefixOf_iff_prefix.mpr ⟨r, rfl⟩
    have hmatch : matchUrlAt (str "http://" ++ r) = some (str "http://" ++ r) := by
      unfold matchUrlAt
      rw [hhttps, hhttp]
      simp only [Bool.false_eq_true, if_false, if_true]
      rw [List.drop_left' (by rfl), htw, hre]
      simp only [Bool.false_eq_true, if_false]
      rw [List.take_left' (by rfl)]
    have hscan : scanUrl (str "http://" ++ r) = some (str "http://" ++ r) := by
      show (match matchUrlAt (str "http://" ++ r) with
            | some u => some u
            | none => scanUrl (str "ttp://" ++ r)) = some (str "http://" ++ r)
      rw [hmatch]
    unfold extract_first_url
    rw [hscan]
    show (if (pyRstrip rstripSet (pyStrip (str "http://" ++ r))).isEmpty = true then none
          else some (pyRstrip rstripSet (pyStrip (str "http://" ++ r))))
        = some (str "http://" ++ r)
    rw [hstrip, hrstrip]
    rfl
  · have hhttps : (str "https://").isPrefixOf (str "https://" ++ r) = true :=
      List.isPrefixOf_iff_prefix.mpr ⟨r, rfl⟩
    have hmatch : matchUrlAt (str "https://" ++ r) = some (str "https://" ++ r) := by
      unfold matchUrlAt
      rw [hhttps]
      simp only [if_true]
      rw [List.drop_left' (by rfl), htw, hre]
      simp only [Bool.false_eq_true, if_false]
      rw [List.take_left' (by rfl)]
    have hscan : scanUrl (str "https://" ++ r) = some (str "https://" ++ r) := by
      show (match matchUrlAt (str "https://" ++ r) with
            | some u => some u
            | none => scanUrl (str "ttps://" ++ r)) = some (str "https://" ++ r)
      rw [hmatch]
    unfold extract_first_url
    rw [hscan]
    show (if (pyRstrip rstripSet (pyStrip (str "https://" ++ r))).isEmpty = true then none
          else some (pyRstrip rstripSet (pyStrip (str "https://" ++ r))))
        = some (str "https://" ++ r)
    rw [hstrip, hrstrip]
    rfl

theorem toLower_idem (c : Char) : c.toLower.toLower = c.toLower := by
  by_cases h : 65 ≤ c.toNat ∧ c.toNat ≤ 90
  · have h1 := toLower_toNat_of_upper h.1 h.2
    exact toLower_eq_self (by omega)
  · rw [toLower_eq_self h, toLower_eq_self h]

theorem pyLower_idem (s : Str) : pyLower (pyLower s) = pyLower s := by
  unfold pyLower
  rw [List.map_map]
  exact List.map_congr_left (fun c _ => toLower_idem c)

theorem maps_domain_lower (x : Str) :
    is_google_maps_domain (pyLower x) = is_google_maps_domain x := by
  unfold is_google_maps_domain
  rw [pyLower_idem]

/-! ### Percent-encoding round-trip on query values (`place_id:` survives) -/

theorem hexVal_hexDigitUpper :
    ∀ n, n < 16 → hexVal (hexDigitUpper n) = n ∧ isHexDigitChar (hexDigitUpper n) = true := by
  decide

theorem quoteByte_pct {c : Char} (_hlt : c.toNat < 128) (hs : isAlwaysSafe c = false) :
    quoteByte [] c.toNat
      = ['%', hexDigitUpper (c.toNat / 16), hexDigitUpper (c.toNat % 16)] := by
  unfold quoteByte
  simp only [Char.ofNat_toNat]
  rw [if_neg]
  intro hcond
  rw [Bool.and_eq_true, Bool.or_eq_true] at hcond
  rcases hcond.2 with h1 | h1
  · rw [hs] at h1
    cases h1
  · simp at h1

theorem q2_lt128 {c : Char} (h : qSafeChar c = true ∨ c = ':') : c.toNat < 128 := by
  rcases h with h | rfl
  · exact (qSafeChar_facts h).2
  · decide

theorem q2_flatMap_quote {v : Str} (hv : ∀ c ∈ v, qSafeChar c = true ∨ c = ':') :
    quote [] v = v.flatMap (fun c => quoteByte [] c.toNat) := by
  unfold quote utf8Encode
  induction v with
  | nil => rfl
  | cons c t ih =>
    rw [List.flatMap_cons, List.flatMap_cons,
      utf8EncodeChar_ascii (q2_lt128 (hv c (List.mem_cons_self c t))), List.flatMap_append,
      show ([c.toNat] : List Nat).flatMap (quoteByte []) = quoteByte [] c.toNat by simp,
      ih (fun a ha => hv a (List.mem_cons_of_mem c ha))]

theorem pctRun_head_not_pct {c : Char} (rest : Str) (hc : ¬c = '%') :
    pctRun (c :: rest) = ([], c :: rest) := by
  match rest with
  | [] => rfl
  | [a] => rfl
  | a :: b :: r =>
    show pctRun (c :: a :: b :: r) = ([], c :: a :: b :: r)
    unfold pctRun
    rw [if_neg]
    intro hcond
    rw [Bool.and_eq_true, Bool.and_eq_true] at hcond
    exact hc (of_decide_eq_true hcond.1.1)

theorem pctRun_pct {a b : Char} (rest : Str)
    (hab : (isHexDigitChar a && isHexDigitChar b) = true) :
    pctRun ('%' :: a :: b :: rest)
      = ((hexVal a * 16 + hexVal b) :: (pctRun rest).1, (pctRun rest).2) := by
  have hcond : (decide ('%' = '%') && isHexDigitChar a && isHexDigitChar b) = true := by
    rw [Bool.and_eq_true, Bool.and_eq_true]
    rw [Bool.and_eq_true] at hab
    exact ⟨⟨by decide, hab.1⟩, hab.2⟩
  conv_lhs => unfold pctRun
  rw [if_pos hcond]

theorem hexPair_byte {n : Nat} (h : n < 256) :
    hexVal (hexDigitUpper (n / 16)) * 16 + hexVal (hexDigitUpper (n % 16)) = n := by
  have h1 := hexVal_hexDigitUpper (n / 16) (by omega)
  have h2 := hexVal_hexDigitUpper (n % 16) (by omega)
  rw [h1.1, h2.1]
  omega

theorem pctRun_quote (v : Str) (hv : ∀ c ∈ v, qSafeChar c = true ∨ c = ':') :
    pctRun (v.flatMap (fun c => quoteByte [] c.toNat))
      = ((v.takeWhile (fun c => !isAlwaysSafe c)).map Char.toNat,
         (v.dropWhile (fun c => !isAlwaysSafe c)).flatMap (fun c => quoteByte [] c.toNat)) := by
  induction v with
  | nil => rfl
  | cons c t ih =>
    have hc128 := q2_lt128 (hv c (List.mem_cons_self c t))
    rw [List.flatMap_cons, List.takeWhile_cons, List.dropWhile_cons]
    by_cases hs : isAlwaysSafe c = true
    · rw [quoteByte_safe hc128 hs, List.singleton_append]
      rw [pctRun_head_not_pct _ (char_ne_of_excluded hs (by decide))]
      simp only [hs, Bool.not_true, Bool.false_eq_true, if_false]
      rw [List.flatMap_cons, quoteByte_safe hc128 hs, List.singleton_append]
      rfl
    · have hsf : isAlwaysSafe c = false := eq_false_of_ne_true hs
      rw [quoteByte_pct hc128 hsf]
      simp only [List.cons_append, List.nil_append]
      rw [pctRun_pct _ (by
        rw [(hexVal_hexDigitUpper (c.toNat / 16) (by omega)).2,
          (hexVal_hexDigitUpper (c.toNat % 16) (by omega)).2]
        rfl)]
      rw [ih (fun a ha => hv a (List.mem_cons_of_mem c ha))]
      rw [hexPair_byte (by omega : c.toNat < 256)]
      simp only [hsf, Bool.not_false, eq_self_iff_true, if_true]
      rfl

theorem flatMap_quoteByte_length (v : Str) :
    v.length ≤ (v.flatMap (fun c => quoteByte [] c.toNat)).length := by
  induction v with
  | nil => simp
  | cons c t ih =>
    rw [List.flatMap_cons, List.length_append]
    have hne : 1 ≤ (quoteByte [] c.toNat).length := by
      unfold quoteByte
      simp only [Char.ofNat_toNat]
      split <;> simp
    simp only [List.length_cons]
    omega

theorem utf8DecodeGo_ascii :
    ∀ f (bs : List Nat), bs.length ≤ f → (∀ b ∈ bs, b < 128) →
      utf8DecodeGo f bs = bs.map Char.ofNat := by
  intro f
  induction f with
  | zero =>
    intro bs h1 _
    rw [List.eq_nil_of_length_eq_zero (Nat.le_zero.mp h1)]
    rfl
  | succ g ih =>
    intro bs h1 h2
    cases bs with
    | nil => rfl
    | cons b rest =>
      show utf8DecodeGo (Nat.succ g) (b :: rest) = _
      unfold utf8DecodeGo
      rw [if_pos (h2 b (List.mem_cons_self b rest))]
      rw [ih rest (by simp only [List.length_cons] at h1; omega)
        (fun x hx => h2 x (List.mem_cons_of_mem b hx))]
      rfl

theorem utf8Decode_ascii (bs : List Nat) (h : ∀ b ∈ bs, b < 128) :
    utf8Decode bs = bs.map Char.ofNat :=
  utf8DecodeGo_ascii bs.length bs (le_refl _) h

theorem quoteByte_ne_nil (b : Nat) : quoteByte [] b ≠ [] := by
  show (if (decide (b < 128) && (isAlwaysSafe (Char.ofNat b) || [].contains (Char.ofNat b))) = true
      then [Char.ofNat b] else ['%', hexDigitUpper (b / 16), hexDigitUpper (b % 16)]) ≠ []
  split <;> simp

theorem unquoteGo_quote :
    ∀ f (v : Str), (v.flatMap (fun c => quoteByte [] c.toNat)).length ≤ f →
      (∀ c ∈ v, qSafeChar c = true ∨ c = ':') →
      unquoteGo f (v.flatMap (fun c => quoteByte [] c.toNat)) = v := by
  intro f
  induction f with
  | zero =>
    intro v h1 h2
    cases v with
    | nil => rfl
    | cons c t =>
      exfalso
      rw [List.flatMap_cons, List.length_append] at h1
      have := quoteByte_ne_nil c.toNat
      have hpos : 0 < (quoteByte [] c.toNat).length := List.length_pos.mpr this
      omega
  | succ g ih =>
    intro v h1 h2
    cases v with
    | nil => rfl
    | cons c t =>
      have hc128 := q2_lt128 (h2 c (List.mem_cons_self c t))
      have ht2 : ∀ a ∈ t, qSafeChar a = true ∨ a = ':' :=
        fun a ha => h2 a (List.mem_cons_of_mem c ha)
      by_cases hs : isAlwaysSafe c = true
      · rw [List.flatMap_cons, quoteByte_safe hc128 hs, List.singleton_append] at h1 ⊢
        show unquoteGo (Nat.succ g) (c :: t.flatMap fun c => quoteByte [] c.toNat) = c :: t
        unfold unquoteGo
        rw [if_neg (char_ne_of_excluded hs (by decide))]
        rw [ih t (by simp only [List.length_cons] at h1; omega) ht2]
      · have hsf : isAlwaysSafe c = false := eq_false_of_ne_true hs
        rw [List.flatMap_cons, quoteByte_pct hc128 hsf] at h1 ⊢
        simp only [List.cons_append, List.nil_append] at h1 ⊢
        show unquoteGo (Nat.succ g)
            ('%' :: hexDigitUpper (c.toNat / 16) :: hexDigitUpper (c.toNat % 16)
              :: t.flatMap fun c => quoteByte [] c.toNat) = c :: t
        unfold unquoteGo
        rw [if_pos rfl]
        have hrun : pctRun ('%' :: hexDigitUpper (c.toNat / 16) :: hexDigitUpper (c.toNat % 16)
              :: t.flatMap fun c => quoteByte [] c.toNat)
            = (c.toNat :: (t.takeWhile (fun c => !isAlwaysSafe c)).map Char.toNat,
               (t.dropWhile (fun c => !isAlwaysSafe c)).flatMap
                 (fun c => quoteByte [] c.toNat)) := by
          rw [pctRun_pct _ (by
            rw [(hexVal_hexDigitUpper (c.toNat / 16) (by omega)).2,
              (hexVal_hexDigitUpper (c.toNat % 16) (by omega)).2]
            rfl)]
          rw [pctRun_quote t ht2, hexPair_byte (by omega : c.toNat < 256)]
        rw [hrun]
        show utf8Decode (c.toNat :: (t.takeWhile (fun c => !isAlwaysSafe c)).map Char.toNat)
            ++ unquoteGo g ((t.dropWhile (fun c => !isAlwaysSafe c)).flatMap
                (fun c => quoteByte [] c.toNat))
          = c :: t
        have hdlen : ((t.dropWhile (fun c => !isAlwaysSafe c)).flatMap
            (fun c => quoteByte [] c.toNat)).length
            ≤ (t.flatMap (fun c => quoteByte [] c.toNat)).length := by
          conv_rhs => rw [← List.takeWhile_append_dropWhile
            (p := fun c => !isAlwaysSafe c) (l := t)]
          rw [List.flatMap_append, List.length_append]
          omega
        rw [ih ((t.dropWhile (fun c => !isAlwaysSafe c)))
          (by simp only [List.length_cons] at h1; omega)
          (fun a ha => ht2 a ((List.dropWhile_sublist _).subset ha))]
        rw [utf8Decode_ascii _ (by
          intro b hb
          rcases List.mem_cons.mp hb with rfl | hb
          · omega
          · rcases List.mem_map.mp hb with ⟨a, ha, rfl⟩
            exact q2_lt128 (ht2 a ((List.takeWhile_sublist _).subset ha)))]
        rw [List.map_cons, Char.ofNat_toNat, List.map_map]
        rw [show (t.takeWhile (fun c => !isAlwaysSafe c)).map (Char.ofNat ∘ Char.toNat)
            = t.takeWhile (fun c => !isAlwaysSafe c) from
          List.map_congr_left (fun a _ => Char.ofNat_toNat a) |>.trans (List.map_id _)]
        show c :: ((t.takeWhile (fun c => !isAlwaysSafe c))
            ++ t.dropWhile (fun c => !isAlwaysSafe c)) = c :: t
        rw [List.takeWhile_append_dropWhile]

theorem flatMap_quoteByte_safe {v : Str}
    (h : ∀ c ∈ v, isAlwaysSafe c = true ∧ c.toNat < 128) :
    v.flatMap (fun c => quoteByte [] c.toNat) = v := by
  induction v with
  | nil => rfl
  | cons c t ih =>
    obtain ⟨hs, hlt⟩ := h c (List.mem_cons_self c t)
    rw [List.flatMap_cons, quoteByte_safe hlt hs, List.singleton_append,
      ih (fun a ha => h a (List.mem_cons_of_mem c ha))]

theorem unquote_quote {v : Str} (hv : ∀ c ∈ v, qSafeChar c = true ∨ c = ':') :
    unquote (quote [] v) = v := by
  rw [q2_flatMap_quote hv]
  unfold unquote
  by_cases hc : (v.flatMap (fun c => quoteByte [] c.toNat)).contains '%' = true
  · rw [if_pos hc]
    exact unquoteGo_quote _ v (le_refl _) hv
  · rw [if_neg hc]
    have hsafe : ∀ c ∈ v, isAlwaysSafe c = true ∧ c.toNat < 128 := by
      intro c hcm
      have hlt := q2_lt128 (hv c hcm)
      refine ⟨?_, hlt⟩
      by_contra hns
      have hsf : isAlwaysSafe c = false := eq_false_of_ne_true hns
      apply hc
      have hmem : '%' ∈ v.flatMap (fun c => quoteByte [] c.toNat) := by
        apply List.mem_flatMap.mpr
        refine ⟨c, hcm, ?_⟩
        rw [quoteByte_pct hlt hsf]
        exact List.mem_cons_self _ _
      exact List.elem_iff.mpr hmem
    exact flatMap_quoteByte_safe hsafe

theorem quote_no_plus {v : Str} (hv : ∀ c ∈ v, qSafeChar c = true ∨ c = ':') :
    ∀ c ∈ v.flatMap (fun c => quoteByte [] c.toNat), ¬c = '+' := by
  intro c hc
  rcases List.mem_flatMap.mp hc with ⟨a, ha, hmem⟩
  have ha128 := q2_lt128 (hv a ha)
  by_cases hs : isAlwaysSafe a = true
  · rw [quoteByte_safe ha128 hs] at hmem
    rcases List.mem_singleton.mp hmem with rfl
    exact char_ne_of_excluded hs (by decide)
  · rw [quoteByte_pct ha128 (eq_false_of_ne_true hs)] at hmem
    have hhexne : ∀ n, n < 16 → ¬hexDigitUpper n = '+' := by decide
    rcases List.mem_cons.mp hmem with rfl | hmem
    · decide
    rcases List.mem_cons.mp hmem with rfl | hmem
    · exact hhexne _ (by omega)
    rcases List.mem_cons.mp hmem with rfl | hmem
    · exact hhexne _ (by omega)
    · cases hmem

theorem unquotePlus_quotePlus {v : Str} (hv : ∀ c ∈ v, qSafeChar c = true ∨ c = ':') :
    unquotePlus (quotePlus [] v) = v := by
  have hnospace : v.contains ' ' = false :=
    contains_false_of_all (f := fun c => qSafeChar c || decide (c = ':')) v ' '
      (fun c hcm => by
        rcases hv c hcm with h | rfl
        · simp [h]
        · simp) (by decide)
  rw [quotePlus_no_space hnospace]
  unfold unquotePlus
  rw [map_plus_id (fun c hcm =>
    quote_no_plus hv c (by rwa [q2_flatMap_quote hv] at hcm))]
  exact unquote_quote hv

/-! ### Inversion of `parse_maps_components` on safe grouped queries -/

theorem qsGet_some {gl : List (Str × List Str)} {k v : Str}
    (h : qsGet gl k = some v) : ∃ kv ∈ gl, kv.1 = k ∧ kv.2.headD [] = v := by
  induction gl with
  | nil => cases h
  | cons kv0 t ih =>
    obtain ⟨k0, vs⟩ := kv0
    unfold qsGet at h
    by_cases hk : k0 = k
    · rw [if_pos hk] at h
      exact ⟨(k0, vs), List.mem_cons_self _ _, hk, Option.some_inj.mp h⟩
    · rw [if_neg hk] at h
      rcases ih h with ⟨kv, hkv, h1, h2⟩
      exact ⟨kv, List.mem_cons_of_mem _ hkv, h1, h2⟩

theorem qsGet_props {gl : List (Str × List Str)} {k v : Str} (hok : groupOkKV gl = true)
    (h : qsGet gl k = some v) : v ≠ [] ∧ ∀ c ∈ v, qSafeChar c = true := by
  rcases qsGet_some h with ⟨kv, hkv, -, h2⟩
  obtain ⟨-, -, hvne, hvs⟩ := groupOkKV_mem hok hkv
  have hmem : kv.2.headD [] ∈ kv.2 := headD_mem hvne []
  exact h2 ▸ hvs _ hmem

theorem componentsFromParts_trivial (nl p' : Str) (gl : List (Str × List Str))
    (hcond : (!is_google_maps_domain nl && !(str "maps.app.goo.gl").isPrefixOf nl) = true) :
    componentsFromParts nl p' gl = ⟨none, none, none⟩ := by
  unfold componentsFromParts
  rw [if_pos hcond]

theorem componentsFromParts_inv (nl p' : Str) {gl : List (Str × List Str)}
    (hok : groupOkKV gl = true)
    (hcond : (!is_google_maps_domain nl && !(str "maps.app.goo.gl").isPrefixOf nl) = false) :
    (componentsFromParts nl p' gl).place_id = qsGet gl (str "query_place_id")
    ∧ (componentsFromParts nl p' gl).cid = qsGet gl (str "cid") := by
  unfold componentsFromParts
  rw [if_neg (by simp [hcond])]
  have hfq : ∀ qp, qsGet gl (str "q") = some qp →
      (str "place_id:").isPrefixOf qp = false := by
    intro qp hqq
    obtain ⟨-, hsafe⟩ := qsGet_props hok hqq
    rw [Bool.eq_false_iff]
    intro hpre
    rcases List.isPrefixOf_iff_prefix.mp hpre with ⟨t, ht⟩
    have hcm : ':' ∈ qp := by
      rw [← ht]
      exact List.mem_append.mpr (Or.inl (by decide))
    exact absurd (hsafe ':' hcm) (by decide)
  constructor
  · cases hqp : qsGet gl (str "query_place_id") with
    | none =>
      cases hqq : qsGet gl (str "q") with
      | none => simp only [hqp, hqq]
      | some qp =>
        simp only [hqp, hqq, hfq qp hqq, Bool.false_eq_true, if_false]
    | some qp0 =>
      obtain ⟨hne, -⟩ := qsGet_props hok hqp
      simp only [hqp]
      rw [if_pos (by simpa using hne)]
  · cases hc : qsGet gl (str "cid") with
    | none => simp only [hc]
    | some c =>
      obtain ⟨hne, -⟩ := qsGet_props hok hc
      simp only [hc]
      rw [if_pos (by simpa using hne)]

/-! ### `canonicalize` on the three canonical output shapes -/

theorem parseQsl_single' (k v : Str) (hk : ∀ c ∈ k, qSafeChar c = true)
    (hv0 : v ≠ []) (hvamp : ∀ c ∈ v, ¬c = '&') :
    parseQsl (k ++ '=' :: v) = [(unquotePlus k, unquotePlus v)] := by
  have hnoamp : ∀ c ∈ k ++ '=' :: v, ¬c = '&' := by
    intro c hc
    rcases List.mem_append.mp hc with h1 | h1
    · exact char_ne_of_excluded (hk c h1) (by decide)
    · rcases List.mem_cons.mp h1 with h2 | h2
      · subst h2; decide
      · exact hvamp c h2
  unfold parseQsl
  rw [splitOnChar_no_occ hnoamp]
  simp only [List.foldr_cons, List.foldr_nil, chunk_isEmpty_false,
    Bool.false_eq_true, if_false]
  rw [chunk_dropWhile k v hk]
  simp only [chunk_takeWhile k v hk]
  rw [if_neg (by simp [hv0])]

theorem canonFromParts_placeid (h p : Str) (gl : List (Str × List Str)) {pid : Str}
    (hpid : (componentsFromParts (pyLower h) p gl).place_id = some pid) :
    (canonFromParts h p gl).canonical_url
      = str "https://" ++ (if is_google_maps_domain h then str "www.google.com" else h)
        ++ str "/maps/place/?q=place_id:" ++ pid
    ∧ (canonFromParts h p gl).cache_key = str "place_id:" ++ pid := by
  simp only [canonFromParts]
  rw [hpid]
  exact ⟨rfl, rfl⟩

theorem canonFromParts_cid (h p : Str) (gl : List (Str × List Str)) {c : Str}
    (hpid : (componentsFromParts (pyLower h) p gl).place_id = none)
    (hcid : (componentsFromParts (pyLower h) p gl).cid = some c) :
    (canonFromParts h p gl).canonical_url
      = str "https://maps.google.com/?cid=" ++ c ++ str "&t=m"
    ∧ (canonFromParts h p gl).cache_key = str "cid:" ++ c := by
  simp only [canonFromParts]
  rw [hpid, hcid]
  exact ⟨rfl, rfl⟩

theorem canonFromParts_hash (h p : Str) (gl : List (Str × List Str))
    (hpid : (componentsFromParts (pyLower h) p gl).place_id = none)
    (hcid : (componentsFromParts (pyLower h) p gl).cid = none) :
    (canonFromParts h p gl).canonical_url
      = urlunparse ⟨str "https",
          (if is_google_maps_domain h then str "www.google.com" else h),
          (if is_google_maps_domain h && !(str "/maps").isPrefixOf p then str "/maps" else p),
          [], urlencode gl, []⟩
    ∧ (canonFromParts h p gl).cache_key
      = str "url:" ++ sha16 (urlunparse ⟨str "https",
          (if is_google_maps_domain h then str "www.google.com" else h),
          (if is_google_maps_domain h && !(str "/maps").isPrefixOf p then str "/maps" else p),
          [], urlencode gl, []⟩) := by
  simp only [canonFromParts]
  rw [hpid, hcid]
  exact ⟨rfl, rfl⟩

theorem canonicalize_cid {c : Str} (hc0 : c ≠ []) (hcq : ∀ a ∈ c, qSafeChar a = true) :
    (canonicalize (str "https://maps.google.com/?cid=" ++ c ++ str "&t=m")).canonical_url
      = str "https://maps.google.com/?cid=" ++ c ++ str "&t=m"
    ∧ (canonicalize (str "https://maps.google.com/?cid=" ++ c ++ str "&t=m")).cache_key
      = str "cid:" ++ c := by
  have hform : str "https://maps.google.com/?cid=" ++ c ++ str "&t=m"
      = renderUrl (str "https") (str "maps.google.com") (str "/")
          [(str "cid", c), (str "t", str "m")] := rfl
  have hl : queryOkKV [(str "cid", c), (str "t", str "m")] = true := by
    rw [queryOkKV, List.all_eq_true]
    intro kv hkv
    rcases List.mem_cons.mp hkv with rfl | hkv
    · rw [Bool.and_eq_true, Bool.and_eq_true, Bool.and_eq_true]
      refine ⟨⟨⟨?_, ?_⟩, by simpa using hc0⟩, List.all_eq_true.mpr hcq⟩
      · show (!(str "cid").isEmpty) = true
        decide
      · show (str "cid").all qSafeChar = true
        decide
    · rcases List.mem_cons.mp hkv with rfl | hkv
      · decide
      · cases hkv
  have hcanon := canonicalize_render (s := str "https") (h := str "maps.google.com")
    (p := str "/") (by decide) (by decide) (by decide) hl
  have hgl : (groupPairs [(str "cid", c), (str "t", str "m")]).filter
      (fun kv => keepQueryKey kv.1) = [(str "cid", [c])] := rfl
  have hok : groupOkKV [(str "cid", [c])] = true := by
    apply groupOkKV_of_forall
    intro kv hkv
    rcases List.mem_singleton.mp hkv with rfl
    refine ⟨?_, ?_, by simp, ?_⟩
    · show (str "cid") ≠ []
      decide
    · show ∀ a ∈ str "cid", qSafeChar a = true
      decide
    · intro v hv
      rcases List.mem_singleton.mp hv with rfl
      exact ⟨hc0, hcq⟩
  have hinv := componentsFromParts_inv (pyLower (str "maps.google.com")) (str "/")
    hok (by decide)
  have hpid : (componentsFromParts (pyLower (str "maps.google.com")) (str "/")
      [(str "cid", [c])]).place_id = none := by
    rw [hinv.1]
    rfl
  have hcid : (componentsFromParts (pyLower (str "maps.google.com")) (str "/")
      [(str "cid", [c])]).cid = some c := by
    rw [hinv.2]
    rfl
  have hproj := canonFromParts_cid (str "maps.google.com") (str "/") [(str "cid", [c])]
    hpid hcid
  rw [hform, hcanon, hgl]
  exact ⟨hproj.1.trans hform, hproj.2⟩

theorem canonicalize_placeid {B pid : Str} (hB : hostOk B = true)
    (hpid0 : pid ≠ []) (hpidq : ∀ a ∈ pid, qSafeChar a = true)
    (hcond : (!is_google_maps_domain (pyLower B)
        && !(str "maps.app.goo.gl").isPrefixOf (pyLower B)) = false)
    (hBfix : (if is_google_maps_domain B = true then str "www.google.com" else B) = B) :
    (canonicalize (str "https://" ++ B ++ str "/maps/place/?q=place_id:" ++ pid)).canonical_url
      = str "https://" ++ B ++ str "/maps/place/?q=place_id:" ++ pid
    ∧ (canonicalize (str "https://" ++ B ++ str "/maps/place/?q=place_id:" ++ pid)).cache_key
      = str "place_id:" ++ pid := by
  have hv1 : ∀ a ∈ str "place_id:" ++ pid, qSafeChar a = true ∨ a = ':' := by
    intro a ha
    rcases List.mem_append.mp ha with h1 | h1
    · exact (by decide : ∀ x ∈ str "place_id:", qSafeChar x = true ∨ x = ':') a h1
    · exact Or.inl (hpidq a h1)
  have hv1ne : str "place_id:" ++ pid ≠ [] := by
    rw [show (str "place_id:" ++ pid : Str) = 'p' :: (str "lace_id:" ++ pid) from rfl]
    exact List.cons_ne_nil _ _
  have hv2ne : str "place_id%3A" ++ pid ≠ [] := by
    rw [show (str "place_id%3A" ++ pid : Str) = 'p' :: (str "lace_id%3A" ++ pid) from rfl]
    exact List.cons_ne_nil _ _
  have hurl : str "https://" ++ B ++ str "/maps/place/?q=place_id:" ++ pid
      = str "https" ++ str "://" ++ B ++ str "/maps/place/"
        ++ optQ (str "q" ++ '=' :: (str "place_id:" ++ pid)) := by
    rw [show optQ (str "q" ++ '=' :: (str "place_id:" ++ pid))
        = '?' :: (str "q" ++ '=' :: (str "place_id:" ++ pid)) from rfl]
    rw [show (str "https://" : Str) = str "https" ++ str "://" from rfl]
    rw [show (str "/maps/place/?q=place_id:" : Str)
        = str "/maps/place/" ++ ('?' :: (str "q" ++ ('=' :: str "place_id:"))) from rfl]
    simp [List.append_assoc]
  have hsch : schemeOk (str "https") = true := by decide
  obtain ⟨hBne, hBc, -⟩ := hostOk_facts hB
  have hpath : (str "/maps/place/" : Str) = [] ∨
      ((str "/").isPrefixOf (str "/maps/place/") = true ∧
        ∀ c ∈ str "/maps/place/", pathChar c = true) := Or.inr ⟨by decide, by decide⟩
  have hq1hash : ∀ c ∈ str "q" ++ '=' :: (str "place_id:" ++ pid), ¬c = '#' := by
    intro c hc
    rcases List.mem_append.mp hc with h1 | h1
    · exact (by decide : ∀ x ∈ str "q", ¬x = '#') c h1
    · rcases List.mem_cons.mp h1 with rfl | h1
      · decide
      · rcases List.mem_append.mp h1 with h2 | h2
        · exact (by decide : ∀ x ∈ str "place_id:", ¬x = '#') c h2
        · exact char_ne_of_excluded (hpidq c h2) (by decide)
  have hq2hash : ∀ c ∈ str "q" ++ '=' :: (str "place_id%3A" ++ pid), ¬c = '#' := by
    intro c hc
    rcases List.mem_append.mp hc with h1 | h1
    · exact (by decide : ∀ x ∈ str "q", ¬x = '#') c h1
    · rcases List.mem_cons.mp h1 with rfl | h1
      · decide
      · rcases List.mem_append.mp h1 with h2 | h2
        · exact (by decide : ∀ x ∈ str "place_id%3A", ¬x = '#') c h2
        · exact char_ne_of_excluded (hpidq c h2) (by decide)
  have hparse1 := urlparse_raw (str "https") B (str "/maps/place/")
    (str "q" ++ '=' :: (str "place_id:" ++ pid)) hsch hBc hpath hq1hash
  have hparse2 := urlparse_raw (str "https") B (str "/maps/place/")
    (str "q" ++ '=' :: (str "place_id%3A" ++ pid)) hsch hBc hpath hq2hash
  have hpq1 : parseQs (str "q" ++ '=' :: (str "place_id:" ++ pid))
      = [(str "q", [str "place_id:" ++ pid])] := by
    unfold parseQs
    rw [parseQsl_single' (str "q") _ (by decide) hv1ne
      (fun c hc => by
        rcases List.mem_append.mp hc with h1 | h1
        · exact (by decide : ∀ x ∈ str "place_id:", ¬x = '&') c h1
        · exact char_ne_of_excluded (hpidq c h1) (by decide))]
    rw [show unquotePlus (str "q") = str "q" from rfl,
      unquotePlus_safe (fun c hc => by
        rcases List.mem_append.mp hc with h1 | h1
        · exact (by decide : ∀ x ∈ str "place_id:", ¬x = '%' ∧ ¬x = '+') c h1
        · exact ⟨char_ne_of_excluded (hpidq c h1) (by decide),
            char_ne_of_excluded (hpidq c h1) (by decide)⟩)]
    rfl
  have hqp : quotePlus [] (str "place_id:" ++ pid) = str "place_id%3A" ++ pid := by
    have hns : (str "place_id:" ++ pid).contains ' ' = false :=
      contains_false_of_all (f := fun c => qSafeChar c || decide (c = ':')) _ ' '
        (fun c hc => by
          rcases hv1 c hc with h | rfl
          · simp [h]
          · simp) (by decide)
    rw [quotePlus_no_space hns, quote_append,
      show quote [] (str "place_id:") = str "place_id%3A" from rfl, quote_safe_id hpidq]
  have hdec : unquotePlus (str "place_id%3A" ++ pid) = str "place_id:" ++ pid := by
    rw [← hqp]
    exact unquotePlus_quotePlus hv1
  have henc : urlencode [(str "q", [str "place_id:" ++ pid])]
      = str "q" ++ '=' :: (str "place_id%3A" ++ pid) := by
    show quotePlus [] (str "q") ++ '=' :: quotePlus [] (str "place_id:" ++ pid) = _
    rw [show quotePlus [] (str "q") = str "q" from rfl, hqp]
  have hclean : clean_tracking_params (str "https" ++ str "://" ++ B ++ str "/maps/place/"
        ++ optQ (str "q" ++ '=' :: (str "place_id:" ++ pid)))
      = str "https" ++ str "://" ++ B ++ str "/maps/place/"
        ++ optQ (str "q" ++ '=' :: (str "place_id%3A" ++ pid)) := by
    unfold clean_tracking_params
    rw [hparse1]
    show urlunparse ⟨pyLower (str "https"), B, str "/maps/place/", [],
        urlencode ((parseQs (str "q" ++ '=' :: (str "place_id:" ++ pid))).filter
          (fun kv => keepQueryKey kv.1)), []⟩ = _
    rw [hpq1,
      show ([(str "q", [str "place_id:" ++ pid])].filter (fun kv => keepQueryKey kv.1))
        = [(str "q", [str "place_id:" ++ pid])] from rfl,
      henc,
      urlunparse_raw (pyLower (str "https")) B (str "/maps/place/") _
        (by decide) hBne (Or.inr (by decide)),
      show pyLower (str "https") = str "https" from rfl]
  have hcleanU : clean_tracking_params
        (str "https://" ++ B ++ str "/maps/place/?q=place_id:" ++ pid)
      = str "https" ++ str "://" ++ B ++ str "/maps/place/"
        ++ optQ (str "q" ++ '=' :: (str "place_id%3A" ++ pid)) := by
    rw [hurl]
    exact hclean
  have hpq2 : parseQs (str "q" ++ '=' :: (str "place_id%3A" ++ pid))
      = [(str "q", [str "place_id:" ++ pid])] := by
    unfold parseQs
    rw [parseQsl_single' (str "q") _ (by decide) hv2ne
      (fun c hc => by
        rcases List.mem_append.mp hc with h1 | h1
        · exact (by decide : ∀ x ∈ str "place_id%3A", ¬x = '&') c h1
        · exact char_ne_of_excluded (hpidq c h1) (by decide))]
    rw [show unquotePlus (str "q") = str "q" from rfl, hdec]
    rfl
  have hpmc : parse_maps_components (str "https" ++ str "://" ++ B ++ str "/maps/place/"
        ++ optQ (str "q" ++ '=' :: (str "place_id%3A" ++ pid)))
      = componentsFromParts (pyLower B) (str "/maps/place/")
          [(str "q", [str "place_id:" ++ pid])] := by
    unfold parse_maps_components
    rw [hparse2]
    show componentsFromParts (pyLower B) (str "/maps/place/")
        (parseQs (str "q" ++ '=' :: (str "place_id%3A" ++ pid))) = _
    rw [hpq2]
  have hcomp : (componentsFromParts (pyLower B) (str "/maps/place/")
        [(str "q", [str "place_id:" ++ pid])]).place_id = some pid
      ∧ (componentsFromParts (pyLower B) (str "/maps/place/")
        [(str "q", [str "place_id:" ++ pid])]).cid = none := by
    unfold componentsFromParts
    rw [if_neg (by simp [hcond])]
    have h1 : qsGet [(str "q", [str "place_id:" ++ pid])] (str "query_place_id") = none := rfl
    have h2 : qsGet [(str "q", [str "place_id:" ++ pid])] (str "q")
        = some (str "place_id:" ++ pid) := rfl
    have h3 : qsGet [(str "q", [str "place_id:" ++ pid])] (str "cid") = none := rfl
    have hpre : (str "place_id:").isPrefixOf (str "place_id:" ++ pid) = true :=
      List.isPrefixOf_iff_prefix.mpr ⟨pid, rfl⟩
    have hdrop : (str "place_id:" ++ pid).drop (str "place_id:").length = pid :=
      List.drop_left _ _
    simp only [h1, h2, h3, hpre, eq_self_iff_true, if_true, hdrop]
    rw [if_neg (by simpa using hpid0)]
    constructor <;> first | rfl | trivial
  simp only [canonicalize]
  rw [hcleanU, hpmc, hparse2, hcomp.1, hcomp.2]
  constructor
  · show str "https://" ++ (if is_google_maps_domain B = true then str "www.google.com" else B)
        ++ str "/maps/place/?q=place_id:" ++ pid
      = str "https://" ++ B ++ str "/maps/place/?q=place_id:" ++ pid
    rw [hBfix]
  · rfl

/-! ### `normalize_input_to_canonical` on URL inputs -/

theorem extract_render {s h p : Str} {l : List (Str × Str)}
    (hs : s = str "http" ∨ s = str "https") (hh : hostOk h = true) (hp : pathOk p = true)
    (hl : queryOkKV l = true) :
    extract_first_url (renderUrl s h p l) = some (renderUrl s h p l) := by
  have hrne : h ++ p ++ optQ (renderQuery l) ≠ [] := renderRest_ne_nil hh _
  have hstop := renderRest_no_stop hh hp hl
  have hlast := renderRest_last_ok hh hp hl
  have hshape : renderUrl s h p l
      = (s ++ str "://") ++ (h ++ p ++ optQ (renderQuery l)) := by
    rw [renderUrl_optQ]
    simp [List.append_assoc]
  rcases hs with rfl | rfl
  · rw [hshape, show (str "http" ++ str "://" : Str) = str "http://" from rfl]
    exact extract_first_url_exact _ _ (Or.inl rfl) hrne hstop hlast
  · rw [hshape, show (str "https" ++ str "://" : Str) = str "https://" from rfl]
    exact extract_first_url_exact _ _ (Or.inr rfl) hrne hstop hlast

theorem pyStrip_render {s h p : Str} {l : List (Str × Str)}
    (hs : s = str "http" ∨ s = str "https") (hh : hostOk h = true) (hp : pathOk p = true)
    (hl : queryOkKV l = true) :
    pyStrip (renderUrl s h p l) = renderUrl s h p l := by
  have hrne : h ++ p ++ optQ (renderQuery l) ≠ [] := renderRest_ne_nil hh _
  have hstop := renderRest_no_stop hh hp hl
  have hshape : renderUrl s h p l
      = (s ++ str "://") ++ (h ++ p ++ optQ (renderQuery l)) := by
    rw [renderUrl_optQ]
    simp [List.append_assoc]
  rw [hshape]
  apply pyStrip_id
  · rcases hs with rfl | rfl <;> rfl
  · rw [reverse_headD_append _ hrne]
    have hrev : (h ++ p ++ optQ (renderQuery l)).reverse ≠ [] := by
      intro hx
      rw [List.reverse_eq_nil_iff] at hx
      exact hrne hx
    have hmem := List.mem_reverse.mp (headD_mem hrev ' ')
    have hws := hstop _ hmem
    rw [isUrlStopChar, Bool.or_eq_false_iff, Bool.or_eq_false_iff, Bool.or_eq_false_iff,
      Bool.or_eq_false_iff, Bool.or_eq_false_iff, Bool.or_eq_false_iff] at hws
    exact hws.1.1.1.1.1.1

set_option maxHeartbeats 1000000 in
theorem normalize_of_url {t : Str} (hstrip : pyStrip t = t)
    (hext : extract_first_url t = some t) :
    (normalize_input_to_canonical t).canonical_url = (canonicalize t).canonical_url
    ∧ (normalize_input_to_canonical t).cache_key = (canonicalize t).cache_key := by
  simp only [normalize_input_to_canonical]
  rw [hstrip, hext]
  exact ⟨rfl, rfl⟩

theorem qSafe_not_ws {c : Char} (h : qSafeChar c = true) : isPyWs c = false :=
  ascii_prop (P := fun c => qSafeChar c = true → isPyWs c = false)
    (qSafeChar_facts h).2 (by decide) h

theorem roundtrip_placeid (h p : Str) (gl' : List (Str × List Str)) {pid : Str}
    (hh : hostOk h = true) (hok' : groupOkKV gl' = true)
    (hpid : (componentsFromParts (pyLower h) p gl').place_id = some pid) :
    (normalize_input_to_canonical ((canonFromParts h p gl').canonical_url)).cache_key
      = (canonFromParts h p gl').cache_key
    ∧ (normalize_input_to_canonical ((canonFromParts h p gl').canonical_url)).canonical_url
      = (canonFromParts h p gl').canonical_url := by
  have hproj := canonFromParts_placeid h p gl' hpid
  have hcond : (!is_google_maps_domain (pyLower h)
      && !(str "maps.app.goo.gl").isPrefixOf (pyLower h)) = false := by
    by_cases hcnd : (!is_google_maps_domain (pyLower h)
        && !(str "maps.app.goo.gl").isPrefixOf (pyLower h)) = true
    · rw [componentsFromParts_trivial _ _ _ hcnd] at hpid
      cases hpid
    · exact eq_false_of_ne_true hcnd
  have hinv := componentsFromParts_inv (pyLower h) p hok' hcond
  have hqp : qsGet gl' (str "query_place_id") = some pid := by rw [← hinv.1, hpid]
  obtain ⟨hpid0, hpidq⟩ := qsGet_props hok' hqp
  have hBhost : hostOk (if is_google_maps_domain h = true
      then str "www.google.com" else h) = true := by
    by_cases hm : is_google_maps_domain h = true
    · rw [if_pos hm]; decide
    · rw [if_neg hm]; exact hh
  have hBfix : (if is_google_maps_domain (if is_google_maps_domain h = true
        then str "www.google.com" else h) = true then str "www.google.com"
      else (if is_google_maps_domain h = true then str "www.google.com" else h))
      = (if is_google_maps_domain h = true then str "www.google.com" else h) := by
    by_cases hm : is_google_maps_domain h = true
    · rw [if_pos hm]
      exact ite_self _
    · rw [if_neg hm, if_neg hm]
  have hcond2 : (!is_google_maps_domain (pyLower (if is_google_maps_domain h = true
        then str "www.google.com" else h))
      && !(str "maps.app.goo.gl").isPrefixOf (pyLower (if is_google_maps_domain h = true
        then str "www.google.com" else h))) = false := by
    by_cases hm : is_google_maps_domain h = true
    · rw [if_pos hm]; decide
    · rw [if_neg hm]; exact hcond
  have hcanon2 := canonicalize_placeid hBhost hpid0 hpidq hcond2 hBfix
  obtain ⟨hBne, hBc, -⟩ := hostOk_facts hBhost
  have hshape : str "https://" ++ (if is_google_maps_domain h = true
        then str "www.google.com" else h) ++ str "/maps/place/?q=place_id:" ++ pid
      = str "https://" ++ ((if is_google_maps_domain h = true
        then str "www.google.com" else h) ++ (str "/maps/place/?q=place_id:" ++ pid)) := by
    simp [List.append_assoc]
  have hshape2 : (if is_google_maps_domain h = true then str "www.google.com" else h)
        ++ (str "/maps/place/?q=place_id:" ++ pid)
      = ((if is_google_maps_domain h = true then str "www.google.com" else h)
        ++ str "/maps/place/?q=place_id:") ++ pid := by
    simp [List.append_assoc]
  have hrne2 : (if is_google_maps_domain h = true then str "www.google.com" else h)
      ++ (str "/maps/place/?q=place_id:" ++ pid) ≠ [] := by
    simp [hBne]
  have hrevpid : pid.reverse ≠ [] := by
    intro hx
    exact hpid0 (by simpa using congrArg List.reverse hx)
  have hext2 : extract_first_url (str "https://" ++ (if is_google_maps_domain h = true
        then str "www.google.com" else h) ++ str "/maps/place/?q=place_id:" ++ pid)
      = some (str "https://" ++ (if is_google_maps_domain h = true
        then str "www.google.com" else h) ++ str "/maps/place/?q=place_id:" ++ pid) := by
    rw [hshape]
    refine extract_first_url_exact _ _ (Or.inr rfl) hrne2 ?_ ?_
    · intro c hc
      rcases List.mem_append.mp hc with h1 | h1
      · exact hostChar_not_stop (hBc c h1)
      · rcases List.mem_append.mp h1 with h2 | h2
        · exact (by decide : ∀ x ∈ str "/maps/place/?q=place_id:",
            isUrlStopChar x = false) c h2
        · exact qSafe_not_stop (hpidq c h2)
    · rw [hshape2, reverse_headD_append _ hpid0]
      exact qSafe_not_rstrip (hpidq _ (List.mem_reverse.mp (headD_mem hrevpid ' ')))
  have hstrip2 : pyStrip (str "https://" ++ (if is_google_maps_domain h = true
        then str "www.google.com" else h) ++ str "/maps/place/?q=place_id:" ++ pid)
      = str "https://" ++ (if is_google_maps_domain h = true
        then str "www.google.com" else h) ++ str "/maps/place/?q=place_id:" ++ pid := by
    rw [hshape]
    apply pyStrip_id
    · rfl
    · rw [reverse_headD_append (str "https://") hrne2, hshape2,
        reverse_headD_append _ hpid0]
      exact qSafe_not_ws (hpidq _ (List.mem_reverse.mp (headD_mem hrevpid ' ')))
  have hn2 := normalize_of_url hstrip2 hext2
  constructor
  · rw [hproj.2, hproj.1, hn2.2, hcanon2.2]
  · rw [hproj.1, hn2.1, hcanon2.1]

theorem queryOkKV_cid_tm {c : Str} (hc0 : c ≠ []) (hcq : ∀ a ∈ c, qSafeChar a = true) :
    queryOkKV [(str "cid", c), (str "t", str "m")] = true := by
  rw [queryOkKV, List.all_eq_true]
  intro kv hkv
  rcases List.mem_cons.mp hkv with rfl | hkv
  · rw [Bool.and_eq_true, Bool.and_eq_true, Bool.and_eq_true]
    refine ⟨⟨⟨?_, ?_⟩, by simpa using hc0⟩, List.all_eq_true.mpr hcq⟩
    · show (!(str "cid").isEmpty) = true
      decide
    · show (str "cid").all qSafeChar = true
      decide
  · rcases List.mem_cons.mp hkv with rfl | hkv
    · decide
    · cases hkv

theorem roundtrip_cid (h p : Str) (gl' : List (Str × List Str)) {c : Str}
    (hok' : groupOkKV gl' = true)
    (hpid : (componentsFromParts (pyLower h) p gl').place_id = none)
    (hcid : (componentsFromParts (pyLower h) p gl').cid = some c) :
    (normalize_input_to_canonical ((canonFromParts h p gl').canonical_url)).cache_key
      = (canonFromParts h p gl').cache_key
    ∧ (normalize_input_to_canonical ((canonFromParts h p gl').canonical_url)).canonical_url
      = (canonFromParts h p gl').canonical_url := by
  have hproj := canonFromParts_cid h p gl' hpid hcid
  have hcond : (!is_google_maps_domain (pyLower h)
      && !(str "maps.app.goo.gl").isPrefixOf (pyLower h)) = false := by
    by_cases hcnd : (!is_google_maps_domain (pyLower h)
        && !(str "maps.app.goo.gl").isPrefixOf (pyLower h)) = true
    · rw [componentsFromParts_trivial _ _ _ hcnd] at hcid
      cases hcid
    · exact eq_false_of_ne_true hcnd
  have hinv := componentsFromParts_inv (pyLower h) p hok' hcond
  have hqc : qsGet gl' (str "cid") = some c := by rw [← hinv.2, hcid]
  obtain ⟨hc0, hcq⟩ := qsGet_props hok' hqc
  have hcanon2 := canonicalize_cid hc0 hcq
  have hform : str "https://maps.google.com/?cid=" ++ c ++ str "&t=m"
      = renderUrl (str "https") (str "maps.google.com") (str "/")
          [(str "cid", c), (str "t", str "m")] := rfl
  have hlq := queryOkKV_cid_tm hc0 hcq
  have hext2 : extract_first_url (str "https://maps.google.com/?cid=" ++ c ++ str "&t=m")
      = some (str "https://maps.google.com/?cid=" ++ c ++ str "&t=m") := by
    rw [hform]
    exact extract_render (Or.inr rfl) (by decide) (by decide) hlq
  have hstrip2 : pyStrip (str "https://maps.google.com/?cid=" ++ c ++ str "&t=m")
      = str "https://maps.google.com/?cid=" ++ c ++ str "&t=m" := by
    rw [hform]
    exact pyStrip_render (Or.inr rfl) (by decide) (by decide) hlq
  have hn2 := normalize_of_url hstrip2 hext2
  constructor
  · rw [hproj.2, hproj.1, hn2.2, hcanon2.2]
  · rw [hproj.1, hn2.1, hcanon2.1]

theorem roundtrip_hash (h p : Str) (gl' : List (Str × List Str))
    (hh : hostOk h = true) (hp : pathOk p = true)
    (hok' : groupOkKV gl' = true) (hwg' : wellGrouped gl')
    (hfix0 : gl'.filter (fun kv => keepQueryKey kv.1) = gl')
    (hpid : (componentsFromParts (pyLower h) p gl').place_id = none)
    (hcid : (componentsFromParts (pyLower h) p gl').cid = none) :
    (normalize_input_to_canonical ((canonFromParts h p gl').canonical_url)).cache_key
      = (canonFromParts h p gl').cache_key
    ∧ (normalize_input_to_canonical ((canonFromParts h p gl').canonical_url)).canonical_url
      = (canonFromParts h p gl').canonical_url := by
  have hproj := canonFromParts_hash h p gl' hpid hcid
  have hue : urlencode gl' = renderQuery (ungroup gl') := urlencode_eq_renderQuery hok'
  have hq' : queryOkKV (ungroup gl') = true := queryOkKV_ungroup hok'
  have hBhost : hostOk (if is_google_maps_domain h = true
      then str "www.google.com" else h) = true := by
    by_cases hm : is_google_maps_domain h = true
    · rw [if_pos hm]; decide
    · rw [if_neg hm]; exact hh
  obtain ⟨hBne, -, -⟩ := hostOk_facts hBhost
  have hP2ok : pathOk (if is_google_maps_domain h && !(str "/maps").isPrefixOf p
      then str "/maps" else p) = true := by
    by_cases hcnd : (is_google_maps_domain h && !(str "/maps").isPrefixOf p) = true
    · rw [if_pos hcnd]; decide
    · rw [if_neg hcnd]; exact hp
  have hrender : urlunparse ⟨str "https",
        (if is_google_maps_domain h = true then str "www.google.com" else h),
        (if is_google_maps_domain h && !(str "/maps").isPrefixOf p then str "/maps" else p),
        [], urlencode gl', []⟩
      = renderUrl (str "https")
          (if is_google_maps_domain h = true then str "www.google.com" else h)
          (if is_google_maps_domain h && !(str "/maps").isPrefixOf p then str "/maps" else p)
          (ungroup gl') := by
    rw [hue, urlunparse_raw _ _ _ _ (by decide) hBne
        (by rcases pathOk_cases hP2ok with h1 | h1
            · exact Or.inl h1
            · exact Or.inr h1.1),
      ← renderUrl_optQ]
  have hcanon2 := canonicalize_render (s := str "https")
    (h := if is_google_maps_domain h = true then str "www.google.com" else h)
    (p := if is_google_maps_domain h && !(str "/maps").isPrefixOf p then str "/maps" else p)
    (l := ungroup gl') (by decide) hBhost hP2ok hq'
  have hfix : (groupPairs (ungroup gl')).filter (fun kv => keepQueryKey kv.1) = gl' := by
    rw [groupPairs_ungroup hwg']
    exact hfix0
  rw [hfix] at hcanon2
  have hnone2 : (componentsFromParts
        (pyLower (if is_google_maps_domain h = true then str "www.google.com" else h))
        (if is_google_maps_domain h && !(str "/maps").isPrefixOf p then str "/maps" else p)
        gl').place_id = none
      ∧ (componentsFromParts
        (pyLower (if is_google_maps_domain h = true then str "www.google.com" else h))
        (if is_google_maps_domain h && !(str "/maps").isPrefixOf p then str "/maps" else p)
        gl').cid = none := by
    by_cases hcnd1 : (!is_google_maps_domain (pyLower h)
        && !(str "maps.app.goo.gl").isPrefixOf (pyLower h)) = true
    · have hmf : is_google_maps_domain h = false := by
        rw [Bool.and_eq_true] at hcnd1
        have h1 := hcnd1.1
        rw [Bool.not_eq_true'] at h1
        rw [← maps_domain_lower h]
        exact h1
      rw [if_neg (by simp [hmf]), if_neg (by simp [hmf]),
        componentsFromParts_trivial _ _ _ hcnd1]
      exact ⟨rfl, rfl⟩
    · have hcnd1f := eq_false_of_ne_true hcnd1
      have hinv1 := componentsFromParts_inv (pyLower h) p hok' hcnd1f
      have hqpn : qsGet gl' (str "query_place_id") = none := by rw [← hinv1.1, hpid]
      have hqcn : qsGet gl' (str "cid") = none := by rw [← hinv1.2, hcid]
      have hcond2 : (!is_google_maps_domain
            (pyLower (if is_google_maps_domain h = true then str "www.google.com" else h))
          && !(str "maps.app.goo.gl").isPrefixOf
            (pyLower (if is_google_maps_domain h = true then str "www.google.com" else h)))
          = false := by
        by_cases hm : is_google_maps_domain h = true
        · rw [if_pos hm]; decide
        · rw [if_neg hm]; exact hcnd1f
      have hinv2 := componentsFromParts_inv
        (pyLower (if is_google_maps_domain h = true then str "www.google.com" else h))
        (if is_google_maps_domain h && !(str "/maps").isPrefixOf p then str "/maps" else p)
        hok' hcond2
      exact ⟨by rw [hinv2.1]; exact hqpn, by rw [hinv2.2]; exact hqcn⟩
  have hproj2 := canonFromParts_hash
    (if is_google_maps_domain h = true then str "www.google.com" else h)
    (if is_google_maps_domain h && !(str "/maps").isPrefixOf p then str "/maps" else p)
    gl' hnone2.1 hnone2.2
  have hBfix : (if is_google_maps_domain (if is_google_maps_domain h = true
        then str "www.google.com" else h) = true then str "www.google.com"
      else (if is_google_maps_domain h = true then str "www.google.com" else h))
      = (if is_google_maps_domain h = true then str "www.google.com" else h) := by
    by_cases hm : is_google_maps_domain h = true
    · rw [if_pos hm]
      exact ite_self _
    · rw [if_neg hm, if_neg hm]
  have hP2fix : (if is_google_maps_domain (if is_google_maps_domain h = true
          then str "www.google.com" else h)
        && !(str "/maps").isPrefixOf (if is_google_maps_domain h
          && !(str "/maps").isPrefixOf p then str "/maps" else p)
      then str "/maps"
      else (if is_google_maps_domain h && !(str "/maps").isPrefixOf p
        then str "/maps" else p))
      = (if is_google_maps_domain h && !(str "/maps").isPrefixOf p
        then str "/maps" else p) := by
    by_cases hm : is_google_maps_domain h = true
    · rw [if_pos hm]
      by_cases hpref : (str "/maps").isPrefixOf p = true
      · have hP2p : (if (is_google_maps_domain h && !(str "/maps").isPrefixOf p) = true
            then str "/maps" else p) = p := by
          rw [if_neg (by simp [hpref])]
        rw [hP2p, if_neg (by simp [hpref])]
      · have hP2m : (if (is_google_maps_domain h && !(str "/maps").isPrefixOf p) = true
            then str "/maps" else p) = str "/maps" := by
          rw [if_pos (by simp [hm, eq_false_of_ne_true hpref])]
        rw [hP2m, if_neg (by decide)]
    · have hmf := eq_false_of_ne_true hm
      rw [if_neg hm, if_neg (by simp [hmf])]
  have hext2 : extract_first_url (urlunparse ⟨str "https",
        (if is_google_maps_domain h = true then str "www.google.com" else h),
        (if is_google_maps_domain h && !(str "/maps").isPrefixOf p then str "/maps" else p),
        [], urlencode gl', []⟩)
      = some (urlunparse ⟨str "https",
        (if is_google_maps_domain h = true then str "www.google.com" else h),
        (if is_google_maps_domain h && !(str "/maps").isPrefixOf p then str "/maps" else p),
        [], urlencode gl', []⟩) := by
    rw [hrender]
    exact extract_render (Or.inr rfl) hBhost hP2ok hq'
  have hstrip2 : pyStrip (urlunparse ⟨str "https",
        (if is_google_maps_domain h = true then str "www.google.com" else h),
        (if is_google_maps_domain h && !(str "/maps").isPrefixOf p then str "/maps" else p),
        [], urlencode gl', []⟩)
      = urlunparse ⟨str "https",
        (if is_google_maps_domain h = true then str "www.google.com" else h),
        (if is_google_maps_domain h && !(str "/maps").isPrefixOf p then str "/maps" else p),
        [], urlencode gl', []⟩ := by
    rw [hrender]
    exact pyStrip_render (Or.inr rfl) hBhost hP2ok hq'
  have hn2 := normalize_of_url hstrip2 hext2
  constructor
  · rw [hproj.2, hproj.1, hn2.2, hrender, hcanon2, hproj2.2, hBfix, hP2fix, hrender]
  · rw [hproj.1, hn2.1, hrender, hcanon2, hproj2.1, hBfix, hP2fix, hrender]

/-- C3 (amended): identity resolution is idempotent on URL inputs: for every
URL rendered from an `http`/`https` scheme, a well-formed host, a rooted path
over unreserved characters and a query over unreserved characters, resolving
the canonical URL produced by `normalize_input_to_canonical` again yields the
same cache key and the same canonical URL.  (On free-text inputs idempotence
fails — the first resolution produces a `search_url:` key and the second an
`url:` key — see `normalize_free_text_not_idempotent`.) -/
theorem normalize_url_idempotent (s h p : Str) (l : List (Str × Str))
    (hs : s = str "http" ∨ s = str "https") (hh : hostOk h = true)
    (hp : pathOk p = true) (hl : queryOkKV l = true) :
    (normalize_input_to_canonical
        ((normalize_input_to_canonical (renderUrl s h p l)).canonical_url)).cache_key
      = (normalize_input_to_canonical (renderUrl s h p l)).cache_key
    ∧ (normalize_input_to_canonical
        ((normalize_input_to_canonical (renderUrl s h p l)).canonical_url)).canonical_url
      = (normalize_input_to_canonical (renderUrl s h p l)).canonical_url := by
  have hsOk : schemeOk s = true := by rcases hs with rfl | rfl <;> decide
  have hn1 := normalize_of_url (pyStrip_render hs hh hp hl) (extract_render hs hh hp hl)
  have hc1 := canonicalize_render hsOk hh hp hl
  have hcu : (normalize_input_to_canonical (renderUrl s h p l)).canonical_url
      = (canonFromParts h p
          ((groupPairs l).filter (fun kv => keepQueryKey kv.1))).canonical_url := by
    rw [hn1.1, hc1]
  have hck : (normalize_input_to_canonical (renderUrl s h p l)).cache_key
      = (canonFromParts h p
          ((groupPairs l).filter (fun kv => keepQueryKey kv.1))).cache_key := by
    rw [hn1.2, hc1]
  have hok' : groupOkKV ((groupPairs l).filter (fun kv => keepQueryKey kv.1)) = true :=
    groupOkKV_filter _ (groupOkKV_groupPairs hl)
  have hwg' : wellGrouped ((groupPairs l).filter (fun kv => keepQueryKey kv.1)) :=
    wellGrouped_filter _ (groupPairs_wellGrouped l)
  have hfix0 : ((groupPairs l).filter (fun kv => keepQueryKey kv.1)).filter
      (fun kv => keepQueryKey kv.1)
      = (groupPairs l).filter (fun kv => keepQueryKey kv.1) := by
    rw [List.filter_filter]
    simp only [Bool.and_self]
  rw [hcu, hck]
  cases hpidc : (componentsFromParts (pyLower h) p
      ((groupPairs l).filter (fun kv => keepQueryKey kv.1))).place_id with
  | some pid => exact roundtrip_placeid h p _ hh hok' hpidc
  | none =>
    cases hcidc : (componentsFromParts (pyLower h) p
        ((groupPairs l).filter (fun kv => keepQueryKey kv.1))).cid with
    | some c => exact roundtrip_cid h p _ hok' hpidc hcidc
    | none => exact roundtrip_hash h p _ hh hp hok' hwg' hfix0 hpidc hcidc

theorem normalize_url_idempotent_witness :
    ((str "https" : Str) = str "http" ∨ (str "https" : Str) = str "https")
    ∧ hostOk (str "www.google.com") = true
    ∧ pathOk (str "/maps/place") = true
    ∧ queryOkKV [(str "q", str "cafe")] = true
    ∧ ((normalize_input_to_canonical
          ((normalize_input_to_canonical (renderUrl (str "https") (str "www.google.com")
            (str "/maps/place") [(str "q", str "cafe")])).canonical_url)).cache_key
        = (normalize_input_to_canonical (renderUrl (str "https") (str "www.google.com")
            (str "/maps/place") [(str "q", str "cafe")])).cache_key
      ∧ (normalize_input_to_canonical
          ((normalize_input_to_canonical (renderUrl (str "https") (str "www.google.com")
            (str "/maps/place") [(str "q", str "cafe")])).canonical_url)).canonical_url
        = (normalize_input_to_canonical (renderUrl (str "https") (str "www.google.com")
            (str "/maps/place") [(str "q", str "cafe")])).canonical_url) :=
  ⟨by decide, by decide, by decide, by decide,
    normalize_url_idempotent (str "https") (str "www.google.com") (str "/maps/place")
      [(str "q", str "cafe")] (by decide) (by decide) (by decide) (by decide)⟩

/-- C4 (amended): for URL inputs rendered from the same host and path,
identity resolution is invariant under the scheme (`http` vs `https`) and
under adding, removing or reordering non-allow-listed (tracking) query
parameters: whenever the allow-list-filtered grouped queries of the two URLs
agree, both resolutions produce the same cache key and the same canonical
URL.  Host casing is not in general invariant — see
`resolve_host_casing_not_invariant`. -/
theorem resolve_tracking_invariant (s₁ s₂ h p : Str) (l₁ l₂ : List (Str × Str))
    (hs₁ : s₁ = str "http" ∨ s₁ = str "https")
    (hs₂ : s₂ = str "http" ∨ s₂ = str "https")
    (hh : hostOk h = true) (hp : pathOk p = true)
    (hl₁ : queryOkKV l₁ = true) (hl₂ : queryOkKV l₂ = true)
    (heq : (groupPairs l₁).filter (fun kv => keepQueryKey kv.1)
         = (groupPairs l₂).filter (fun kv => keepQueryKey kv.1)) :
    (normalize_input_to_canonical (renderUrl s₁ h p l₁)).cache_key
      = (normalize_input_to_canonical (renderUrl s₂ h p l₂)).cache_key
    ∧ (normalize_input_to_canonical (renderUrl s₁ h p l₁)).canonical_url
      = (normalize_input_to_canonical (renderUrl s₂ h p l₂)).canonical_url := by
  have hsOk₁ : schemeOk s₁ = true := by rcases hs₁ with rfl | rfl <;> decide
  have hsOk₂ : schemeOk s₂ = true := by rcases hs₂ with rfl | rfl <;> decide
  have h1 := normalize_of_url (pyStrip_render hs₁ hh hp hl₁) (extract_render hs₁ hh hp hl₁)
  have h2 := normalize_of_url (pyStrip_render hs₂ hh hp hl₂) (extract_render hs₂ hh hp hl₂)
  have hc1 := canonicalize_render hsOk₁ hh hp hl₁
  have hc2 := canonicalize_render hsOk₂ hh hp hl₂
  rw [h1.1, h1.2, h2.1, h2.2, hc1, hc2, heq]
  exact ⟨rfl, rfl⟩

theorem resolve_tracking_invariant_witness :
    ((str "http" : Str) = str "http" ∨ (str "http" : Str) = str "https")
    ∧ ((str "https" : Str) = str "http" ∨ (str "https" : Str) = str "https")
    ∧ hostOk (str "www.google.com") = true
    ∧ pathOk (str "/maps") = true
    ∧ queryOkKV [(str "q", str "cafe"), (str "utm_source", str "newsletter")] = true
    ∧ queryOkKV [(str "fbclid", str "abc123"), (str "q", str "cafe")] = true
    ∧ (groupPairs [(str "q", str "cafe"), (str "utm_source", str "newsletter")]).filter
        (fun kv => keepQueryKey kv.1)
      = (groupPairs [(str "fbclid", str "abc123"), (str "q", str "cafe")]).filter
        (fun kv => keepQueryKey kv.1)
    ∧ ((normalize_input_to_canonical (renderUrl (str "http") (str "www.google.com")
          (str "/maps") [(str "q", str "cafe"), (str "utm_source", str "newsletter")])).cache_key
        = (normalize_input_to_canonical (renderUrl (str "https") (str "www.google.com")
          (str "/maps") [(str "fbclid", str "abc123"), (str "q", str "cafe")])).cache_key
      ∧ (normalize_input_to_canonical (renderUrl (str "http") (str "www.google.com")
          (str "/maps") [(str "q", str "cafe"), (str "utm_source", str "newsletter")])).canonical_url
        = (normalize_input_to_canonical (renderUrl (str "https") (str "www.google.com")
          (str "/maps") [(str "fbclid", str "abc123"), (str "q", str "cafe")])).canonical_url) :=
  ⟨by decide, by decide, by decide, by decide, by decide, by decide, by decide,
    resolve_tracking_invariant (str "http") (str "https") (str "www.google.com") (str "/maps")
      [(str "q", str "cafe"), (str "utm_source", str "newsletter")]
      [(str "fbclid", str "abc123"), (str "q", str "cafe")]
      (by decide) (by decide) (by decide) (by decide) (by decide) (by decide) (by decide)⟩

end GR
